import Mathlib

/-!
Shallow embedding of the type-table module of the yices2 repository
(`src/types.c`): hash-consed type constructors, cardinality/flag
derivation, the sup/inf lattice engine with its caches, the symbol
table, and the mark-and-sweep garbage collector.

Machine integers are modelled by `Nat` (all the arithmetic in the file
is non-overflowing in C: cardinalities are `uint32_t` values combined in
`uint64_t`, and products are cut off as soon as they exceed
`UINT32_MAX`, so no `% 2^64` reduction can ever trigger).  Type ids are
`Int`, matching the signed `type_t` with its sentinels `NULL_TYPE = -1`
and `UNKNOWN_TYPE = -2`.  The parallel arrays of the table are total
functions from `Int`, updated pointwise.
-/

namespace Types

/-- Modelled from the spec: sentinel `NULL_TYPE = -1` (no type). -/
def NULL_TYPE : Int := -1

/-- Modelled from the spec: `UNKNOWN = -2`, the internal cache-miss marker
of the lattice engine (`#define UNKNOWN_TYPE (-2)` in types.c). -/
def UNKNOWN_TYPE : Int := -2

/-- Modelled from the spec: the fixed ids of the three primitive types. -/
def bool_id : Int := 0

/-- Modelled from the spec: id of the integer type. -/
def int_id : Int := 1

/-- Modelled from the spec: id of the real type. -/
def real_id : Int := 2

/-- Largest `uint32_t` value; cardinalities saturate here. -/
def UINT32_MAX : Nat := 4294967295

/-- Modelled from the spec: the five flag bits of the flag byte
(types.h is not in the sources; the spec lists FINITE, UNIT, SMALL
(exact card), MAXIMAL, MINIMAL). -/
def TYPE_IS_FINITE_MASK : Nat := 1

/-- Modelled from the spec: unit bit (cardinality exactly 1). -/
def TYPE_IS_UNIT_MASK : Nat := 2

/-- Modelled from the spec: exact-cardinality (SMALL) bit. -/
def CARD_IS_EXACT_MASK : Nat := 4

/-- Modelled from the spec: maximal-in-the-lattice bit. -/
def TYPE_IS_MAXIMAL_MASK : Nat := 8

/-- Modelled from the spec: minimal-in-the-lattice bit. -/
def TYPE_IS_MINIMAL_MASK : Nat := 16

/-- Modelled from the spec: mask of the min/max bits. -/
def MINMAX_FLAGS_MASK : Nat := 24

/-- Modelled from the spec: mask of the cardinality bits
(finite, unit, exact). -/
def CARD_FLAGS_MASK : Nat := 7

/-- Modelled from the spec: canonical flags of a unit type
(`FINITE|UNIT|SMALL|MAX|MIN`). -/
def UNIT_TYPE_FLAGS : Nat := 31

/-- Modelled from the spec: canonical flags of a small finite type
(`FINITE|SMALL|MAX|MIN`). -/
def SMALL_TYPE_FLAGS : Nat := 29

/-- Modelled from the spec: canonical flags of a large finite type
(`FINITE|MAX|MIN`). -/
def LARGE_TYPE_FLAGS : Nat := 25

/-- Modelled from the spec: canonical flags of an infinite type; the
constructors then OR in min/max bits (`int` keeps only MIN, `real` only
MAX, uninterpreted types both). -/
def INFINITE_TYPE_FLAGS : Nat := 0

/-- The kind tags of `type_kind_t`. -/
inductive TypeKind where
  | UNUSED_TYPE
  | BOOL_TYPE
  | INT_TYPE
  | REAL_TYPE
  | BITVECTOR_TYPE
  | SCALAR_TYPE
  | UNINTERPRETED_TYPE
  | TUPLE_TYPE
  | FUNCTION_TYPE
deriving DecidableEq, Repr

/-- The descriptor union `type_desc_t`: either nothing (primitives,
uninterpreted), a small integer (bitvector width, scalar size), a
free-list link `next`, a tuple payload, or a function payload. -/
inductive TypeDesc where
  | nullptr
  | integer (k : Nat)
  | next (j : Int)
  | tuple (elem : List Int)
  | fn (range : Int) (domain : List Int)
deriving DecidableEq, Repr

/-- Read the `.next` field of a descriptor (meaningful on free slots). -/
def TypeDesc.nextOf : TypeDesc → Int
  | .next j => j
  | _ => NULL_TYPE

/-- The type table `type_table_t`.  The five parallel arrays are total
functions from ids; `htbl` is the set of ids registered in the
hash-consing table (the int_htbl stores (hash, id) records and
membership is decided by the structural `eq` functions, so a list of
ids is a faithful model); `sup_tbl`/`inf_tbl` are the lattice caches
(`int_hmap2`: lists of `(k0, k1, val)` records, newest first); `stbl`
is the symbol table's binding stack (newest binding first); `mark` is
the GC mark bit of each id. -/
structure TypeTable where
  size : Nat
  nelems : Nat
  kind : Int → TypeKind
  desc : Int → TypeDesc
  card : Int → Nat
  flags : Int → Nat
  name : Int → Option String
  free_idx : Int
  htbl : List Int
  sup_tbl : Option (List (Int × Int × Int))
  inf_tbl : Option (List (Int × Int × Int))
  stbl : List (String × Int)
  mark : Int → Bool

/-- Pointwise update of a table array. -/
def upd {α : Type} (f : Int → α) (i : Int) (v : α) : Int → α :=
  fun j => if j = i then v else f j

/-- Header accessor `good_type`: `i` is a live id. -/
def good_type (t : TypeTable) (i : Int) : Prop :=
  0 ≤ i ∧ i < (t.nelems : Int) ∧ t.kind i ≠ .UNUSED_TYPE

instance (t : TypeTable) (i : Int) : Decidable (good_type t i) := by
  unfold good_type; infer_instance

/-- Header accessor `type_card`. -/
def type_card (t : TypeTable) (i : Int) : Nat := t.card i

/-- Header accessor `type_flags`. -/
def type_flags (t : TypeTable) (i : Int) : Nat := t.flags i

/-- Header accessor `type_is_marked`. -/
def type_is_marked (t : TypeTable) (i : Int) : Bool := t.mark i

/-!  ## Type creation (`types.c`, TYPE CREATION section)  -/

/-- `allocate_type_id`: pop the free list if possible, else append a
fresh slot (extending the size by the 1.5 rule when needed); the name
field of the slot is reset to NULL. -/
def allocate_type_id (t : TypeTable) : Int × TypeTable :=
  let i := t.free_idx
  if 0 ≤ i then
    (i, { t with free_idx := (t.desc i).nextOf, name := upd t.name i none })
  else
    let i : Int := (t.nelems : Int)
    let t1 := { t with nelems := t.nelems + 1 }
    let t2 := if t.nelems ≥ t.size
              then { t1 with size := (t.size + 1) + (t.size + 1) / 2 }
              else t1
    (i, { t2 with name := upd t2.name i none })

/-- `erase_type`: free the descriptor of `i` and push `i` on the free
list; a no-op on primitive and already-deleted slots. -/
def erase_type (t : TypeTable) (i : Int) : TypeTable :=
  match t.kind i with
  | .UNUSED_TYPE | .BOOL_TYPE | .INT_TYPE | .REAL_TYPE => t
  | _ =>
    { t with
      name := upd t.name i none,
      kind := upd t.kind i .UNUSED_TYPE,
      desc := upd t.desc i (.next t.free_idx),
      free_idx := i }

/-- `type_flags_conjunct`: bitwise AND of the flags of the types in `a`,
starting from `UNIT_TYPE_FLAGS`. -/
def type_flags_conjunct (t : TypeTable) (a : List Int) : Nat :=
  a.foldl (fun flg x => flg &&& type_flags t x) UNIT_TYPE_FLAGS

/-- Loop body of `type_card_product`: multiply the running product by
each cardinality, stopping as soon as the product exceeds
`UINT32_MAX`. -/
def type_card_product_loop (t : TypeTable) : List Int → Nat → Nat
  | [], prod => prod
  | x :: rest, prod =>
    let p := prod * type_card t x
    if p > UINT32_MAX then p else type_card_product_loop t rest p

/-- `type_card_product`: product of the cardinalities of the types in
`a`; a value `> UINT32_MAX` signals overflow. -/
def type_card_product (t : TypeTable) (a : List Int) : Nat :=
  type_card_product_loop t a 1

/-- The `while (dom > 1)` loop of `fun_type_card`: raise `power` by
another factor `range` until `dom` is exhausted or the power exceeds
`UINT32_MAX`. -/
def fun_type_card_power (range : Nat) : Nat → Nat → Nat
  | power, 0 => power
  | power, 1 => power
  | power, d + 2 =>
    let p := power * range
    if p > UINT32_MAX then p else fun_type_card_power range p (d + 1)

/-- `fun_type_card`: cardinality of `e[0] ... e[n-1] --> r`, where the
domains are small or unit and `r` is small; a value `> UINT32_MAX`
signals overflow.  On the `dom >= 32` path the code means to saturate
with `power = UINT32_MAX+1`, but `UINT32_MAX` has type `unsigned int`,
so the sum is evaluated in 32-bit unsigned arithmetic and wraps to 0
before it is widened to the `uint64_t` variable `power`: the function
returns 0 on that path. -/
def fun_type_card (t : TypeTable) (e : List Int) (r : Int) : Nat :=
  let dom := type_card_product t e
  if dom ≥ 32 then
    (UINT32_MAX + 1) % 2 ^ 32
  else
    fun_type_card_power (type_card t r) (type_card t r) dom

/-- `add_primitive_types`: install bool, int, real at ids 0, 1, 2. -/
def add_primitive_types (t : TypeTable) : TypeTable :=
  let a0 := allocate_type_id t
  let t := { a0.2 with kind := upd a0.2.kind a0.1 .BOOL_TYPE,
                       desc := upd a0.2.desc a0.1 .nullptr,
                       card := upd a0.2.card a0.1 2,
                       flags := upd a0.2.flags a0.1 SMALL_TYPE_FLAGS }
  let a1 := allocate_type_id t
  let t := { a1.2 with kind := upd a1.2.kind a1.1 .INT_TYPE,
                       desc := upd a1.2.desc a1.1 .nullptr,
                       card := upd a1.2.card a1.1 UINT32_MAX,
                       flags := upd a1.2.flags a1.1 (INFINITE_TYPE_FLAGS ||| TYPE_IS_MINIMAL_MASK) }
  let a2 := allocate_type_id t
  { a2.2 with kind := upd a2.2.kind a2.1 .REAL_TYPE,
              desc := upd a2.2.desc a2.1 .nullptr,
              card := upd a2.2.card a2.1 UINT32_MAX,
              flags := upd a2.2.flags a2.1 (INFINITE_TYPE_FLAGS ||| TYPE_IS_MAXIMAL_MASK) }

/-- `type_table_init`: a fresh table of capacity `n` with empty
hash-cons table, symbol table and caches. -/
def type_table_init (n : Nat) : TypeTable where
  size := n
  nelems := 0
  kind := fun _ => .UNUSED_TYPE
  desc := fun _ => .nullptr
  card := fun _ => 0
  flags := fun _ => 0
  name := fun _ => none
  free_idx := NULL_TYPE
  htbl := []
  sup_tbl := none
  inf_tbl := none
  stbl := []
  mark := fun _ => false

/-- `init_type_table`: initialize the table and add the primitives. -/
def init_type_table (n : Nat) : TypeTable :=
  add_primitive_types (type_table_init n)

/-- `new_bitvector_type`: add `(bitvector k)`. -/
def new_bitvector_type (t : TypeTable) (k : Nat) : Int × TypeTable :=
  let i := (allocate_type_id t).1
  let t := (allocate_type_id t).2
  let t := { t with kind := upd t.kind i .BITVECTOR_TYPE,
                    desc := upd t.desc i (.integer k) }
  if k < 32 then
    (i, { t with card := upd t.card i (2 ^ k),
                 flags := upd t.flags i SMALL_TYPE_FLAGS })
  else
    (i, { t with card := upd t.card i UINT32_MAX,
                 flags := upd t.flags i LARGE_TYPE_FLAGS })

/-- `new_scalar_type`: add a scalar type with `k` elements; not
hash-consed. -/
def new_scalar_type (t : TypeTable) (k : Nat) : Int × TypeTable :=
  let i := (allocate_type_id t).1
  let t := (allocate_type_id t).2
  let t := { t with kind := upd t.kind i .SCALAR_TYPE,
                    desc := upd t.desc i (.integer k),
                    card := upd t.card i k }
  if k = 1 then
    (i, { t with flags := upd t.flags i UNIT_TYPE_FLAGS })
  else
    (i, { t with flags := upd t.flags i SMALL_TYPE_FLAGS })

/-- `new_uninterpreted_type`: add a fresh uninterpreted type; not
hash-consed. -/
def new_uninterpreted_type (t : TypeTable) : Int × TypeTable :=
  let i := (allocate_type_id t).1
  let t := (allocate_type_id t).2
  (i, { t with kind := upd t.kind i .UNINTERPRETED_TYPE,
               desc := upd t.desc i .nullptr,
               card := upd t.card i UINT32_MAX,
               flags := upd t.flags i
                 (INFINITE_TYPE_FLAGS ||| TYPE_IS_MAXIMAL_MASK ||| TYPE_IS_MINIMAL_MASK) })

/-- `new_tuple_type`: add `tuple(e[0], ..., e[n-1])` with the flag/card
derivation of types.c (conjunction of flags; product of cards with
saturation past `UINT32_MAX` downgrading SMALL to LARGE). -/
def new_tuple_type (t : TypeTable) (e : List Int) : Int × TypeTable :=
  let i := (allocate_type_id t).1
  let t := (allocate_type_id t).2
  let t := { t with kind := upd t.kind i .TUPLE_TYPE,
                    desc := upd t.desc i (.tuple e) }
  let flag := type_flags_conjunct t e
  if flag = UNIT_TYPE_FLAGS then
    (i, { t with card := upd t.card i 1, flags := upd t.flags i flag })
  else if flag = SMALL_TYPE_FLAGS then
    let card := type_card_product t e
    if card > UINT32_MAX then
      (i, { t with card := upd t.card i UINT32_MAX,
                   flags := upd t.flags i LARGE_TYPE_FLAGS })
    else
      (i, { t with card := upd t.card i card, flags := upd t.flags i flag })
  else
    (i, { t with card := upd t.card i UINT32_MAX, flags := upd t.flags i flag })

/-- `new_function_type`: add `(e[0], ..., e[n-1] --> r)`.  Min/max bits
come from the range; if the range is finite but not unit, the
cardinality bits are intersected with the conjunction over the domains;
the cardinality follows `fun_type_card` with saturation. -/
def new_function_type (t : TypeTable) (e : List Int) (r : Int) : Int × TypeTable :=
  let i := (allocate_type_id t).1
  let t := (allocate_type_id t).2
  let t := { t with kind := upd t.kind i .FUNCTION_TYPE,
                    desc := upd t.desc i (.fn r e) }
  let flag0 := type_flags t r
  let minmax := flag0 &&& MINMAX_FLAGS_MASK
  let flag :=
    if flag0 &&& (TYPE_IS_FINITE_MASK ||| TYPE_IS_UNIT_MASK) = TYPE_IS_FINITE_MASK then
      flag0 &&& type_flags_conjunct t e
    else flag0
  if flag = UNIT_TYPE_FLAGS then
    (i, { t with card := upd t.card i 1,
                 flags := upd t.flags i (minmax ||| (flag &&& CARD_FLAGS_MASK)) })
  else if flag = SMALL_TYPE_FLAGS then
    let card := fun_type_card t e r
    if card > UINT32_MAX then
      (i, { t with card := upd t.card i UINT32_MAX,
                   flags := upd t.flags i (minmax ||| (LARGE_TYPE_FLAGS &&& CARD_FLAGS_MASK)) })
    else
      (i, { t with card := upd t.card i card,
                   flags := upd t.flags i (minmax ||| (flag &&& CARD_FLAGS_MASK)) })
  else
    (i, { t with card := upd t.card i UINT32_MAX,
                 flags := upd t.flags i (minmax ||| (flag &&& CARD_FLAGS_MASK)) })

/-- The cardinality-flag branch selected by `new_function_type`: when
the range is finite but not unit, intersect its flags with the
conjunction over the domains. -/
def fun_flag_branch (f0 conj : Nat) : Nat :=
  if f0 &&& (TYPE_IS_FINITE_MASK ||| TYPE_IS_UNIT_MASK) = TYPE_IS_FINITE_MASK
  then f0 &&& conj else f0

/-- Cardinality stored by `new_function_type`, as a function of the
range flags `f0`, the domain conjunction `conj`, and the raw
`fun_type_card` value `fc`. -/
def new_fun_card (f0 conj fc : Nat) : Nat :=
  let fl := fun_flag_branch f0 conj
  if fl = UNIT_TYPE_FLAGS then 1
  else if fl = SMALL_TYPE_FLAGS then (if fc > UINT32_MAX then UINT32_MAX else fc)
  else UINT32_MAX

/-- Flag byte stored by `new_function_type`. -/
def new_fun_flags (f0 conj fc : Nat) : Nat :=
  let mm := f0 &&& MINMAX_FLAGS_MASK
  let fl := fun_flag_branch f0 conj
  if fl = UNIT_TYPE_FLAGS then mm ||| (fl &&& CARD_FLAGS_MASK)
  else if fl = SMALL_TYPE_FLAGS then
    (if fc > UINT32_MAX then mm ||| (LARGE_TYPE_FLAGS &&& CARD_FLAGS_MASK)
     else mm ||| (fl &&& CARD_FLAGS_MASK))
  else mm ||| (fl &&& CARD_FLAGS_MASK)

/-- Cardinality stored by `new_tuple_type`, as a function of the
conjunction `conj` of the element flags and the raw product `prod`. -/
def new_tuple_card (conj prod : Nat) : Nat :=
  if conj = UNIT_TYPE_FLAGS then 1
  else if conj = SMALL_TYPE_FLAGS then (if prod > UINT32_MAX then UINT32_MAX else prod)
  else UINT32_MAX

/-- Flag byte stored by `new_tuple_type`. -/
def new_tuple_flags (conj prod : Nat) : Nat :=
  if conj = UNIT_TYPE_FLAGS then conj
  else if conj = SMALL_TYPE_FLAGS then (if prod > UINT32_MAX then LARGE_TYPE_FLAGS else conj)
  else conj

/-!  ## Hash consing (`types.c`, HASH CONSING section)

The int_htbl (not under src/) stores `(hash, id)` records; `int_htbl_get_obj`
scans for a record whose structural `eq` function accepts the query and
otherwise calls the builder and registers the built id.  Modelled from the
spec ("Lookups return either an existing id or trigger the builder"): the
table is the list of registered ids and lookup scans it with the `eq`
functions of types.c. -/

/-- `eq_bv_type`: does live id `i` hold the bitvector type of width `size`? -/
def eq_bv_type (t : TypeTable) (i : Int) (size : Nat) : Prop :=
  t.kind i = .BITVECTOR_TYPE ∧ t.desc i = .integer size

instance (t : TypeTable) (i : Int) (size : Nat) : Decidable (eq_bv_type t i size) := by
  unfold eq_bv_type; infer_instance

/-- `eq_tuple_type`: does live id `i` hold the tuple type with the given
elements?  (The C code compares arity and then each element.) -/
def eq_tuple_type (t : TypeTable) (i : Int) (e : List Int) : Prop :=
  t.kind i = .TUPLE_TYPE ∧ t.desc i = .tuple e

instance (t : TypeTable) (i : Int) (e : List Int) : Decidable (eq_tuple_type t i e) := by
  unfold eq_tuple_type; infer_instance

/-- `eq_function_type`: does live id `i` hold the function type with the
given range and domains? -/
def eq_function_type (t : TypeTable) (i : Int) (range : Int) (e : List Int) : Prop :=
  t.kind i = .FUNCTION_TYPE ∧ t.desc i = .fn range e

instance (t : TypeTable) (i : Int) (range : Int) (e : List Int) :
    Decidable (eq_function_type t i range e) := by
  unfold eq_function_type; infer_instance

/-- `bv_type`: hash-consed constructor for `(bitvector size)`. -/
def bv_type (t : TypeTable) (size : Nat) : Int × TypeTable :=
  match t.htbl.find? (fun i => decide (eq_bv_type t i size)) with
  | some i => (i, t)
  | none =>
    let p := new_bitvector_type t size
    (p.1, { p.2 with htbl := p.1 :: p.2.htbl })

/-- `tuple_type`: hash-consed constructor for tuples. -/
def tuple_type (t : TypeTable) (e : List Int) : Int × TypeTable :=
  match t.htbl.find? (fun i => decide (eq_tuple_type t i e)) with
  | some i => (i, t)
  | none =>
    let p := new_tuple_type t e
    (p.1, { p.2 with htbl := p.1 :: p.2.htbl })

/-- `function_type`: hash-consed constructor for function types. -/
def function_type (t : TypeTable) (range : Int) (e : List Int) : Int × TypeTable :=
  match t.htbl.find? (fun i => decide (eq_function_type t i range e)) with
  | some i => (i, t)
  | none =>
    let p := new_function_type t e range
    (p.1, { p.2 with htbl := p.1 :: p.2.htbl })

/-!  ## Type names (`types.c`, symbol-table section)

The stbl (not under src/) is modelled from the spec (§4.D): a binding
stack; `stbl_add` pushes, `stbl_find` returns the newest binding or -1,
`stbl_remove` pops the newest binding of the name.  String reference
counts are not represented. -/

/-- `set_type_name`: record `name` on the descriptor of `i` if `i` has no
name yet; always push a (possibly shadowing) binding. -/
def set_type_name (t : TypeTable) (i : Int) (s : String) : TypeTable :=
  let t := if t.name i = none then { t with name := upd t.name i (some s) } else t
  { t with stbl := (s, i) :: t.stbl }

/-- `get_type_by_name`: newest binding of `s`, or `NULL_TYPE` (the C
comment notes that `stbl_find` returns -1 = NULL_TYPE when absent). -/
def get_type_by_name (t : TypeTable) (s : String) : Int :=
  match t.stbl.find? (fun p => p.1 = s) with
  | some p => p.2
  | none => NULL_TYPE

/-- Pop the newest binding of `s` from a binding stack. -/
def stbl_pop (s : String) : List (String × Int) → List (String × Int)
  | [] => []
  | p :: rest => if p.1 = s then rest else p :: stbl_pop s rest

/-- `remove_type_name`: pop the newest binding of `s` (no-op when there
is none). -/
def remove_type_name (t : TypeTable) (s : String) : TypeTable :=
  { t with stbl := stbl_pop s t.stbl }

/-!  ## Lattice engine (`types.c`, COMMON SUPERTYPE / COMMON SUBTYPE)  -/

/-- Header accessor `tuple_type_arity`. -/
def tuple_type_arity (t : TypeTable) (i : Int) : Nat :=
  match t.desc i with
  | .tuple e => e.length
  | _ => 0

/-- Header accessor `function_type_arity`. -/
def function_type_arity (t : TypeTable) (i : Int) : Nat :=
  match t.desc i with
  | .fn _ dom => dom.length
  | _ => 0

/-- Elements of a tuple descriptor. -/
def tuple_elems (t : TypeTable) (i : Int) : List Int :=
  match t.desc i with
  | .tuple e => e
  | _ => []

/-- Domain of a function descriptor. -/
def fun_domain (t : TypeTable) (i : Int) : List Int :=
  match t.desc i with
  | .fn _ dom => dom
  | _ => []

/-- Range of a function descriptor. -/
def fun_range (t : TypeTable) (i : Int) : Int :=
  match t.desc i with
  | .fn r _ => r
  | _ => NULL_TYPE

/-- `cheap_sup`: the cheap path of `super_type`; returns the answer for
equal ids and for the int/real pair, `NULL_TYPE` for structurally
incompatible pairs, and `UNKNOWN_TYPE` when a recursive computation is
needed. -/
def cheap_sup (t : TypeTable) (tau1 tau2 : Int) : Int :=
  if tau1 = tau2 then tau1
  else if (tau1 = int_id ∧ tau2 = real_id) ∨ (tau1 = real_id ∧ tau2 = int_id) then real_id
  else
    match t.kind tau1 with
    | .TUPLE_TYPE =>
      if t.kind tau2 ≠ .TUPLE_TYPE ∨ tuple_type_arity t tau1 ≠ tuple_type_arity t tau2
      then NULL_TYPE else UNKNOWN_TYPE
    | .FUNCTION_TYPE =>
      if t.kind tau2 ≠ .FUNCTION_TYPE ∨ function_type_arity t tau1 ≠ function_type_arity t tau2
      then NULL_TYPE else UNKNOWN_TYPE
    | _ => NULL_TYPE

/-- `cheap_inf`: the cheap path of `inf_type` (the int/real pair maps to
`int`). -/
def cheap_inf (t : TypeTable) (tau1 tau2 : Int) : Int :=
  if tau1 = tau2 then tau1
  else if (tau1 = int_id ∧ tau2 = real_id) ∨ (tau1 = real_id ∧ tau2 = int_id) then int_id
  else
    match t.kind tau1 with
    | .TUPLE_TYPE =>
      if t.kind tau2 ≠ .TUPLE_TYPE ∨ tuple_type_arity t tau1 ≠ tuple_type_arity t tau2
      then NULL_TYPE else UNKNOWN_TYPE
    | .FUNCTION_TYPE =>
      if t.kind tau2 ≠ .FUNCTION_TYPE ∨ function_type_arity t tau1 ≠ function_type_arity t tau2
      then NULL_TYPE else UNKNOWN_TYPE
    | _ => NULL_TYPE

/-- `equal_type_arrays`: componentwise equality of two domains. -/
def equal_type_arrays (a b : List Int) : Prop := a = b

instance (a b : List Int) : Decidable (equal_type_arrays a b) := by
  unfold equal_type_arrays; infer_instance

/-- Entries of the sup cache (empty when the cache was never created). -/
def supEntries (t : TypeTable) : List (Int × Int × Int) := t.sup_tbl.getD []

/-- Entries of the inf cache. -/
def infEntries (t : TypeTable) : List (Int × Int × Int) := t.inf_tbl.getD []

/-- `get_sup_table`: create the sup cache on first use. -/
def ensure_sup_tbl (t : TypeTable) : TypeTable :=
  match t.sup_tbl with
  | some _ => t
  | none => { t with sup_tbl := some [] }

/-- `get_inf_table`: create the inf cache on first use. -/
def ensure_inf_tbl (t : TypeTable) : TypeTable :=
  match t.inf_tbl with
  | some _ => t
  | none => { t with inf_tbl := some [] }

/-- `int_hmap2_find` on a cache: newest record with key `(k0, k1)`. -/
def hmap2_find (l : List (Int × Int × Int)) (k0 k1 : Int) : Option Int :=
  match l.find? (fun e => decide (e.1 = k0 ∧ e.2.1 = k1)) with
  | some e => some e.2.2
  | none => none

/-- `int_hmap2_add` on the sup cache. -/
def add_sup (t : TypeTable) (k0 k1 v : Int) : TypeTable :=
  { t with sup_tbl := some ((k0, k1, v) :: supEntries t) }

/-- `int_hmap2_add` on the inf cache. -/
def add_inf (t : TypeTable) (k0 k1 v : Int) : TypeTable :=
  { t with inf_tbl := some ((k0, k1, v) :: infEntries t) }

/-- One step of `sup_tuple_types` / `inf_tuple_types`: combine the
next component pair with `rec` (the recursive lattice operation at the
current fuel), threading the table; `(t, none)` records the `NULL_TYPE`
abort, after which no further recursive call is made (the C `goto
done`). -/
def lattice_list_step (rec : TypeTable → Int → Int → Option (Int × TypeTable))
    (acc : Option (TypeTable × Option (List Int))) (ab : Int × Int) :
    Option (TypeTable × Option (List Int)) :=
  match acc with
  | none => none
  | some (t, none) => some (t, none)
  | some (t, some s) =>
    match rec t ab.1 ab.2 with
    | none => none
    | some (r, t1) => if r = NULL_TYPE then some (t1, none) else some (t1, some (s ++ [r]))

/-- The elementwise loop of `sup_tuple_types` / `inf_tuple_types`:
`some (t, some s)` is the list of componentwise results, `some (t,
none)` the `NULL_TYPE` abort, `none` fuel exhaustion. -/
def lattice_type_list (rec : TypeTable → Int → Int → Option (Int × TypeTable))
    (t : TypeTable) (as0 bs : List Int) : Option (TypeTable × Option (List Int)) :=
  (as0.zip bs).foldl (lattice_list_step rec) (some (t, some []))

/-- `super_type`, with a fuel bound on the recursion depth (the C
function recurses through `sup_tuple_types` and `sup_fun_types` without
an explicit bound; recursion is finite because the type graph is
acyclic).  `none` means the fuel ran out; `some (r, t)` is the result
id (possibly `NULL_TYPE`) and the updated table. -/
def super_type_f : Nat → TypeTable → Int → Int → Option (Int × TypeTable)
  | 0, _, _, _ => none
  | fuel + 1, t, a, b =>
    let aux := cheap_sup t a b
    if aux = UNKNOWN_TYPE then
      -- normalize so that tau1 < tau2
      let tau1 := if a > b then b else a
      let tau2 := if a > b then a else b
      let t := ensure_sup_tbl t
      match hmap2_find (supEntries t) tau1 tau2 with
      | some v => some (v, t)
      | none =>
        match t.kind tau1 with
        | .TUPLE_TYPE =>
          match lattice_type_list (super_type_f fuel) t
              (tuple_elems t tau1) (tuple_elems t tau2) with
          | none => none
          | some (t2, none) => some (NULL_TYPE, add_sup t2 tau1 tau2 NULL_TYPE)
          | some (t2, some s) =>
            let p := tuple_type t2 s
            some (p.1, add_sup p.2 tau1 tau2 p.1)
        | _ =>
          -- function case: require identical domains, then sup the ranges
          if equal_type_arrays (fun_domain t tau1) (fun_domain t tau2) then
            match super_type_f fuel t (fun_range t tau1) (fun_range t tau2) with
            | none => none
            | some (rr, t2) =>
              if rr = NULL_TYPE then some (NULL_TYPE, add_sup t2 tau1 tau2 NULL_TYPE)
              else
                let p := function_type t2 rr (fun_domain t2 tau1)
                some (p.1, add_sup p.2 tau1 tau2 p.1)
          else some (NULL_TYPE, add_sup t tau1 tau2 NULL_TYPE)
    else some (aux, t)

/-- `inf_type`, with a fuel bound (mirror image of `super_type_f`). -/
def inf_type_f : Nat → TypeTable → Int → Int → Option (Int × TypeTable)
  | 0, _, _, _ => none
  | fuel + 1, t, a, b =>
    let aux := cheap_inf t a b
    if aux = UNKNOWN_TYPE then
      let tau1 := if a > b then b else a
      let tau2 := if a > b then a else b
      let t := ensure_inf_tbl t
      match hmap2_find (infEntries t) tau1 tau2 with
      | some v => some (v, t)
      | none =>
        match t.kind tau1 with
        | .TUPLE_TYPE =>
          match lattice_type_list (inf_type_f fuel) t
              (tuple_elems t tau1) (tuple_elems t tau2) with
          | none => none
          | some (t2, none) => some (NULL_TYPE, add_inf t2 tau1 tau2 NULL_TYPE)
          | some (t2, some s) =>
            let p := tuple_type t2 s
            some (p.1, add_inf p.2 tau1 tau2 p.1)
        | _ =>
          if equal_type_arrays (fun_domain t tau1) (fun_domain t tau2) then
            match inf_type_f fuel t (fun_range t tau1) (fun_range t tau2) with
            | none => none
            | some (rr, t2) =>
              if rr = NULL_TYPE then some (NULL_TYPE, add_inf t2 tau1 tau2 NULL_TYPE)
              else
                let p := function_type t2 rr (fun_domain t2 tau1)
                some (p.1, add_inf p.2 tau1 tau2 p.1)
          else some (NULL_TYPE, add_inf t tau1 tau2 NULL_TYPE)
    else some (aux, t)

/-!  ## Garbage collection (`types.c`, GARBAGE COLLECTION section)  -/

/-- `erase_hcons_type`: remove `i` from the hash-consing table; a no-op
for non-hash-consed kinds.  (The C code recomputes the hash of the
still-valid descriptor to locate the record; the model removes the id
directly.) -/
def erase_hcons_type (t : TypeTable) (i : Int) : TypeTable :=
  match t.kind i with
  | .BITVECTOR_TYPE | .TUPLE_TYPE | .FUNCTION_TYPE => { t with htbl := t.htbl.erase i }
  | _ => t

/-- Children of a type in the mark phase: tuple elements, or function
range followed by the domains. -/
def childrenList (t : TypeTable) (i : Int) : List Int :=
  match t.kind i with
  | .TUPLE_TYPE => tuple_elems t i
  | .FUNCTION_TYPE => fun_range t i :: fun_domain t i
  | _ => []

/-- Set a mark. -/
def updB (m : Int → Bool) (i : Int) (v : Bool) : Int → Bool :=
  fun j => if j = i then v else m j

/-- `mark_and_explore`: mark `i` if it is unmarked, and explore its
children when `i < ptr` (ids at least `ptr` are explored later by the
`mark_live_types` loop).  During the mark phase the table is read-only
and only the mark bits change, so the function transforms the mark
assignment.  `fuel` bounds the recursion depth; each descent explores a
newly marked id below `ptr`, so depth never exceeds the number of
unmarked ids below `ptr`, and `t.nelems` fuel always suffices. -/
def mark_and_explore (t : TypeTable) : Nat → Int → (Int → Bool) → Int → (Int → Bool)
  | 0, _, m, i => if m i then m else updB m i true
  | fuel + 1, ptr, m, i =>
    if m i then m
    else
      let m1 := updB m i true
      if i < ptr then
        (childrenList t i).foldl (fun m c => mark_and_explore t fuel ptr m c) m1
      else m1

/-- `mark_reachable_types`: mark all children of `i` (and explore the
newly marked ones below `ptr`). -/
def mark_reachable_types (t : TypeTable) (fuel : Nat) (ptr : Int) (m : Int → Bool) (i : Int) :
    Int → Bool :=
  (childrenList t i).foldl (fun m c => mark_and_explore t fuel ptr m c) m

/-- `mark_live_types`: propagate the marks by exploring each marked id
in id order. -/
def mark_live_types (t : TypeTable) (m : Int → Bool) : Int → Bool :=
  (List.range t.nelems).foldl
    (fun (m : Int → Bool) (i : Nat) =>
      if m (i : Int) then mark_reachable_types t t.nelems (i : Int) m (i : Int) else m)
    m

/-- The roots of the collection: ids already marked externally, every id
bound in the symbol table (`stbl_iterate` with `mark_symbol`), and the
three primitive ids. -/
def gcRoots (t : TypeTable) : Int → Bool :=
  let m0 := t.stbl.foldl (fun m p => updB m p.2 true) t.mark
  updB (updB (updB m0 bool_id true) int_id true) real_id true

/-- The marks in effect at sweep time: roots propagated through the
reachability pass. -/
def sweepMarks (t : TypeTable) : Int → Bool :=
  mark_live_types t (gcRoots t)

/-- One step of the sweep loop: delete `i` if it is unmarked. -/
def sweep_step (m : Int → Bool) (t : TypeTable) (i : Int) : TypeTable :=
  if m i then t else erase_type (erase_hcons_type t i) i

/-- The sweep loop over an explicit list of ids. -/
def sweep_list (m : Int → Bool) (t : TypeTable) : List Int → TypeTable
  | [] => t
  | i :: rest => sweep_list m (sweep_step m t i) rest

/-- `keep_in_cache`: a cache record survives GC iff its two keys and its
value are still good types. -/
def keep_in_cache (t : TypeTable) (e : Int × Int × Int) : Prop :=
  good_type t e.1 ∧ good_type t e.2.1 ∧ good_type t e.2.2

instance (t : TypeTable) (e : Int × Int × Int) : Decidable (keep_in_cache t e) := by
  unfold keep_in_cache; infer_instance

/-- The ids visited by the sweep loop: `0, 1, ..., nelems - 1`. -/
def gcSweepIds (t : TypeTable) : List Int :=
  List.map (fun j : Nat => (j : Int)) (List.range t.nelems)

/-- `type_table_gc`: mark the roots, propagate, sweep every unmarked id
(erasing it from the hash-cons table and splicing it onto the free
list), clear the marks of all ids below `nelems`, and purge the caches
with `keep_in_cache`. -/
def type_table_gc (t : TypeTable) : TypeTable :=
  let m := sweepMarks t
  let t1 := sweep_list m t (gcSweepIds t)
  let t2 := { t1 with mark := fun i => if 0 ≤ i ∧ i < (t.nelems : Int) then false else t.mark i }
  let t3 := { t2 with sup_tbl := t2.sup_tbl.map (fun l => l.filter (fun e => decide (keep_in_cache t2 e))),
                      inf_tbl := t2.inf_tbl.map (fun l => l.filter (fun e => decide (keep_in_cache t2 e))) }
  t3

/-- Header inline `type_table_set_gc_mark`: the external root-pinning API
(modelled from the spec: `mark(id)` pins `id` for the next collection). -/
def type_table_set_gc_mark (t : TypeTable) (i : Int) : TypeTable :=
  { t with mark := updB t.mark i true }

/-!  ## Predicates used by the verification  -/

/-- The canonical flag bytes produced by the constructors: unit, small,
large, or an infinite combination (no cardinality bit, arbitrary
min/max bits). -/
def goodFlags (f : Nat) : Prop :=
  f = UNIT_TYPE_FLAGS ∨ f = SMALL_TYPE_FLAGS ∨ f = LARGE_TYPE_FLAGS ∨
  (f &&& CARD_FLAGS_MASK = 0 ∧ f < 32)

instance (f : Nat) : Decidable (goodFlags f) := by
  unfold goodFlags; infer_instance

/-- Consistency of the stored flags and cardinality of id `i`: the flag
byte is canonical, the cardinality is a positive `uint32`, unit types
have cardinality 1, inexact types store the saturated value
`UINT32_MAX`, and small (exact, non-unit) types have cardinality at
least 2.  Every id built by the constructors satisfies this. -/
def flagsCardOk (t : TypeTable) (i : Int) : Prop :=
  goodFlags (t.flags i) ∧
  1 ≤ t.card i ∧ t.card i ≤ UINT32_MAX ∧
  (t.flags i &&& TYPE_IS_UNIT_MASK ≠ 0 → t.card i = 1) ∧
  (t.flags i &&& CARD_IS_EXACT_MASK = 0 → t.card i = UINT32_MAX) ∧
  (t.flags i = SMALL_TYPE_FLAGS → 2 ≤ t.card i)

instance (t : TypeTable) (i : Int) : Decidable (flagsCardOk t i) := by
  unfold flagsCardOk; infer_instance

/-- Exact (unsaturated) product of the stored cardinalities of `e`. -/
def prodCards (t : TypeTable) (e : List Int) : Nat :=
  (e.map (type_card t)).prod

/-- Kinds registered in the hash-consing table. -/
def hconsKind (k : TypeKind) : Prop :=
  k = .BITVECTOR_TYPE ∨ k = .TUPLE_TYPE ∨ k = .FUNCTION_TYPE

instance (k : TypeKind) : Decidable (hconsKind k) := by
  unfold hconsKind; infer_instance

/-- Kinds that `erase_type` actually deletes (everything except the
primitives and already-unused slots). -/
def erasableKind (k : TypeKind) : Prop :=
  k = .BITVECTOR_TYPE ∨ k = .SCALAR_TYPE ∨ k = .UNINTERPRETED_TYPE ∨
  k = .TUPLE_TYPE ∨ k = .FUNCTION_TYPE

instance (k : TypeKind) : Decidable (erasableKind k) := by
  unfold erasableKind; infer_instance

/-- A record `(k0, k1) → v` of a lattice cache is well-formed: the keys
are ordered and live and the value is `NULL_TYPE` or live. -/
def cacheEntryOk (t : TypeTable) (e : Int × Int × Int) : Prop :=
  e.1 < e.2.1 ∧ good_type t e.1 ∧ good_type t e.2.1 ∧
  (e.2.2 = NULL_TYPE ∨ good_type t e.2.2)

instance (t : TypeTable) (e : Int × Int × Int) : Decidable (cacheEntryOk t e) := by
  unfold cacheEntryOk; infer_instance

/-- The free list: the chain of `desc[_].next` links starting at a given
head and ending at a negative index. -/
inductive IsFreeChain (t : TypeTable) : Int → List Int → Prop
  | nil {i : Int} : i < 0 → IsFreeChain t i []
  | cons {i : Int} {l : List Int} : 0 ≤ i → IsFreeChain t ((t.desc i).nextOf) l →
      IsFreeChain t i (i :: l)

/-- The data-structure invariant of a type table: the three primitives
sit at their fixed ids; ids outside `[0, nelems)` are unused; children
of any type are live; symbol-table bindings, external marks, and cache
entries reference live ids; the free list is a duplicate-free chain of
unused non-primitive slots; and the hash-consing table holds exactly
the live hash-consed ids, without structural duplicates. -/
structure Inv (t : TypeTable) : Prop where
  three_le : 3 ≤ t.nelems
  kind_bool : t.kind bool_id = .BOOL_TYPE
  kind_int : t.kind int_id = .INT_TYPE
  kind_real : t.kind real_id = .REAL_TYPE
  kind_out : ∀ i : Int, i < 0 ∨ (t.nelems : Int) ≤ i → t.kind i = .UNUSED_TYPE
  prim_ids : ∀ i : Int, (t.kind i = .BOOL_TYPE → i = bool_id) ∧
      (t.kind i = .INT_TYPE → i = int_id) ∧ (t.kind i = .REAL_TYPE → i = real_id)
  children_good : ∀ i c, c ∈ childrenList t i → good_type t c
  stbl_good : ∀ p ∈ t.stbl, good_type t p.2
  mark_good : ∀ i, t.mark i = true → good_type t i
  free_ok : ∃ l, IsFreeChain t t.free_idx l ∧ l.Nodup ∧
      ∀ i ∈ l, 3 ≤ i ∧ i < (t.nelems : Int) ∧ t.kind i = .UNUSED_TYPE
  htbl_good : ∀ i ∈ t.htbl, good_type t i ∧ hconsKind (t.kind i)
  htbl_complete : ∀ i : Int, good_type t i → hconsKind (t.kind i) → i ∈ t.htbl
  htbl_nodup : t.htbl.Nodup
  htbl_uniq : t.htbl.Pairwise (fun i j => ¬(t.kind i = t.kind j ∧ t.desc i = t.desc j))
  sup_ok : ∀ e ∈ supEntries t, cacheEntryOk t e
  inf_ok : ∀ e ∈ infEntries t, cacheEntryOk t e

/-- The slice of the invariant that the allocator needs: ids outside
`[0, nelems)` are unused and the free list is a duplicate-free chain of
unused non-primitive slots below `nelems`. -/
def AllocOk (t : TypeTable) : Prop :=
  (∀ i : Int, i < 0 ∨ (t.nelems : Int) ≤ i → t.kind i = .UNUSED_TYPE) ∧
  ∃ l, IsFreeChain t t.free_idx l ∧ l.Nodup ∧
    ∀ i ∈ l, 3 ≤ i ∧ i < (t.nelems : Int) ∧ t.kind i = .UNUSED_TYPE

/-- Table extension: all live ids stay live with unchanged descriptor
fields (the relation produced by the type constructors). -/
def Extends (t t2 : TypeTable) : Prop :=
  t.nelems ≤ t2.nelems ∧
  ∀ i, good_type t i → good_type t2 i ∧ t2.kind i = t.kind i ∧ t2.desc i = t.desc i ∧
    t2.card i = t.card i ∧ t2.flags i = t.flags i

/-- One public operation on the table, with the preconditions the C
code states as assertions (positive sizes, live arguments).  The
lattice operations appear through their fueled versions, for runs that
complete within their fuel. -/
inductive Step : TypeTable → TypeTable → Prop
  | bv {t : TypeTable} {k : Nat} : 0 < k → Step t (bv_type t k).2
  | tuple {t : TypeTable} {e : List Int} : 0 < e.length → (∀ x ∈ e, good_type t x) →
      Step t (tuple_type t e).2
  | fn {t : TypeTable} {r : Int} {e : List Int} : 0 < e.length → good_type t r →
      (∀ x ∈ e, good_type t x) → Step t (function_type t r e).2
  | scalar {t : TypeTable} {k : Nat} : 0 < k → Step t (new_scalar_type t k).2
  | uninterpreted {t : TypeTable} : Step t (new_uninterpreted_type t).2
  | set_name {t : TypeTable} {i : Int} {s : String} : good_type t i →
      Step t (set_type_name t i s)
  | remove_name {t : TypeTable} {s : String} : Step t (remove_type_name t s)
  | mark {t : TypeTable} {i : Int} : good_type t i → Step t (type_table_set_gc_mark t i)
  | sup {t t2 : TypeTable} {fuel : Nat} {tau1 tau2 r : Int} : good_type t tau1 →
      good_type t tau2 → super_type_f fuel t tau1 tau2 = some (r, t2) → Step t t2
  | inf {t t2 : TypeTable} {fuel : Nat} {tau1 tau2 r : Int} : good_type t tau1 →
      good_type t tau2 → inf_type_f fuel t tau1 tau2 = some (r, t2) → Step t t2
  | gc {t : TypeTable} : Step t (type_table_gc t)

/-- Table states reachable from a freshly initialized table by the
public operations. -/
inductive Reachable : TypeTable → Prop
  | init (n : Nat) : Reachable (init_type_table n)
  | step {t t2 : TypeTable} : Reachable t → Step t t2 → Reachable t2

/-- Ids reachable from the GC roots of `t` (externally marked ids,
symbol-table bindings, the three primitives) through tuple elements and
function domains/ranges. -/
inductive RootReachable (t : TypeTable) : Int → Prop
  | mark {i : Int} : t.mark i = true → RootReachable t i
  | stbl {p : String × Int} : p ∈ t.stbl → RootReachable t p.2
  | prim_bool : RootReachable t bool_id
  | prim_int : RootReachable t int_id
  | prim_real : RootReachable t real_id
  | child {i c : Int} : RootReachable t i → c ∈ childrenList t i → RootReachable t c

/-- Number of unmarked ids below `ptr`: the quantity that bounds the
recursion depth of the mark phase. -/
def unmarkedBelow (m : Int → Bool) (ptr : Int) : Nat :=
  ((List.range ptr.toNat).filter (fun j : Nat => m (j : Int) = false)).length

/-- Closure of a mark assignment below `ptr`, excluding a set `S` of
ids whose exploration is still pending: every marked id below `ptr`
outside `S` has all its children marked. -/
def ClosedExcept (t : TypeTable) (ptr : Int) (m : Int → Bool) (S : Int → Prop) : Prop :=
  ∀ j : Int, m j = true → j < ptr → ¬ S j → ∀ c ∈ childrenList t j, m c = true

/-- Full closure of a mark assignment below `ptr`. -/
def MarkClosed (t : TypeTable) (ptr : Int) (m : Int → Bool) : Prop :=
  ClosedExcept t ptr m (fun _ => False)

/-- The ids reclaimed by a collection: in-range ids that are unmarked
at sweep time and hold an erasable kind. -/
def gcReclaimed (t : TypeTable) : List Int :=
  (gcSweepIds t).filter
    (fun j => sweepMarks t j = false ∧ erasableKind (t.kind j))

/-- The common tail of every `new_*_type` constructor: allocate a slot
and fill its kind, descriptor, cardinality and flags (each `new_*_type`
equals `built` at suitable arguments, see the `new_*_type_spec`
lemmas). -/
def built (t : TypeTable) (K : TypeKind) (D : TypeDesc) (C F : Nat) : TypeTable :=
  { (allocate_type_id t).2 with
      kind := upd t.kind (allocate_type_id t).1 K,
      desc := upd t.desc (allocate_type_id t).1 D,
      card := upd t.card (allocate_type_id t).1 C,
      flags := upd t.flags (allocate_type_id t).1 F }

/-!  # Theorems

Basic pointwise-update and framing lemmas. -/

@[simp] theorem upd_same {α : Type} (f : Int → α) (i : Int) (v : α) : upd f i v i = v := by
  simp [upd]

@[simp] theorem upd_other {α : Type} (f : Int → α) (i j : Int) (v : α) (h : j ≠ i) :
    upd f i v j = f j := by
  simp [upd, h]

@[simp] theorem updB_same (m : Int → Bool) (i : Int) (v : Bool) : updB m i v i = v := by
  simp [updB]

@[simp] theorem updB_other (m : Int → Bool) (i j : Int) (v : Bool) (h : j ≠ i) :
    updB m i v j = m j := by
  simp [updB, h]

theorem allocate_kind (t : TypeTable) : (allocate_type_id t).2.kind = t.kind := by
  unfold allocate_type_id
  by_cases h : (0:Int) ≤ t.free_idx <;> by_cases h2 : t.nelems ≥ t.size <;> simp [h, h2]

theorem allocate_desc (t : TypeTable) : (allocate_type_id t).2.desc = t.desc := by
  unfold allocate_type_id
  by_cases h : (0:Int) ≤ t.free_idx <;> by_cases h2 : t.nelems ≥ t.size <;> simp [h, h2]

theorem allocate_card (t : TypeTable) : (allocate_type_id t).2.card = t.card := by
  unfold allocate_type_id
  by_cases h : (0:Int) ≤ t.free_idx <;> by_cases h2 : t.nelems ≥ t.size <;> simp [h, h2]

theorem allocate_flags (t : TypeTable) : (allocate_type_id t).2.flags = t.flags := by
  unfold allocate_type_id
  by_cases h : (0:Int) ≤ t.free_idx <;> by_cases h2 : t.nelems ≥ t.size <;> simp [h, h2]

theorem allocate_htbl (t : TypeTable) : (allocate_type_id t).2.htbl = t.htbl := by
  unfold allocate_type_id
  by_cases h : (0:Int) ≤ t.free_idx <;> by_cases h2 : t.nelems ≥ t.size <;> simp [h, h2]

theorem allocate_stbl (t : TypeTable) : (allocate_type_id t).2.stbl = t.stbl := by
  unfold allocate_type_id
  by_cases h : (0:Int) ≤ t.free_idx <;> by_cases h2 : t.nelems ≥ t.size <;> simp [h, h2]

theorem allocate_sup (t : TypeTable) : (allocate_type_id t).2.sup_tbl = t.sup_tbl := by
  unfold allocate_type_id
  by_cases h : (0:Int) ≤ t.free_idx <;> by_cases h2 : t.nelems ≥ t.size <;> simp [h, h2]

theorem allocate_inf (t : TypeTable) : (allocate_type_id t).2.inf_tbl = t.inf_tbl := by
  unfold allocate_type_id
  by_cases h : (0:Int) ≤ t.free_idx <;> by_cases h2 : t.nelems ≥ t.size <;> simp [h, h2]

theorem allocate_mark (t : TypeTable) : (allocate_type_id t).2.mark = t.mark := by
  unfold allocate_type_id
  by_cases h : (0:Int) ≤ t.free_idx <;> by_cases h2 : t.nelems ≥ t.size <;> simp [h, h2]

/-- The allocator returns either the head of the free list or the
fresh index `nelems`. -/
theorem allocate_fst (t : TypeTable) :
    (0 ≤ t.free_idx ∧ (allocate_type_id t).1 = t.free_idx) ∨
    (¬ 0 ≤ t.free_idx ∧ (allocate_type_id t).1 = (t.nelems : Int)) := by
  unfold allocate_type_id
  by_cases h : (0:Int) ≤ t.free_idx <;> simp [h]

theorem allocate_nelems (t : TypeTable) :
    (0 ≤ t.free_idx ∧ (allocate_type_id t).2.nelems = t.nelems) ∨
    (¬ 0 ≤ t.free_idx ∧ (allocate_type_id t).2.nelems = t.nelems + 1) := by
  unfold allocate_type_id
  by_cases h : (0:Int) ≤ t.free_idx <;> by_cases h2 : t.nelems ≥ t.size <;> simp [h, h2]

/-- The derived flag/card computations depend only on the `flags` and
`card` arrays. -/
theorem type_flags_conjunct_congr {t t2 : TypeTable} (h : t2.flags = t.flags) (e : List Int) :
    type_flags_conjunct t2 e = type_flags_conjunct t e := by
  simp [type_flags_conjunct, type_flags, h]

theorem type_card_product_loop_congr {t t2 : TypeTable} (h : t2.card = t.card) :
    ∀ (e : List Int) (p : Nat), type_card_product_loop t2 e p = type_card_product_loop t e p := by
  intro e
  induction e with
  | nil => intro p; rfl
  | cons x rest ih =>
    intro p
    simp only [type_card_product_loop, type_card, h]
    split <;> simp [ih]

theorem type_card_product_congr {t t2 : TypeTable} (h : t2.card = t.card) (e : List Int) :
    type_card_product t2 e = type_card_product t e := by
  simp [type_card_product, type_card_product_loop_congr h]

theorem fun_type_card_congr {t t2 : TypeTable} (h : t2.card = t.card) (e : List Int) (r : Int) :
    fun_type_card t2 e r = fun_type_card t e r := by
  simp [fun_type_card, type_card_product_congr h, type_card, h]

theorem prodCards_congr {t t2 : TypeTable} (h : t2.card = t.card) (e : List Int) :
    prodCards t2 e = prodCards t e := by
  have : type_card t2 = type_card t := by funext x; simp [type_card, h]
  simp [prodCards, this]

/-!  Flag-byte lemmas: the flag values are below 32, so the bitwise
facts are settled by bounded decision. -/

theorem goodFlags_lt {f : Nat} (h : goodFlags f) : f < 32 := by
  rcases h with h | h | h | ⟨_, h⟩ <;>
    simp_all [UNIT_TYPE_FLAGS, SMALL_TYPE_FLAGS, LARGE_TYPE_FLAGS]

theorem land_le_left (a b : Nat) : a &&& b ≤ a :=
  Nat.and_le_left

theorem goodFlags_land {f g : Nat} (hf : goodFlags f) (hg : goodFlags g) :
    goodFlags (f &&& g) := by
  have key : ∀ f < 32, ∀ g < 32, goodFlags f → goodFlags g → goodFlags (f &&& g) := by decide
  exact key f (goodFlags_lt hf) g (goodFlags_lt hg) hf hg

/-- Single-bit masks distribute over conjunction of bounded flag
bytes. -/
theorem land_bit_iff {a b m : Nat} (ha : a < 32) (hb : b < 32)
    (hm : m = 1 ∨ m = 2 ∨ m = 4 ∨ m = 8 ∨ m = 16) :
    ((a &&& b) &&& m ≠ 0 ↔ (a &&& m ≠ 0 ∧ b &&& m ≠ 0)) := by
  rcases hm with rfl | rfl | rfl | rfl | rfl
  · exact (by decide : ∀ a < 32, ∀ b < 32,
      ((a &&& b) &&& 1 ≠ 0 ↔ (a &&& 1 ≠ 0 ∧ b &&& 1 ≠ 0))) a ha b hb
  · exact (by decide : ∀ a < 32, ∀ b < 32,
      ((a &&& b) &&& 2 ≠ 0 ↔ (a &&& 2 ≠ 0 ∧ b &&& 2 ≠ 0))) a ha b hb
  · exact (by decide : ∀ a < 32, ∀ b < 32,
      ((a &&& b) &&& 4 ≠ 0 ↔ (a &&& 4 ≠ 0 ∧ b &&& 4 ≠ 0))) a ha b hb
  · exact (by decide : ∀ a < 32, ∀ b < 32,
      ((a &&& b) &&& 8 ≠ 0 ↔ (a &&& 8 ≠ 0 ∧ b &&& 8 ≠ 0))) a ha b hb
  · exact (by decide : ∀ a < 32, ∀ b < 32,
      ((a &&& b) &&& 16 ≠ 0 ↔ (a &&& 16 ≠ 0 ∧ b &&& 16 ≠ 0))) a ha b hb

/-- Bit extraction through `type_flags_conjunct` (single-bit masks):
the conjunction has the bit iff every element has it. -/
theorem conjunct_bit (t : TypeTable) {m : Nat}
    (hm : m = 1 ∨ m = 2 ∨ m = 4 ∨ m = 8 ∨ m = 16) (e : List Int)
    (he : ∀ x ∈ e, type_flags t x < 32) :
    (type_flags_conjunct t e &&& m ≠ 0 ↔ ∀ x ∈ e, type_flags t x &&& m ≠ 0) := by
  have init31 : (31 : Nat) &&& m ≠ 0 := by rcases hm with rfl | rfl | rfl | rfl | rfl <;> decide
  have aux : ∀ (e : List Int) (acc : Nat), acc < 32 → (∀ x ∈ e, type_flags t x < 32) →
      ((e.foldl (fun flg x => flg &&& type_flags t x) acc) &&& m ≠ 0 ↔
        (acc &&& m ≠ 0 ∧ ∀ x ∈ e, type_flags t x &&& m ≠ 0)) := by
    intro e
    induction e with
    | nil => intro acc hacc _; simp
    | cons x rest ih =>
      intro acc hacc hx
      have hx0 : type_flags t x < 32 := hx x (by simp)
      have hacc2 : acc &&& type_flags t x < 32 := lt_of_le_of_lt (land_le_left _ _) hacc
      have step := ih (acc &&& type_flags t x) hacc2 (fun y hy => hx y (by simp [hy]))
      simp only [List.foldl_cons]
      rw [step, land_bit_iff hacc hx0 hm]
      constructor
      · rintro ⟨⟨h1, h2⟩, h3⟩
        exact ⟨h1, by intro y hy; rcases List.mem_cons.mp hy with rfl | hy
                      · exact h2
                      · exact h3 y hy⟩
      · rintro ⟨h1, h2⟩
        exact ⟨⟨h1, h2 x (by simp)⟩, fun y hy => h2 y (by simp [hy])⟩
  have h2 := aux e 31 (by norm_num) he
  show (e.foldl (fun flg x => flg &&& type_flags t x) UNIT_TYPE_FLAGS) &&& m ≠ 0 ↔ _
  rw [show UNIT_TYPE_FLAGS = 31 from rfl, h2]
  simp [init31]

/-- A conjunction equal to `UNIT_TYPE_FLAGS` forces every element to be
a unit type. -/
theorem conjunct_eq_unit (t : TypeTable) (e : List Int)
    (he : ∀ x ∈ e, type_flags t x < 32) (h : type_flags_conjunct t e = UNIT_TYPE_FLAGS) :
    ∀ x ∈ e, type_flags t x = UNIT_TYPE_FLAGS := by
  have key : ∀ a < 32, ∀ b < 32, a &&& b = 31 → a = 31 ∧ b = 31 := by decide
  have aux : ∀ (e : List Int) (acc : Nat), acc < 32 → (∀ x ∈ e, type_flags t x < 32) →
      (e.foldl (fun flg x => flg &&& type_flags t x) acc) = 31 →
      ∀ x ∈ e, type_flags t x = 31 := by
    intro e
    induction e with
    | nil => intro acc _ _ _ x hx; cases hx
    | cons x rest ih =>
      intro acc hacc hx hfold y hy
      have hx0 : type_flags t x < 32 := hx x (by simp)
      have hacc2 : acc &&& type_flags t x < 32 := lt_of_le_of_lt (land_le_left _ _) hacc
      simp only [List.foldl_cons] at hfold
      rcases List.mem_cons.mp hy with rfl | hy
      · -- the accumulated value never regains bits, so land must stay 31
        have : acc &&& type_flags t y = 31 := by
          by_contra hne
          have mono : ∀ (l : List Int) (a : Nat),
              (l.foldl (fun flg x => flg &&& type_flags t x) a) ≤ a := by
            intro l
            induction l with
            | nil => intro a; simp
            | cons z zs ihz =>
              intro a
              simp only [List.foldl_cons]
              exact le_trans (ihz _) (land_le_left _ _)
          have h1 := mono rest (acc &&& type_flags t y)
          rw [hfold] at h1
          have h2 : acc &&& type_flags t y < 32 := hacc2
          omega
        exact (key acc hacc _ hx0 this).2
      · exact ih (acc &&& type_flags t x) hacc2 (fun z hz => hx z (by simp [hz])) hfold y hy
  exact aux e 31 (by norm_num) he (by rw [type_flags_conjunct] at h; exact h)

/-- The conjunction of canonical flag bytes is canonical. -/
theorem conjunct_goodFlags (t : TypeTable) (e : List Int)
    (he : ∀ x ∈ e, goodFlags (type_flags t x)) :
    goodFlags (type_flags_conjunct t e) := by
  have aux : ∀ (e : List Int) (acc : Nat), goodFlags acc →
      (∀ x ∈ e, goodFlags (type_flags t x)) →
      goodFlags (e.foldl (fun flg x => flg &&& type_flags t x) acc) := by
    intro e
    induction e with
    | nil => intro acc hacc _; exact hacc
    | cons x rest ih =>
      intro acc hacc hx
      simp only [List.foldl_cons]
      exact ih _ (goodFlags_land hacc (hx x (by simp))) (fun y hy => hx y (by simp [hy]))
  exact aux e UNIT_TYPE_FLAGS (by left; rfl) he

/-!  Saturating-product and saturating-power lemmas. -/

theorem prodCards_pos (t : TypeTable) (e : List Int)
    (he : ∀ x ∈ e, 1 ≤ type_card t x) : 1 ≤ prodCards t e := by
  induction e with
  | nil => simp [prodCards]
  | cons x rest ih =>
    have h1 := he x (by simp)
    have h2 := ih (fun y hy => he y (by simp [hy]))
    simp only [prodCards, List.map_cons, List.prod_cons] at h2 ⊢
    exact Nat.one_le_iff_ne_zero.mpr (Nat.mul_ne_zero (by omega) (by omega))

theorem prodCards_cons (t : TypeTable) (x : Int) (e : List Int) :
    prodCards t (x :: e) = type_card t x * prodCards t e := by
  simp [prodCards]

/-- `type_card_product_loop` computes the exact product as long as it
stays within 32 bits, and stops above `UINT32_MAX` exactly when the
exact product is above `UINT32_MAX`. -/
theorem type_card_product_loop_spec (t : TypeTable) :
    ∀ (e : List Int) (p : Nat), (∀ x ∈ e, 1 ≤ type_card t x) →
      (type_card_product_loop t e p ≤ UINT32_MAX ∧
        type_card_product_loop t e p = p * prodCards t e) ∨
      (UINT32_MAX < type_card_product_loop t e p ∧ UINT32_MAX < p * prodCards t e) := by
  intro e
  induction e with
  | nil =>
    intro p _
    by_cases h : p ≤ UINT32_MAX
    · left; constructor <;> simp [type_card_product_loop, prodCards, h]
    · right; constructor <;> simp [type_card_product_loop, prodCards] <;> omega
  | cons x rest ih =>
    intro p hx
    have h1 : 1 ≤ type_card t x := hx x (by simp)
    have hrest : ∀ y ∈ rest, 1 ≤ type_card t y := fun y hy => hx y (by simp [hy])
    have hprest : 1 ≤ prodCards t rest := prodCards_pos t rest hrest
    simp only [type_card_product_loop]
    by_cases hov : p * type_card t x > UINT32_MAX
    · right
      simp only [if_pos hov]
      refine ⟨hov, ?_⟩
      rw [prodCards_cons, ← Nat.mul_assoc]
      calc UINT32_MAX < p * type_card t x := hov
        _ ≤ p * type_card t x * prodCards t rest := Nat.le_mul_of_pos_right _ hprest
    · simp only [if_neg hov]
      rcases ih (p * type_card t x) hrest with ⟨hle, heq⟩ | ⟨hgt, hgt2⟩
      · left
        refine ⟨hle, ?_⟩
        rw [heq, prodCards_cons, ← Nat.mul_assoc]
      · right
        refine ⟨hgt, ?_⟩
        rw [prodCards_cons, ← Nat.mul_assoc]
        exact hgt2

theorem type_card_product_spec (t : TypeTable) (e : List Int)
    (he : ∀ x ∈ e, 1 ≤ type_card t x) :
    (type_card_product t e ≤ UINT32_MAX ∧ type_card_product t e = prodCards t e) ∨
    (UINT32_MAX < type_card_product t e ∧ UINT32_MAX < prodCards t e) := by
  have := type_card_product_loop_spec t e 1 he
  simpa [type_card_product] using this

/-- The saturating power loop of `fun_type_card`. -/
theorem fun_type_card_power_spec (range : Nat) (hr : 1 ≤ range) :
    ∀ (dom power : Nat),
      (fun_type_card_power range power dom ≤ UINT32_MAX ∧
        fun_type_card_power range power dom = power * range ^ (dom - 1)) ∨
      (UINT32_MAX < fun_type_card_power range power dom ∧
        UINT32_MAX < power * range ^ (dom - 1)) := by
  intro dom
  induction dom using Nat.strong_induction_on with
  | _ dom ih =>
    intro power
    match dom with
    | 0 =>
      rw [show fun_type_card_power range power 0 = power from rfl,
        show (0:Nat) - 1 = 0 from rfl, pow_zero, Nat.mul_one]
      by_cases h : power ≤ UINT32_MAX
      · exact Or.inl ⟨h, rfl⟩
      · exact Or.inr ⟨by omega, by omega⟩
    | 1 =>
      rw [show fun_type_card_power range power 1 = power from rfl,
        show (1:Nat) - 1 = 0 from rfl, pow_zero, Nat.mul_one]
      by_cases h : power ≤ UINT32_MAX
      · exact Or.inl ⟨h, rfl⟩
      · exact Or.inr ⟨by omega, by omega⟩
    | d + 2 =>
      simp only [fun_type_card_power]
      have epow : range ^ (d + 2 - 1) = range * range ^ (d + 1 - 1) := by
        show range ^ (d + 1) = range * range ^ d
        rw [pow_succ, Nat.mul_comm]
      by_cases hov : power * range > UINT32_MAX
      · refine Or.inr ?_
        simp only [if_pos hov]
        refine ⟨hov, ?_⟩
        rw [epow, ← Nat.mul_assoc]
        exact lt_of_lt_of_le hov (Nat.le_mul_of_pos_right _ (pow_pos (by omega) _))
      · simp only [if_neg hov]
        rcases ih (d + 1) (by omega) (power * range) with ⟨hle, heq⟩ | ⟨hgt, hgt2⟩
        · refine Or.inl ⟨hle, ?_⟩
          rw [heq, epow, ← Nat.mul_assoc]
        · refine Or.inr ⟨hgt, ?_⟩
          rw [epow, ← Nat.mul_assoc]
          exact hgt2

/-- `fun_type_card` computes `range ^ (product of domain cards)` with
saturation past `UINT32_MAX` as long as the exact product of the domain
cardinalities is below 32; once that product reaches 32 the intended
overflow sentinel `UINT32_MAX+1` wraps to 0 in 32-bit unsigned
arithmetic, so the function returns 0. -/
theorem fun_type_card_spec (t : TypeTable) (e : List Int) (r : Int)
    (he : ∀ x ∈ e, 1 ≤ type_card t x) (hr : 2 ≤ type_card t r) :
    (32 ≤ prodCards t e ∧ fun_type_card t e r = 0) ∨
    (prodCards t e < 32 ∧
      ((fun_type_card t e r ≤ UINT32_MAX ∧
        fun_type_card t e r = type_card t r ^ prodCards t e) ∨
       (UINT32_MAX < fun_type_card t e r ∧
        UINT32_MAX < type_card t r ^ prodCards t e))) := by
  have hp1 : 1 ≤ prodCards t e := prodCards_pos t e he
  have hwrap : (UINT32_MAX + 1) % 2 ^ 32 = 0 := by norm_num [UINT32_MAX]
  rw [fun_type_card]
  rcases type_card_product_spec t e he with ⟨hle, heq⟩ | ⟨hgt, hgt2⟩
  · by_cases h32 : type_card_product t e ≥ 32
    · left
      simp only [if_pos h32]
      exact ⟨by omega, hwrap⟩
    · right
      simp only [if_neg h32]
      refine ⟨by omega, ?_⟩
      have hdom : type_card_product t e = prodCards t e := heq
      have hpow : type_card t r * type_card t r ^ (prodCards t e - 1) =
          type_card t r ^ prodCards t e := by
        have e1 : prodCards t e = (prodCards t e - 1) + 1 := by omega
        conv_rhs => rw [e1]
        rw [pow_succ, Nat.mul_comm]
      rcases fun_type_card_power_spec (type_card t r) (by omega)
          (type_card_product t e) (type_card t r) with ⟨hle2, heq2⟩ | ⟨hgt2, hgt3⟩
      · left
        refine ⟨hle2, ?_⟩
        rw [heq2, hdom, hpow]
      · right
        refine ⟨hgt2, ?_⟩
        rw [hdom, hpow] at hgt3
        exact hgt3
  · left
    have h32 : type_card_product t e ≥ 32 := by
      have : (32:Nat) ≤ UINT32_MAX := by norm_num [UINT32_MAX]
      omega
    simp only [if_pos h32]
    refine ⟨?_, hwrap⟩
    have : (32:Nat) ≤ UINT32_MAX := by norm_num [UINT32_MAX]
    omega

/-!  Characterizations of the constructors as single record
equations. -/

theorem conjunct_kd (t2 : TypeTable) (k : Int → TypeKind) (d : Int → TypeDesc) (e : List Int) :
    type_flags_conjunct { t2 with kind := k, desc := d } e = type_flags_conjunct t2 e :=
  @type_flags_conjunct_congr t2 { t2 with kind := k, desc := d } rfl e

theorem fun_type_card_kd (t2 : TypeTable) (k : Int → TypeKind) (d : Int → TypeDesc)
    (e : List Int) (r : Int) :
    fun_type_card { t2 with kind := k, desc := d } e r = fun_type_card t2 e r :=
  @fun_type_card_congr t2 { t2 with kind := k, desc := d } rfl e r

theorem type_card_product_kd (t2 : TypeTable) (k : Int → TypeKind) (d : Int → TypeDesc)
    (e : List Int) :
    type_card_product { t2 with kind := k, desc := d } e = type_card_product t2 e :=
  @type_card_product_congr t2 { t2 with kind := k, desc := d } rfl e

theorem new_function_type_spec (t : TypeTable) (e : List Int) (r : Int) :
    new_function_type t e r =
      ((allocate_type_id t).1,
       { (allocate_type_id t).2 with
           kind := upd t.kind (allocate_type_id t).1 .FUNCTION_TYPE,
           desc := upd t.desc (allocate_type_id t).1 (.fn r e),
           card := upd t.card (allocate_type_id t).1
             (new_fun_card (t.flags r) (type_flags_conjunct t e) (fun_type_card t e r)),
           flags := upd t.flags (allocate_type_id t).1
             (new_fun_flags (t.flags r) (type_flags_conjunct t e) (fun_type_card t e r)) }) := by
  unfold new_function_type new_fun_card new_fun_flags fun_flag_branch
  simp only [conjunct_kd, fun_type_card_kd, type_flags_conjunct_congr (allocate_flags t),
    fun_type_card_congr (allocate_card t), type_flags]
  rw [allocate_flags t, allocate_kind t, allocate_desc t, allocate_card t]
  split_ifs <;> rfl

theorem new_tuple_type_spec (t : TypeTable) (e : List Int) :
    new_tuple_type t e =
      ((allocate_type_id t).1,
       { (allocate_type_id t).2 with
           kind := upd t.kind (allocate_type_id t).1 .TUPLE_TYPE,
           desc := upd t.desc (allocate_type_id t).1 (.tuple e),
           card := upd t.card (allocate_type_id t).1
             (new_tuple_card (type_flags_conjunct t e) (type_card_product t e)),
           flags := upd t.flags (allocate_type_id t).1
             (new_tuple_flags (type_flags_conjunct t e) (type_card_product t e)) }) := by
  unfold new_tuple_type new_tuple_card new_tuple_flags
  simp only [conjunct_kd, type_card_product_kd, type_flags_conjunct_congr (allocate_flags t),
    type_card_product_congr (allocate_card t)]
  rw [allocate_kind t, allocate_desc t, allocate_card t, allocate_flags t]
  split_ifs <;> rfl

theorem new_scalar_type_spec (t : TypeTable) (k : Nat) :
    new_scalar_type t k =
      ((allocate_type_id t).1,
       { (allocate_type_id t).2 with
           kind := upd t.kind (allocate_type_id t).1 .SCALAR_TYPE,
           desc := upd t.desc (allocate_type_id t).1 (.integer k),
           card := upd t.card (allocate_type_id t).1 k,
           flags := upd t.flags (allocate_type_id t).1
             (if k = 1 then UNIT_TYPE_FLAGS else SMALL_TYPE_FLAGS) }) := by
  unfold new_scalar_type
  dsimp only
  rw [allocate_kind t, allocate_desc t, allocate_card t, allocate_flags t]
  split_ifs <;> rfl

theorem new_uninterpreted_type_spec (t : TypeTable) :
    new_uninterpreted_type t =
      ((allocate_type_id t).1,
       { (allocate_type_id t).2 with
           kind := upd t.kind (allocate_type_id t).1 .UNINTERPRETED_TYPE,
           desc := upd t.desc (allocate_type_id t).1 .nullptr,
           card := upd t.card (allocate_type_id t).1 UINT32_MAX,
           flags := upd t.flags (allocate_type_id t).1
             (INFINITE_TYPE_FLAGS ||| TYPE_IS_MAXIMAL_MASK ||| TYPE_IS_MINIMAL_MASK) }) := by
  unfold new_uninterpreted_type
  dsimp only
  rw [allocate_kind t, allocate_desc t, allocate_card t, allocate_flags t]

theorem new_bitvector_type_spec (t : TypeTable) (k : Nat) :
    new_bitvector_type t k =
      ((allocate_type_id t).1,
       { (allocate_type_id t).2 with
           kind := upd t.kind (allocate_type_id t).1 .BITVECTOR_TYPE,
           desc := upd t.desc (allocate_type_id t).1 (.integer k),
           card := upd t.card (allocate_type_id t).1
             (if k < 32 then 2 ^ k else UINT32_MAX),
           flags := upd t.flags (allocate_type_id t).1
             (if k < 32 then SMALL_TYPE_FLAGS else LARGE_TYPE_FLAGS) }) := by
  unfold new_bitvector_type
  dsimp only
  rw [allocate_kind t, allocate_desc t, allocate_card t, allocate_flags t]
  split_ifs <;> rfl

/-!  Bit-level behaviour of the stored function-type flags. -/

theorem new_fun_flags_norm (f0 c fc : Nat) :
    new_fun_flags f0 c fc =
      new_fun_flags f0 c (if fc > UINT32_MAX then UINT32_MAX + 1 else 0) := by
  unfold new_fun_flags
  dsimp only
  split_ifs <;> first | rfl | omega

theorem new_fun_flags_bits (f0 c fc : Nat) (h0 : goodFlags f0) (hc : c < 32) :
    (new_fun_flags f0 c fc &&& TYPE_IS_UNIT_MASK = f0 &&& TYPE_IS_UNIT_MASK) ∧
    (new_fun_flags f0 c fc &&& TYPE_IS_MAXIMAL_MASK = f0 &&& TYPE_IS_MAXIMAL_MASK) ∧
    (new_fun_flags f0 c fc &&& TYPE_IS_MINIMAL_MASK = f0 &&& TYPE_IS_MINIMAL_MASK) ∧
    (new_fun_flags f0 c fc &&& TYPE_IS_FINITE_MASK ≠ 0 ↔
      (f0 &&& TYPE_IS_UNIT_MASK ≠ 0 ∨
       (f0 &&& TYPE_IS_FINITE_MASK ≠ 0 ∧ c &&& TYPE_IS_FINITE_MASK ≠ 0))) := by
  rw [new_fun_flags_norm]
  have key1 : ∀ f0 < 32, ∀ c < 32, ∀ b : Bool, goodFlags f0 →
      new_fun_flags f0 c (bif b then UINT32_MAX + 1 else 0) &&& TYPE_IS_UNIT_MASK =
        f0 &&& TYPE_IS_UNIT_MASK := by decide
  have key2 : ∀ f0 < 32, ∀ c < 32, ∀ b : Bool, goodFlags f0 →
      new_fun_flags f0 c (bif b then UINT32_MAX + 1 else 0) &&& TYPE_IS_MAXIMAL_MASK =
        f0 &&& TYPE_IS_MAXIMAL_MASK := by decide
  have key3 : ∀ f0 < 32, ∀ c < 32, ∀ b : Bool, goodFlags f0 →
      new_fun_flags f0 c (bif b then UINT32_MAX + 1 else 0) &&& TYPE_IS_MINIMAL_MASK =
        f0 &&& TYPE_IS_MINIMAL_MASK := by decide
  have key4 : ∀ f0 < 32, ∀ c < 32, ∀ b : Bool, goodFlags f0 →
      new_fun_flags f0 c (bif b then UINT32_MAX + 1 else 0) &&& TYPE_IS_FINITE_MASK =
        (if f0 &&& TYPE_IS_UNIT_MASK ≠ 0 ∨
            (f0 &&& TYPE_IS_FINITE_MASK ≠ 0 ∧ c &&& TYPE_IS_FINITE_MASK ≠ 0)
         then 1 else 0) := by decide
  have hf0 := goodFlags_lt h0
  have last : ∀ b : Bool,
      (new_fun_flags f0 c (bif b then UINT32_MAX + 1 else 0) &&& TYPE_IS_FINITE_MASK ≠ 0 ↔
        (f0 &&& TYPE_IS_UNIT_MASK ≠ 0 ∨
         (f0 &&& TYPE_IS_FINITE_MASK ≠ 0 ∧ c &&& TYPE_IS_FINITE_MASK ≠ 0))) := by
    intro b
    rw [key4 f0 hf0 c hc b h0]
    by_cases hcond : (f0 &&& TYPE_IS_UNIT_MASK ≠ 0 ∨
        (f0 &&& TYPE_IS_FINITE_MASK ≠ 0 ∧ c &&& TYPE_IS_FINITE_MASK ≠ 0))
    · simp [hcond]
    · simp [hcond]
  by_cases hov : fc > UINT32_MAX
  · rw [if_pos hov]
    exact ⟨key1 f0 hf0 c hc true h0, key2 f0 hf0 c hc true h0,
           key3 f0 hf0 c hc true h0, last true⟩
  · rw [if_neg hov]
    exact ⟨key1 f0 hf0 c hc false h0, key2 f0 hf0 c hc false h0,
           key3 f0 hf0 c hc false h0, last false⟩

/-- C3: for every function type built by `new_function_type`, the UNIT,
MAXIMAL and MINIMAL flag bits of the new type equal those of the range
type alone, and the FINITE bit is set iff the range is a unit type, or
the range is finite and every domain type is finite. -/
theorem C3_function_type_flag_derivation (t : TypeTable) (e : List Int) (r : Int)
    (hr : goodFlags (type_flags t r)) (he : ∀ x ∈ e, goodFlags (type_flags t x)) :
    (new_function_type t e r).2.flags (new_function_type t e r).1 &&& TYPE_IS_UNIT_MASK
        = type_flags t r &&& TYPE_IS_UNIT_MASK ∧
    (new_function_type t e r).2.flags (new_function_type t e r).1 &&& TYPE_IS_MAXIMAL_MASK
        = type_flags t r &&& TYPE_IS_MAXIMAL_MASK ∧
    (new_function_type t e r).2.flags (new_function_type t e r).1 &&& TYPE_IS_MINIMAL_MASK
        = type_flags t r &&& TYPE_IS_MINIMAL_MASK ∧
    ((new_function_type t e r).2.flags (new_function_type t e r).1 &&& TYPE_IS_FINITE_MASK ≠ 0 ↔
      (type_flags t r &&& TYPE_IS_UNIT_MASK ≠ 0 ∨
       (type_flags t r &&& TYPE_IS_FINITE_MASK ≠ 0 ∧
        ∀ x ∈ e, type_flags t x &&& TYPE_IS_FINITE_MASK ≠ 0))) := by
  simp only [type_flags] at hr he ⊢
  have hflags : (new_function_type t e r).2.flags (new_function_type t e r).1 =
      new_fun_flags (t.flags r) (type_flags_conjunct t e) (fun_type_card t e r) := by
    rw [new_function_type_spec]
    simp
  have hcgood : goodFlags (type_flags_conjunct t e) := by
    apply conjunct_goodFlags
    simpa [type_flags] using he
  have hc : type_flags_conjunct t e < 32 := goodFlags_lt hcgood
  have hbits := new_fun_flags_bits (t.flags r) (type_flags_conjunct t e)
    (fun_type_card t e r) hr hc
  have hfin := conjunct_bit t (Or.inl rfl) e
    (fun x hx => goodFlags_lt (by simpa [type_flags] using he x hx))
  simp only [type_flags] at hfin
  rw [hflags]
  refine ⟨hbits.1, hbits.2.1, hbits.2.2.1, ?_⟩
  rw [hbits.2.2.2]
  constructor
  · rintro (h | ⟨h1, h2⟩)
    · exact Or.inl h
    · exact Or.inr ⟨h1, hfin.mp h2⟩
  · rintro (h | ⟨h1, h2⟩)
    · exact Or.inl h
    · exact Or.inr ⟨h1, hfin.mpr h2⟩

/-- A canonical flag byte with the exact bit also has the finite,
maximal and minimal bits (exact types are `31` or `29`). -/
theorem goodFlags_exact_bits {f : Nat} (hf : goodFlags f) (h4 : f &&& CARD_IS_EXACT_MASK ≠ 0) :
    f &&& TYPE_IS_FINITE_MASK ≠ 0 ∧ f &&& TYPE_IS_MAXIMAL_MASK ≠ 0 ∧
    f &&& TYPE_IS_MINIMAL_MASK ≠ 0 := by
  have key : ∀ f < 32, goodFlags f → f &&& 4 ≠ 0 →
      f &&& 1 ≠ 0 ∧ f &&& 8 ≠ 0 ∧ f &&& 16 ≠ 0 := by decide
  exact key f (goodFlags_lt hf) hf h4

/-- C4: cardinality of function types as stored by `new_function_type`:
1 on a unit range; on a small range with exact (small-or-unit) domains
the saturated power `min(card(r) ^ prod(card(e)), UINT32_MAX)` holds
only while the exact domain-cardinality product is below 32 — once the
product reaches 32 the intended sentinel `UINT32_MAX+1` wraps to 0 in
32-bit unsigned arithmetic, so the stored cardinality is 0 with the
flags still `SMALL_TYPE_FLAGS`, not the saturated `UINT32_MAX`;
`UINT32_MAX` in the remaining cases.  The closed conjuncts: the spec
scenario `function([bool, bool], bool)` has cardinality 16 with SMALL
flags, and `function([bool, bool, bool, bool, bool], bool)` (domain
product exactly 32) stores cardinality 0 with SMALL flags although the
claimed formula gives `min(2^32, UINT32_MAX) = UINT32_MAX`. -/
theorem C4_function_type_cardinality (t : TypeTable) (e : List Int) (r : Int)
    (hr : flagsCardOk t r) (he : ∀ x ∈ e, flagsCardOk t x) :
    (type_flags t r = UNIT_TYPE_FLAGS →
      (new_function_type t e r).2.card (new_function_type t e r).1 = 1) ∧
    (type_flags t r = SMALL_TYPE_FLAGS →
      (∀ x ∈ e, type_flags t x &&& CARD_IS_EXACT_MASK ≠ 0) →
      prodCards t e < 32 →
      (new_function_type t e r).2.card (new_function_type t e r).1 =
        min (type_card t r ^ prodCards t e) UINT32_MAX) ∧
    (type_flags t r = SMALL_TYPE_FLAGS →
      (∀ x ∈ e, type_flags t x &&& CARD_IS_EXACT_MASK ≠ 0) →
      32 ≤ prodCards t e →
      (new_function_type t e r).2.card (new_function_type t e r).1 = 0 ∧
      (new_function_type t e r).2.flags (new_function_type t e r).1 = SMALL_TYPE_FLAGS) ∧
    (type_flags t r ≠ UNIT_TYPE_FLAGS →
      ¬(type_flags t r = SMALL_TYPE_FLAGS ∧
        ∀ x ∈ e, type_flags t x &&& CARD_IS_EXACT_MASK ≠ 0) →
      (new_function_type t e r).2.card (new_function_type t e r).1 = UINT32_MAX) ∧
    ((new_function_type (init_type_table 4) [bool_id, bool_id] bool_id).2.card
        (new_function_type (init_type_table 4) [bool_id, bool_id] bool_id).1 = 16 ∧
     (new_function_type (init_type_table 4) [bool_id, bool_id] bool_id).2.flags
        (new_function_type (init_type_table 4) [bool_id, bool_id] bool_id).1
        = SMALL_TYPE_FLAGS) ∧
    ((new_function_type (init_type_table 4) [bool_id, bool_id, bool_id, bool_id, bool_id]
        bool_id).2.card
        (new_function_type (init_type_table 4) [bool_id, bool_id, bool_id, bool_id, bool_id]
          bool_id).1 = 0 ∧
     (new_function_type (init_type_table 4) [bool_id, bool_id, bool_id, bool_id, bool_id]
        bool_id).2.flags
        (new_function_type (init_type_table 4) [bool_id, bool_id, bool_id, bool_id, bool_id]
          bool_id).1 = SMALL_TYPE_FLAGS ∧
     prodCards (init_type_table 4) [bool_id, bool_id, bool_id, bool_id, bool_id] = 32 ∧
     min (type_card (init_type_table 4) bool_id
          ^ prodCards (init_type_table 4) [bool_id, bool_id, bool_id, bool_id, bool_id])
        UINT32_MAX = UINT32_MAX) := by
  have hcard : (new_function_type t e r).2.card (new_function_type t e r).1 =
      new_fun_card (t.flags r) (type_flags_conjunct t e) (fun_type_card t e r) := by
    rw [new_function_type_spec]
    simp
  have hflags : (new_function_type t e r).2.flags (new_function_type t e r).1 =
      new_fun_flags (t.flags r) (type_flags_conjunct t e) (fun_type_card t e r) := by
    rw [new_function_type_spec]
    simp
  have hegood : ∀ x ∈ e, goodFlags (type_flags t x) := fun x hx => (he x hx).1
  have hcgood : goodFlags (type_flags_conjunct t e) := conjunct_goodFlags t e hegood
  have hc32 : type_flags_conjunct t e < 32 := goodFlags_lt hcgood
  have helt : ∀ x ∈ e, type_flags t x < 32 := fun x hx => goodFlags_lt (hegood x hx)
  have hbit4 := conjunct_bit t (Or.inr (Or.inr (Or.inl rfl))) e helt
  have h29core : (∀ x ∈ e, type_flags t x &&& CARD_IS_EXACT_MASK ≠ 0) →
      SMALL_TYPE_FLAGS &&& type_flags_conjunct t e = SMALL_TYPE_FLAGS := by
    intro hall
    have hxall : ∀ x ∈ e, type_flags t x &&& 4 ≠ 0 := fun x hx => hall x hx
    have h4 : type_flags_conjunct t e &&& 4 ≠ 0 := hbit4.mpr hxall
    have h1 : type_flags_conjunct t e &&& 1 ≠ 0 := by
      refine (conjunct_bit t (Or.inl rfl) e helt).mpr ?_
      intro x hx
      exact (goodFlags_exact_bits (hegood x hx) (hall x hx)).1
    have h8 : type_flags_conjunct t e &&& 8 ≠ 0 := by
      refine (conjunct_bit t (Or.inr (Or.inr (Or.inr (Or.inl rfl)))) e helt).mpr ?_
      intro x hx
      exact (goodFlags_exact_bits (hegood x hx) (hall x hx)).2.1
    have h16 : type_flags_conjunct t e &&& 16 ≠ 0 := by
      refine (conjunct_bit t (Or.inr (Or.inr (Or.inr (Or.inr rfl)))) e helt).mpr ?_
      intro x hx
      exact (goodFlags_exact_bits (hegood x hx) (hall x hx)).2.2
    have key : ∀ c < 32, c &&& 1 ≠ 0 → c &&& 4 ≠ 0 → c &&& 8 ≠ 0 → c &&& 16 ≠ 0 →
        29 &&& c = 29 := by decide
    exact key _ hc32 h1 h4 h8 h16
  refine ⟨?_, ?_, ?_, ?_, by decide, by decide⟩
  · intro h31
    simp only [type_flags] at h31
    rw [hcard]
    unfold new_fun_card fun_flag_branch
    dsimp only
    rw [h31]
    rw [if_neg (by decide : ¬(UNIT_TYPE_FLAGS &&& (TYPE_IS_FINITE_MASK ||| TYPE_IS_UNIT_MASK)
          = TYPE_IS_FINITE_MASK))]
    rw [if_pos rfl]
  · intro h29 hall hlt32
    simp only [type_flags] at h29
    have h29c := h29core hall
    have hr2 : 2 ≤ type_card t r := hr.2.2.2.2.2 h29
    have he1 : ∀ x ∈ e, 1 ≤ type_card t x := fun x hx => (he x hx).2.1
    rw [hcard]
    unfold new_fun_card fun_flag_branch
    dsimp only
    rw [h29]
    rw [if_pos (by decide : SMALL_TYPE_FLAGS &&& (TYPE_IS_FINITE_MASK ||| TYPE_IS_UNIT_MASK)
          = TYPE_IS_FINITE_MASK)]
    rw [h29c]
    rw [if_neg (by decide : ¬(SMALL_TYPE_FLAGS = UNIT_TYPE_FLAGS))]
    rw [if_pos rfl]
    rcases fun_type_card_spec t e r he1 hr2 with ⟨h32, _⟩ | ⟨_, hrest⟩
    · exact absurd h32 (Nat.not_le.mpr hlt32)
    · rcases hrest with ⟨hle, heq⟩ | ⟨hgt, hgt2⟩
      · rw [if_neg (by simp only [gt_iff_lt, not_lt]; exact hle), heq,
          Nat.min_eq_left (by rw [← heq]; exact hle)]
      · rw [if_pos hgt, Nat.min_eq_right (by omega)]
  · intro h29 hall h32p
    simp only [type_flags] at h29
    have h29c := h29core hall
    have hr2 : 2 ≤ type_card t r := hr.2.2.2.2.2 h29
    have he1 : ∀ x ∈ e, 1 ≤ type_card t x := fun x hx => (he x hx).2.1
    have hfc0 : fun_type_card t e r = 0 := by
      rcases fun_type_card_spec t e r he1 hr2 with ⟨_, h0⟩ | ⟨hlt, _⟩
      · exact h0
      · exact absurd h32p (Nat.not_le.mpr hlt)
    constructor
    · rw [hcard]
      unfold new_fun_card fun_flag_branch
      dsimp only
      rw [h29]
      rw [if_pos (by decide : SMALL_TYPE_FLAGS &&& (TYPE_IS_FINITE_MASK ||| TYPE_IS_UNIT_MASK)
            = TYPE_IS_FINITE_MASK)]
      rw [h29c]
      rw [if_neg (by decide : ¬(SMALL_TYPE_FLAGS = UNIT_TYPE_FLAGS))]
      rw [if_pos rfl, hfc0]
      decide
    · rw [hflags]
      unfold new_fun_flags fun_flag_branch
      dsimp only
      rw [h29]
      rw [if_pos (by decide : SMALL_TYPE_FLAGS &&& (TYPE_IS_FINITE_MASK ||| TYPE_IS_UNIT_MASK)
            = TYPE_IS_FINITE_MASK)]
      rw [h29c]
      rw [if_neg (by decide : ¬(SMALL_TYPE_FLAGS = UNIT_TYPE_FLAGS))]
      rw [if_pos rfl, hfc0]
      decide
  · intro hnu hnot
    simp only [type_flags] at hnu hnot
    rw [hcard]
    unfold new_fun_card fun_flag_branch
    dsimp only
    rcases hr.1 with h | h | h | ⟨hz, hlt⟩
    · exact absurd h hnu
    · have hB : ¬ ∀ x ∈ e, t.flags x &&& CARD_IS_EXACT_MASK ≠ 0 := fun hb => hnot ⟨h, hb⟩
      have h4c : type_flags_conjunct t e &&& 4 = 0 := by
        by_contra h4
        exact hB (hbit4.mp h4)
      have key : ∀ c < 32, c &&& 4 = 0 →
          SMALL_TYPE_FLAGS &&& c ≠ UNIT_TYPE_FLAGS ∧
          SMALL_TYPE_FLAGS &&& c ≠ SMALL_TYPE_FLAGS := by decide
      rw [h]
      rw [if_pos (by decide : SMALL_TYPE_FLAGS &&& (TYPE_IS_FINITE_MASK ||| TYPE_IS_UNIT_MASK)
            = TYPE_IS_FINITE_MASK)]
      rw [if_neg (key _ hc32 h4c).1, if_neg (key _ hc32 h4c).2]
    · have key : ∀ c < 32,
          LARGE_TYPE_FLAGS &&& c ≠ UNIT_TYPE_FLAGS ∧
          LARGE_TYPE_FLAGS &&& c ≠ SMALL_TYPE_FLAGS := by decide
      rw [h]
      rw [if_pos (by decide : LARGE_TYPE_FLAGS &&& (TYPE_IS_FINITE_MASK ||| TYPE_IS_UNIT_MASK)
            = TYPE_IS_FINITE_MASK)]
      rw [if_neg (key _ hc32).1, if_neg (key _ hc32).2]
    · have key : ∀ f < 32, f &&& 7 = 0 →
          ¬(f &&& (TYPE_IS_FINITE_MASK ||| TYPE_IS_UNIT_MASK) = TYPE_IS_FINITE_MASK) ∧
          f ≠ UNIT_TYPE_FLAGS ∧ f ≠ SMALL_TYPE_FLAGS := by decide
      have hk := key _ hlt (by simpa [CARD_FLAGS_MASK] using hz)
      rw [if_neg hk.1, if_neg hk.2.1, if_neg hk.2.2]

/-- A stored cardinality of `UINT32_MAX` for some element bounds the
product of the cardinalities from below. -/
theorem prodCards_ge_of_mem (t : TypeTable) (e : List Int) (x : Int) (hx : x ∈ e)
    (he : ∀ y ∈ e, 1 ≤ type_card t y) : type_card t x ≤ prodCards t e := by
  have h1 : ∀ c ∈ e.map (type_card t), 1 ≤ c := by
    intro c hc
    rcases List.mem_map.mp hc with ⟨y, hy, rfl⟩
    exact he y hy
  exact List.single_le_prod h1 _ (List.mem_map_of_mem (type_card t) hx)

/-- C5: tuple cardinality is the saturated product of the element
cardinalities; the flag byte is the conjunction of the element flags,
with the SMALL (exact) bit cleared on overflow, FINITE surviving iff
all elements are finite. -/
theorem C5_tuple_type_cardinality_flags (t : TypeTable) (e : List Int)
    (he : ∀ x ∈ e, flagsCardOk t x) :
    (new_tuple_type t e).2.card (new_tuple_type t e).1 = min (prodCards t e) UINT32_MAX ∧
    (prodCards t e ≤ UINT32_MAX →
      (new_tuple_type t e).2.flags (new_tuple_type t e).1 = type_flags_conjunct t e) ∧
    (UINT32_MAX < prodCards t e →
      (new_tuple_type t e).2.flags (new_tuple_type t e).1 =
        type_flags_conjunct t e &&& (TYPE_IS_FINITE_MASK ||| TYPE_IS_UNIT_MASK |||
          MINMAX_FLAGS_MASK) ∧
      ((new_tuple_type t e).2.flags (new_tuple_type t e).1 &&& TYPE_IS_FINITE_MASK ≠ 0 ↔
        ∀ x ∈ e, type_flags t x &&& TYPE_IS_FINITE_MASK ≠ 0)) := by
  have hcard : (new_tuple_type t e).2.card (new_tuple_type t e).1 =
      new_tuple_card (type_flags_conjunct t e) (type_card_product t e) := by
    rw [new_tuple_type_spec]
    simp
  have hflags : (new_tuple_type t e).2.flags (new_tuple_type t e).1 =
      new_tuple_flags (type_flags_conjunct t e) (type_card_product t e) := by
    rw [new_tuple_type_spec]
    simp
  have hegood : ∀ x ∈ e, goodFlags (type_flags t x) := fun x hx => (he x hx).1
  have hcgood : goodFlags (type_flags_conjunct t e) := conjunct_goodFlags t e hegood
  have hc32 : type_flags_conjunct t e < 32 := goodFlags_lt hcgood
  have helt : ∀ x ∈ e, type_flags t x < 32 := fun x hx => goodFlags_lt (hegood x hx)
  have he1 : ∀ x ∈ e, 1 ≤ type_card t x := fun x hx => (he x hx).2.1
  have hbit1 := conjunct_bit t (Or.inl rfl) e helt
  have hbit4 := conjunct_bit t (Or.inr (Or.inr (Or.inl rfl))) e helt
  rw [hcard, hflags]
  unfold new_tuple_card new_tuple_flags
  rcases hcgood with hc | hc | hc | ⟨hz, _⟩
  · -- all elements are unit types: the product is 1
    have hall := conjunct_eq_unit t e helt hc
    have hprod : prodCards t e = 1 := by
      apply List.prod_eq_one
      intro c hcm
      rcases List.mem_map.mp hcm with ⟨y, hy, rfl⟩
      refine (he y hy).2.2.2.1 ?_
      rw [show t.flags y = UNIT_TYPE_FLAGS from hall y hy]
      decide
    rw [hc, if_pos rfl, if_pos rfl, hprod]
    refine ⟨by norm_num [UINT32_MAX], fun _ => rfl, fun hgt => ?_⟩
    exact absurd hgt (by norm_num [UINT32_MAX])
  · -- all elements small or unit: exact product with saturation
    rw [hc, if_neg (by decide : ¬(SMALL_TYPE_FLAGS = UNIT_TYPE_FLAGS)), if_pos rfl,
      if_neg (by decide : ¬(SMALL_TYPE_FLAGS = UNIT_TYPE_FLAGS)), if_pos rfl]
    rcases type_card_product_spec t e he1 with ⟨hle, heq⟩ | ⟨hgt, hgt2⟩
    · rw [if_neg (by omega), if_neg (by omega), heq,
        Nat.min_eq_left (by rw [← heq]; exact hle)]
      refine ⟨rfl, fun _ => rfl, fun hgt => ?_⟩
      rw [← heq] at hgt
      omega
    · rw [if_pos (by omega), if_pos (by omega), Nat.min_eq_right (by omega)]
      refine ⟨rfl, fun hle => by omega, fun _ => ?_⟩
      constructor
      · decide
      · have hfin : ∀ x ∈ e, type_flags t x &&& TYPE_IS_FINITE_MASK ≠ 0 := by
          apply hbit1.mp
          rw [hc]
          decide
        exact ⟨fun _ => hfin, fun _ => by decide⟩
  · -- some element is large: the product already saturates
    have h4c : type_flags_conjunct t e &&& 4 = 0 := by rw [hc]; decide
    have hex : ∃ x ∈ e, t.flags x &&& CARD_IS_EXACT_MASK = 0 := by
      by_contra hno
      push_neg at hno
      exact absurd (hbit4.mpr fun x hx => hno x hx) (by rw [hc]; decide)
    rcases hex with ⟨x, hxe, hx4⟩
    have hxmax : t.card x = UINT32_MAX := (he x hxe).2.2.2.2.1 hx4
    have hge : UINT32_MAX ≤ prodCards t e := by
      have := prodCards_ge_of_mem t e x hxe he1
      rw [show type_card t x = t.card x from rfl, hxmax] at this
      exact this
    rw [hc, if_neg (by decide : ¬(LARGE_TYPE_FLAGS = UNIT_TYPE_FLAGS)),
      if_neg (by decide : ¬(LARGE_TYPE_FLAGS = SMALL_TYPE_FLAGS)),
      if_neg (by decide : ¬(LARGE_TYPE_FLAGS = UNIT_TYPE_FLAGS)),
      if_neg (by decide : ¬(LARGE_TYPE_FLAGS = SMALL_TYPE_FLAGS)),
      Nat.min_eq_right hge]
    refine ⟨rfl, fun _ => rfl, fun _ => ⟨by decide, ?_⟩⟩
    have hfin : ∀ x ∈ e, type_flags t x &&& TYPE_IS_FINITE_MASK ≠ 0 := by
      apply hbit1.mp
      rw [hc]
      decide
    exact ⟨fun _ => hfin, fun _ => by decide⟩
  · -- some element is infinite
    have h4c : type_flags_conjunct t e &&& CARD_IS_EXACT_MASK = 0 := by
      have key : ∀ c < 32, c &&& 7 = 0 → c &&& 4 = 0 := by decide
      exact key _ hc32 (by simpa [CARD_FLAGS_MASK] using hz)
    have hex : ∃ x ∈ e, t.flags x &&& CARD_IS_EXACT_MASK = 0 := by
      by_contra hno
      push_neg at hno
      exact absurd (hbit4.mpr fun x hx => hno x hx) (by simpa using h4c)
    rcases hex with ⟨x, hxe, hx4⟩
    have hxmax : t.card x = UINT32_MAX := (he x hxe).2.2.2.2.1 hx4
    have hge : UINT32_MAX ≤ prodCards t e := by
      have := prodCards_ge_of_mem t e x hxe he1
      rw [show type_card t x = t.card x from rfl, hxmax] at this
      exact this
    have hne : ∀ f : Nat, f < 32 → f &&& 7 = 0 →
        f ≠ UNIT_TYPE_FLAGS ∧ f ≠ SMALL_TYPE_FLAGS ∧ f &&& 27 = f ∧ f &&& 1 = 0 := by decide
    have hk := hne _ hc32 (by simpa [CARD_FLAGS_MASK] using hz)
    rw [if_neg hk.1, if_neg hk.2.1, if_neg hk.1, if_neg hk.2.1, Nat.min_eq_right hge]
    refine ⟨rfl, fun _ => rfl, fun _ => ⟨?_, ?_⟩⟩
    · exact (hk.2.2.1).symm
    · have hnall : ¬ ∀ x ∈ e, type_flags t x &&& TYPE_IS_FINITE_MASK ≠ 0 := by
        intro hall
        exact absurd (hbit1.mpr hall) (by simp [hk.2.2.2])
      exact iff_of_false (fun h => h hk.2.2.2) hnall

/-!  Symbol-table lemmas. -/

theorem set_type_name_stbl (u : TypeTable) (i : Int) (s : String) :
    (set_type_name u i s).stbl = (s, i) :: u.stbl := by
  unfold set_type_name
  split <;> rfl

theorem set_type_name_name_none (u : TypeTable) (i : Int) (s : String)
    (h : u.name i = none) : (set_type_name u i s).name i = some s := by
  unfold set_type_name
  rw [if_pos h]
  simp [upd]

theorem set_type_name_name_some (u : TypeTable) (i : Int) (s s0 : String)
    (h : u.name i = some s0) : (set_type_name u i s).name i = some s0 := by
  unfold set_type_name
  rw [if_neg (by simp [h])]
  exact h

/-- C9: after `set_type_name(T1, "X")` then `set_type_name(T2, "X")`,
lookup returns `T2`; one `remove_type_name` reveals `T1`; a second
returns `NULL_TYPE`.  `set_type_name` records the name on the
descriptor only if the type had none, and always pushes a shadowing
binding. -/
theorem C9_symbol_table_shadowing (t : TypeTable) (T1 T2 : Int) (X : String)
    (hX : ∀ p ∈ t.stbl, p.1 ≠ X) :
    get_type_by_name (set_type_name (set_type_name t T1 X) T2 X) X = T2 ∧
    get_type_by_name (remove_type_name (set_type_name (set_type_name t T1 X) T2 X) X) X = T1 ∧
    get_type_by_name (remove_type_name (remove_type_name
        (set_type_name (set_type_name t T1 X) T2 X) X) X) X = NULL_TYPE ∧
    (∀ (u : TypeTable) (i : Int) (s : String),
      (u.name i = none → (set_type_name u i s).name i = some s) ∧
      (∀ s0, u.name i = some s0 → (set_type_name u i s).name i = some s0) ∧
      (set_type_name u i s).stbl = (s, i) :: u.stbl) := by
  have hstbl2 : (set_type_name (set_type_name t T1 X) T2 X).stbl =
      (X, T2) :: (X, T1) :: t.stbl := by
    rw [set_type_name_stbl, set_type_name_stbl]
  have hnone : t.stbl.find? (fun p => decide (p.1 = X)) = none :=
    List.find?_eq_none.mpr (fun p hp => by simp [hX p hp])
  refine ⟨?_, ?_, ?_, ?_⟩
  · rw [get_type_by_name, hstbl2]
    simp [List.find?]
  · rw [get_type_by_name, remove_type_name]
    rw [hstbl2]
    rw [show stbl_pop X ((X, T2) :: (X, T1) :: t.stbl) = (X, T1) :: t.stbl from by
      simp [stbl_pop]]
    simp [List.find?]
  · rw [get_type_by_name, remove_type_name, remove_type_name]
    rw [hstbl2]
    rw [show stbl_pop X ((X, T2) :: (X, T1) :: t.stbl) = (X, T1) :: t.stbl from by
      simp [stbl_pop]]
    rw [show stbl_pop X ((X, T1) :: t.stbl) = t.stbl from by simp [stbl_pop]]
    rw [hnone]
  · intro u i s
    exact ⟨set_type_name_name_none u i s, fun s0 h => set_type_name_name_some u i s s0 h,
      set_type_name_stbl u i s⟩

/-!  Allocator lemmas. -/

/-- Free chains only look at the descriptors of their members. -/
theorem IsFreeChain_congr {t t2 : TypeTable} {j : Int} {l : List Int}
    (hc : IsFreeChain t j l) (h : ∀ x ∈ l, t2.desc x = t.desc x) : IsFreeChain t2 j l := by
  induction hc with
  | nil h0 => exact .nil h0
  | @cons i l h0 hnext ih =>
    refine .cons h0 ?_
    rw [h i (by simp)]
    exact ih (fun x hx => h x (by simp [hx]))

/-- A chain rooted at a negative index is empty. -/
theorem IsFreeChain_neg {t : TypeTable} {j : Int} {l : List Int}
    (hc : IsFreeChain t j l) (h : j < 0) : l = [] := by
  cases hc with
  | nil => rfl
  | cons h0 => omega

/-- Full characterization of `allocate_type_id`. -/
theorem allocate_char (t : TypeTable) :
    (0 ≤ t.free_idx ∧ (allocate_type_id t).1 = t.free_idx ∧
      (allocate_type_id t).2 = { t with
        free_idx := (t.desc t.free_idx).nextOf,
        name := upd t.name t.free_idx none }) ∨
    (¬ 0 ≤ t.free_idx ∧ (allocate_type_id t).1 = (t.nelems : Int) ∧
      ((allocate_type_id t).2 = { t with
          nelems := t.nelems + 1,
          size := (t.size + 1) + (t.size + 1) / 2,
          name := upd t.name (t.nelems : Int) none } ∨
       (allocate_type_id t).2 = { t with
          nelems := t.nelems + 1,
          name := upd t.name (t.nelems : Int) none })) := by
  unfold allocate_type_id
  by_cases h : (0:Int) ≤ t.free_idx
  · left
    exact ⟨h, by simp [h], by simp [h]⟩
  · right
    refine ⟨h, by simp [h], ?_⟩
    by_cases h2 : t.nelems ≥ t.size
    · left
      simp [h, h2]
    · right
      simp [h, h2]

/-- Behaviour of the common constructor tail: allocate a slot `i` and
fill its kind, descriptor, cardinality and flags.  The allocated id is
fresh (not live before, live after), nothing else changes, and the
allocator invariant is preserved. -/
theorem build_spec (t : TypeTable) (K : TypeKind) (D : TypeDesc) (C F : Nat)
    (hK : K ≠ .UNUSED_TYPE) (h : AllocOk t) :
    (¬ good_type t (allocate_type_id t).1) ∧
    good_type { (allocate_type_id t).2 with
        kind := upd t.kind (allocate_type_id t).1 K,
        desc := upd t.desc (allocate_type_id t).1 D,
        card := upd t.card (allocate_type_id t).1 C,
        flags := upd t.flags (allocate_type_id t).1 F } (allocate_type_id t).1 ∧
    (∀ j, good_type t j →
      good_type { (allocate_type_id t).2 with
        kind := upd t.kind (allocate_type_id t).1 K,
        desc := upd t.desc (allocate_type_id t).1 D,
        card := upd t.card (allocate_type_id t).1 C,
        flags := upd t.flags (allocate_type_id t).1 F } j ∧ j ≠ (allocate_type_id t).1) ∧
    (∀ j, good_type { (allocate_type_id t).2 with
        kind := upd t.kind (allocate_type_id t).1 K,
        desc := upd t.desc (allocate_type_id t).1 D,
        card := upd t.card (allocate_type_id t).1 C,
        flags := upd t.flags (allocate_type_id t).1 F } j →
      j = (allocate_type_id t).1 ∨ good_type t j) ∧
    t.nelems ≤ ((allocate_type_id t).2).nelems ∧
    AllocOk { (allocate_type_id t).2 with
        kind := upd t.kind (allocate_type_id t).1 K,
        desc := upd t.desc (allocate_type_id t).1 D,
        card := upd t.card (allocate_type_id t).1 C,
        flags := upd t.flags (allocate_type_id t).1 F } := by
  obtain ⟨hout, l, hchain, hnodup, hmem⟩ := h
  rcases allocate_char t with ⟨hge, hfst, hsnd⟩ | ⟨hlt, hfst, hsnd⟩
  · -- pop the free-list head
    have hl : ∃ l2, l = t.free_idx :: l2 := by
      cases hchain with
      | nil h0 => omega
      | cons h0 hnext => exact ⟨_, rfl⟩
    obtain ⟨l2, rfl⟩ := hl
    have hhead := hmem t.free_idx (by simp)
    have hnotin : t.free_idx ∉ l2 := (List.nodup_cons.mp hnodup).1
    have htail : IsFreeChain t ((t.desc t.free_idx).nextOf) l2 := by
      cases hchain with
      | cons h0 hnext => exact hnext
    rw [hfst, hsnd]
    simp only [good_type, AllocOk]
    refine ⟨?_, ?_, ?_, ?_, ?_, ?_, ?_⟩
    · intro hg
      exact hg.2.2 hhead.2.2
    · exact ⟨hge, hhead.2.1, by simp [hK]⟩
    · intro j hj
      have hne : j ≠ t.free_idx := fun he => hj.2.2 (he ▸ hhead.2.2)
      exact ⟨⟨hj.1, hj.2.1, by simpa [upd, hne] using hj.2.2⟩, hne⟩
    · intro j hj
      by_cases hje : j = t.free_idx
      · exact Or.inl hje
      · exact Or.inr ⟨hj.1, hj.2.1, by simpa [upd, hje] using hj.2.2⟩
    · exact le_refl _
    · intro j hj
      have hne : j ≠ t.free_idx := by
        rcases hj with hj | hj <;> omega
      simp only [upd]
      rw [if_neg hne]
      exact hout j hj
    · refine ⟨l2, ?_, (List.nodup_cons.mp hnodup).2, ?_⟩
      · refine IsFreeChain_congr htail ?_
        intro x hx
        have hxne : x ≠ t.free_idx := fun he => hnotin (he ▸ hx)
        simp [upd, hxne]
      · intro x hx
        have hx0 := hmem x (by simp [hx])
        have hxne : x ≠ t.free_idx := fun he => hnotin (he ▸ hx)
        exact ⟨hx0.1, hx0.2.1, by simpa [upd, hxne] using hx0.2.2⟩
  · -- fresh slot at the end of the table
    have hempty : l = [] := IsFreeChain_neg hchain (by omega)
    subst hempty
    rcases hsnd with hsnd | hsnd <;> rw [hfst, hsnd] <;>
      simp only [good_type, AllocOk] <;>
      refine ⟨?_, ?_, ?_, ?_, ?_, ?_, ?_⟩ <;>
    first
    | -- not good before
      exact fun hg => absurd hg.2.1 (by omega)
    | -- good after
      exact ⟨by omega, by push_cast; omega, by simp [hK]⟩
    | -- old goods survive, distinct from the fresh id
      (intro j hj
       have hne : j ≠ (t.nelems : Int) := by
         have := hj.2.1
         omega
       exact ⟨⟨hj.1, by push_cast; omega, by simpa [upd, hne] using hj.2.2⟩, hne⟩)
    | -- new goods are the fresh id or old goods
      (intro j hj
       by_cases hje : j = (t.nelems : Int)
       · exact Or.inl hje
       · refine Or.inr ⟨hj.1, ?_, by simpa [upd, hje] using hj.2.2⟩
         have := hj.2.1
         push_cast at this ⊢
         omega)
    | -- nelems grows
      (push_cast; omega)
    | -- out-of-range ids stay unused
      (intro j hj
       have hne : j ≠ (t.nelems : Int) := by
         rcases hj with hj | hj
         · omega
         · push_cast at hj
           omega
       simp only [upd]
       rw [if_neg hne]
       refine hout j ?_
       rcases hj with hj | hj
       · exact Or.inl hj
       · right
         push_cast at hj ⊢
         omega)
    | -- the free list is empty
      exact ⟨[], .nil (by omega), List.nodup_nil, by simp⟩

/-- C8: scalar and uninterpreted types are nominal: each call to
`new_scalar_type` (with `k ≥ 1`) returns an id that is distinct from
every live id — so two calls with the same `k` return distinct ids —
with stored cardinality `k` and unit/small flags; each call to
`new_uninterpreted_type` likewise returns a fresh id. -/
theorem C8_scalar_uninterpreted_nominal (t : TypeTable) (k : Nat) (hk : 1 ≤ k)
    (h : AllocOk t) :
    (∀ j, good_type t j → (new_scalar_type t k).1 ≠ j) ∧
    good_type (new_scalar_type t k).2 (new_scalar_type t k).1 ∧
    (new_scalar_type t k).2.card (new_scalar_type t k).1 = k ∧
    (k = 1 → (new_scalar_type t k).2.flags (new_scalar_type t k).1 = UNIT_TYPE_FLAGS) ∧
    (k ≠ 1 → (new_scalar_type t k).2.flags (new_scalar_type t k).1 = SMALL_TYPE_FLAGS) ∧
    (new_scalar_type (new_scalar_type t k).2 k).1 ≠ (new_scalar_type t k).1 ∧
    (∀ j, good_type t j → (new_uninterpreted_type t).1 ≠ j) := by
  have bs := build_spec t .SCALAR_TYPE (.integer k) k
    (if k = 1 then UNIT_TYPE_FLAGS else SMALL_TYPE_FLAGS) (by simp) h
  have bu := build_spec t .UNINTERPRETED_TYPE .nullptr UINT32_MAX
    (INFINITE_TYPE_FLAGS ||| TYPE_IS_MAXIMAL_MASK ||| TYPE_IS_MINIMAL_MASK) (by simp) h
  refine ⟨?_, ?_, ?_, ?_, ?_, ?_, ?_⟩
  · intro j hj
    rw [new_scalar_type_spec]
    exact fun he => ((bs.2.2.1) j hj).2 he.symm
  · rw [new_scalar_type_spec]
    exact bs.2.1
  · rw [new_scalar_type_spec]
    simp
  · intro h1
    rw [new_scalar_type_spec]
    simp [h1]
  · intro h1
    rw [new_scalar_type_spec]
    simp [h1]
  · have hAll2 : AllocOk (new_scalar_type t k).2 := by
      rw [new_scalar_type_spec]
      exact bs.2.2.2.2.2
    have hgood1 : good_type (new_scalar_type t k).2 (new_scalar_type t k).1 := by
      rw [new_scalar_type_spec]
      exact bs.2.1
    have bs2 := build_spec (new_scalar_type t k).2 .SCALAR_TYPE (.integer k) k
      (if k = 1 then UNIT_TYPE_FLAGS else SMALL_TYPE_FLAGS) (by simp) hAll2
    intro he
    apply bs2.1
    have e3 : (new_scalar_type (new_scalar_type t k).2 k).1
        = (allocate_type_id (new_scalar_type t k).2).1 := by
      rw [new_scalar_type_spec ((new_scalar_type t k).2) k]
    rw [← e3, he]
    exact hgood1
  · intro j hj
    rw [new_uninterpreted_type_spec]
    intro he
    exact ((bu.2.2.1) j hj).2 he.symm

/-!  Sweep-phase lemmas. -/

theorem erase_type_noop (u : TypeTable) (i : Int)
    (h : u.kind i = .UNUSED_TYPE ∨ u.kind i = .BOOL_TYPE ∨ u.kind i = .INT_TYPE ∨
      u.kind i = .REAL_TYPE) : erase_type u i = u := by
  unfold erase_type
  rcases h with h | h | h | h <;> rw [h]

theorem erase_type_erases (u : TypeTable) (i : Int) (h : erasableKind (u.kind i)) :
    erase_type u i = { u with
      name := upd u.name i none,
      kind := upd u.kind i .UNUSED_TYPE,
      desc := upd u.desc i (.next u.free_idx),
      free_idx := i } := by
  unfold erase_type
  rcases h with h | h | h | h | h <;> rw [h]

theorem erase_hcons_noop (u : TypeTable) (i : Int) (h : ¬ hconsKind (u.kind i)) :
    erase_hcons_type u i = u := by
  unfold erase_hcons_type
  cases hk : u.kind i <;> first
    | rfl
    | (exfalso; apply h; rw [hk]; simp [hconsKind])

theorem erase_hcons_erases (u : TypeTable) (i : Int) (h : hconsKind (u.kind i)) :
    erase_hcons_type u i = { u with htbl := u.htbl.erase i } := by
  unfold erase_hcons_type
  rcases h with h | h | h <;> rw [h]

theorem hcons_erasable {k : TypeKind} (h : hconsKind k) : erasableKind k := by
  rcases h with h | h | h <;> subst h <;> simp [erasableKind]

theorem not_erasable_cases {k : TypeKind} (h : ¬ erasableKind k) :
    k = .UNUSED_TYPE ∨ k = .BOOL_TYPE ∨ k = .INT_TYPE ∨ k = .REAL_TYPE := by
  cases k <;> simp_all [erasableKind]

/-- One sweep step is either a no-op (marked id, or primitive/unused
slot) or the full erase of slot `i`. -/
theorem sweep_step_char (m : Int → Bool) (t : TypeTable) (i : Int) :
    (¬(m i = false ∧ erasableKind (t.kind i)) ∧ sweep_step m t i = t) ∨
    (m i = false ∧ erasableKind (t.kind i) ∧
      sweep_step m t i = { t with
        htbl := if hconsKind (t.kind i) then t.htbl.erase i else t.htbl,
        name := upd t.name i none,
        kind := upd t.kind i .UNUSED_TYPE,
        desc := upd t.desc i (.next t.free_idx),
        free_idx := i }) := by
  by_cases hm : m i = true
  · left
    refine ⟨by simp [hm], ?_⟩
    unfold sweep_step
    rw [if_pos hm]
  · have hm2 : m i = false := by simpa using hm
    by_cases he : erasableKind (t.kind i)
    · right
      refine ⟨hm2, he, ?_⟩
      unfold sweep_step
      rw [if_neg hm]
      by_cases hh : hconsKind (t.kind i)
      · rw [erase_hcons_erases t i hh,
          erase_type_erases { t with htbl := t.htbl.erase i } i he, if_pos hh]
      · rw [erase_hcons_noop t i hh, erase_type_erases t i he, if_neg hh]
    · left
      refine ⟨fun hc => he hc.2, ?_⟩
      unfold sweep_step
      rw [if_neg hm]
      rw [erase_hcons_noop t i (fun hh => he (hcons_erasable hh))]
      exact erase_type_noop t i (not_erasable_cases he)

/-- Fields never touched by the sweep loop. -/
theorem sweep_list_frame (m : Int → Bool) :
    ∀ (L : List Int) (t : TypeTable),
      (sweep_list m t L).nelems = t.nelems ∧ (sweep_list m t L).size = t.size ∧
      (sweep_list m t L).stbl = t.stbl ∧ (sweep_list m t L).sup_tbl = t.sup_tbl ∧
      (sweep_list m t L).inf_tbl = t.inf_tbl ∧ (sweep_list m t L).mark = t.mark ∧
      (∀ j, (sweep_list m t L).card j = t.card j) ∧
      (∀ j, (sweep_list m t L).flags j = t.flags j) := by
  intro L
  induction L with
  | nil => intro t; exact ⟨rfl, rfl, rfl, rfl, rfl, rfl, fun _ => rfl, fun _ => rfl⟩
  | cons i L ih =>
    intro t
    have step : (sweep_step m t i).nelems = t.nelems ∧ (sweep_step m t i).size = t.size ∧
        (sweep_step m t i).stbl = t.stbl ∧ (sweep_step m t i).sup_tbl = t.sup_tbl ∧
        (sweep_step m t i).inf_tbl = t.inf_tbl ∧ (sweep_step m t i).mark = t.mark ∧
        (∀ j, (sweep_step m t i).card j = t.card j) ∧
        (∀ j, (sweep_step m t i).flags j = t.flags j) := by
      rcases sweep_step_char m t i with ⟨_, hs⟩ | ⟨_, _, hs⟩ <;> rw [hs] <;>
        exact ⟨rfl, rfl, rfl, rfl, rfl, rfl, fun _ => rfl, fun _ => rfl⟩
    have rest := ih (sweep_step m t i)
    unfold sweep_list
    refine ⟨rest.1.trans step.1, rest.2.1.trans step.2.1, rest.2.2.1.trans step.2.2.1,
      rest.2.2.2.1.trans step.2.2.2.1, rest.2.2.2.2.1.trans step.2.2.2.2.1,
      rest.2.2.2.2.2.1.trans step.2.2.2.2.2.1, ?_, ?_⟩
    · intro j
      exact (rest.2.2.2.2.2.2.1 j).trans (step.2.2.2.2.2.2.1 j)
    · intro j
      exact (rest.2.2.2.2.2.2.2 j).trans (step.2.2.2.2.2.2.2 j)

/-- A slot that is not a deletion candidate (marked, primitive, or
already unused) is never modified by the sweep. -/
theorem sweep_list_untouched (m : Int → Bool) :
    ∀ (L : List Int) (t : TypeTable) (j : Int), ¬(m j = false ∧ erasableKind (t.kind j)) →
      (sweep_list m t L).kind j = t.kind j ∧ (sweep_list m t L).desc j = t.desc j ∧
      (sweep_list m t L).name j = t.name j := by
  intro L
  induction L with
  | nil => exact fun t j _ => ⟨rfl, rfl, rfl⟩
  | cons i L ih =>
    intro t j hj
    rcases sweep_step_char m t i with ⟨_, hs⟩ | ⟨hm, he, hs⟩
    · unfold sweep_list
      rw [hs]
      exact ih t j hj
    · have hij : j ≠ i := by
        intro hij
        exact hj (hij ▸ ⟨hm, he⟩)
      unfold sweep_list
      rw [hs]
      have := ih { t with
        htbl := if hconsKind (t.kind i) then t.htbl.erase i else t.htbl,
        name := upd t.name i none,
        kind := upd t.kind i .UNUSED_TYPE,
        desc := upd t.desc i (.next t.free_idx),
        free_idx := i } j (by simpa [upd, hij] using hj)
      simpa [upd, hij] using this

/-- Slots outside the processed index list are never modified. -/
theorem sweep_list_not_mem (m : Int → Bool) :
    ∀ (L : List Int) (t : TypeTable) (j : Int), j ∉ L →
      (sweep_list m t L).kind j = t.kind j ∧ (sweep_list m t L).desc j = t.desc j ∧
      (sweep_list m t L).name j = t.name j := by
  intro L
  induction L with
  | nil => exact fun t j _ => ⟨rfl, rfl, rfl⟩
  | cons i L ih =>
    intro t j hj
    have hij : j ≠ i := fun he => hj (by simp [he])
    have hj2 : j ∉ L := fun he => hj (by simp [he])
    rcases sweep_step_char m t i with ⟨_, hs⟩ | ⟨hm, he, hs⟩
    · unfold sweep_list
      rw [hs]
      exact ih t j hj2
    · unfold sweep_list
      rw [hs]
      have := ih { t with
        htbl := if hconsKind (t.kind i) then t.htbl.erase i else t.htbl,
        name := upd t.name i none,
        kind := upd t.kind i .UNUSED_TYPE,
        desc := upd t.desc i (.next t.free_idx),
        free_idx := i } j hj2
      simpa [upd, hij] using this

/-- An unmarked erasable slot in the processed list ends up unused with
no name. -/
theorem sweep_list_erased (m : Int → Bool) :
    ∀ (L : List Int) (t : TypeTable) (j : Int), L.Nodup → j ∈ L → m j = false →
      erasableKind (t.kind j) →
      (sweep_list m t L).kind j = .UNUSED_TYPE ∧ (sweep_list m t L).name j = none := by
  intro L
  induction L with
  | nil => intro t j _ hj; cases hj
  | cons i L ih =>
    intro t j hnd hj hm he
    rcases List.mem_cons.mp hj with rfl | hj2
    · rcases sweep_step_char m t j with ⟨hno, _⟩ | ⟨_, _, hs⟩
      · exact absurd ⟨hm, he⟩ hno
      · unfold sweep_list
        rw [hs]
        have hnotin : j ∉ L := (List.nodup_cons.mp hnd).1
        have frame := sweep_list_not_mem m L { t with
          htbl := if hconsKind (t.kind j) then t.htbl.erase j else t.htbl,
          name := upd t.name j none,
          kind := upd t.kind j .UNUSED_TYPE,
          desc := upd t.desc j (.next t.free_idx),
          free_idx := j } j hnotin
        refine ⟨frame.1.trans (by simp [upd]), frame.2.2.trans (by simp [upd])⟩
    · have hij : j ≠ i := by
        intro he2
        subst he2
        exact (List.nodup_cons.mp hnd).1 hj2
      rcases sweep_step_char m t i with ⟨_, hs⟩ | ⟨_, _, hs⟩
      · unfold sweep_list
        rw [hs]
        exact ih t j (List.nodup_cons.mp hnd).2 hj2 hm he
      · unfold sweep_list
        rw [hs]
        exact ih _ j (List.nodup_cons.mp hnd).2 hj2 hm (by simpa [upd, hij] using he)

/-- The sweep removes from the hash-cons table exactly the unmarked
hash-consed ids of the processed list. -/
theorem sweep_list_htbl (m : Int → Bool) :
    ∀ (L : List Int) (t : TypeTable), L.Nodup → t.htbl.Nodup →
      (sweep_list m t L).htbl.Nodup ∧
      (∀ x, x ∈ (sweep_list m t L).htbl ↔
        (x ∈ t.htbl ∧ ¬(x ∈ L ∧ m x = false ∧ hconsKind (t.kind x)))) := by
  intro L
  induction L with
  | nil =>
    intro t _ hh
    exact ⟨hh, fun x => by simp [sweep_list]⟩
  | cons i L ih =>
    intro t hnd hh
    have hndL := (List.nodup_cons.mp hnd).2
    have hiL : i ∉ L := (List.nodup_cons.mp hnd).1
    rcases sweep_step_char m t i with ⟨hno, hs⟩ | ⟨hm, he, hs⟩
    · unfold sweep_list
      rw [hs]
      obtain ⟨h1, h2⟩ := ih t hndL hh
      refine ⟨h1, fun x => ?_⟩
      rw [h2 x]
      constructor
      · rintro ⟨hx1, hx2⟩
        refine ⟨hx1, ?_⟩
        rintro ⟨hxm, hxf, hxh⟩
        rcases List.mem_cons.mp hxm with rfl | hxm2
        · exact hno ⟨hxf, hcons_erasable hxh⟩
        · exact hx2 ⟨hxm2, hxf, hxh⟩
      · rintro ⟨hx1, hx2⟩
        exact ⟨hx1, fun ⟨hxm, hxf, hxh⟩ => hx2 ⟨by simp [hxm], hxf, hxh⟩⟩
    · unfold sweep_list
      rw [hs]
      set t1 : TypeTable := { t with
        htbl := if hconsKind (t.kind i) then t.htbl.erase i else t.htbl,
        name := upd t.name i none,
        kind := upd t.kind i .UNUSED_TYPE,
        desc := upd t.desc i (.next t.free_idx),
        free_idx := i } with ht1
      have hh1 : t1.htbl.Nodup := by
        rw [ht1]
        by_cases hhc : hconsKind (t.kind i)
        · simpa [hhc] using hh.erase i
        · simpa [hhc] using hh
      obtain ⟨h1, h2⟩ := ih t1 hndL hh1
      refine ⟨h1, fun x => ?_⟩
      rw [h2 x]
      by_cases hxi : x = i
      · subst hxi
        have hx1 : x ∈ t1.htbl ↔ (x ∈ t.htbl ∧ ¬ hconsKind (t.kind x)) := by
          rw [ht1]
          by_cases hhc : hconsKind (t.kind x)
          · simp only [hhc, if_pos]
            constructor
            · intro hmem
              exact absurd rfl (hh.mem_erase_iff.mp hmem).1
            · rintro ⟨_, hc⟩
              exact (hc trivial).elim
          · simp [hhc]
        constructor
        · rintro ⟨hx2, _⟩
          rcases hx1.mp hx2 with ⟨hx3, hx4⟩
          exact ⟨hx3, fun ⟨_, _, hxh⟩ => hx4 hxh⟩
        · rintro ⟨hx2, hx3⟩
          by_cases hhc : hconsKind (t.kind x)
          · exact absurd ⟨by simp, hm, hhc⟩ hx3
          · refine ⟨hx1.mpr ⟨hx2, hhc⟩, ?_⟩
            rintro ⟨hxm, _, hxh⟩
            apply hhc
            have : t1.kind x = .UNUSED_TYPE := by rw [ht1]; simp [upd]
            rw [this] at hxh
            rcases hxh with h | h | h <;> cases h
      · have hk1 : t1.kind x = t.kind x := by rw [ht1]; simp [upd, hxi]
        have hx1 : x ∈ t1.htbl ↔ x ∈ t.htbl := by
          rw [ht1]
          by_cases hhc : hconsKind (t.kind i)
          · simp only [hhc, if_pos]
            rw [hh.mem_erase_iff]
            simp [hxi]
          · simp [hhc]
        rw [hx1, hk1]
        constructor
        · rintro ⟨hx2, hx3⟩
          refine ⟨hx2, ?_⟩
          rintro ⟨hxm, hxf, hxh⟩
          rcases List.mem_cons.mp hxm with rfl | hxm2
          · exact hxi rfl
          · exact hx3 ⟨hxm2, hxf, hxh⟩
        · rintro ⟨hx2, hx3⟩
          exact ⟨hx2, fun ⟨hxm, hxf, hxh⟩ => hx3 ⟨by simp [hxm], hxf, hxh⟩⟩

/-- The sweep pushes exactly the reclaimed slots (in some
duplicate-free order) in front of the original free list. -/
theorem sweep_list_chain (m : Int → Bool) :
    ∀ (L : List Int) (t : TypeTable) (l0 : List Int), L.Nodup → (∀ x ∈ L, 0 ≤ x) →
      IsFreeChain t t.free_idx l0 → (∀ x ∈ l0, t.kind x = .UNUSED_TYPE) →
      ∃ E, IsFreeChain (sweep_list m t L) (sweep_list m t L).free_idx (E ++ l0) ∧
        (∀ j, j ∈ E ↔ (j ∈ L ∧ m j = false ∧ erasableKind (t.kind j))) ∧ E.Nodup ∧
        (∀ x ∈ l0, (sweep_list m t L).kind x = .UNUSED_TYPE) := by
  intro L
  induction L with
  | nil =>
    intro t l0 _ _ hch hl0
    exact ⟨[], by simpa using hch, by simp, by simp, hl0⟩
  | cons i L ih =>
    intro t l0 hnd hpos hch hl0
    have hndL := (List.nodup_cons.mp hnd).2
    have hiL : i ∉ L := (List.nodup_cons.mp hnd).1
    have hposL : ∀ x ∈ L, 0 ≤ x := fun x hx => hpos x (by simp [hx])
    rcases sweep_step_char m t i with ⟨hno, hs⟩ | ⟨hm, he, hs⟩
    · unfold sweep_list
      rw [hs]
      obtain ⟨E, hE1, hE2, hE3, hE4⟩ := ih t l0 hndL hposL hch hl0
      refine ⟨E, hE1, fun j => ?_, hE3, hE4⟩
      rw [hE2 j]
      constructor
      · rintro ⟨hj1, hj2, hj3⟩
        exact ⟨by simp [hj1], hj2, hj3⟩
      · rintro ⟨hj1, hj2, hj3⟩
        rcases List.mem_cons.mp hj1 with rfl | hj4
        · exact absurd ⟨hj2, hj3⟩ hno
        · exact ⟨hj4, hj2, hj3⟩
    · unfold sweep_list
      rw [hs]
      set t1 : TypeTable := { t with
        htbl := if hconsKind (t.kind i) then t.htbl.erase i else t.htbl,
        name := upd t.name i none,
        kind := upd t.kind i .UNUSED_TYPE,
        desc := upd t.desc i (.next t.free_idx),
        free_idx := i } with ht1
      have hinotl0 : i ∉ l0 := by
        intro hmem
        have := hl0 i hmem
        rcases he with h | h | h | h | h <;> rw [this] at h <;> cases h
      have hch1 : IsFreeChain t1 t1.free_idx (i :: l0) := by
        refine .cons (hpos i (by simp)) ?_
        have hnext : (t1.desc i).nextOf = t.free_idx := by
          rw [ht1]
          simp [upd, TypeDesc.nextOf]
        rw [hnext]
        refine IsFreeChain_congr hch ?_
        intro x hx
        have hxi : x ≠ i := fun hxe => hinotl0 (hxe ▸ hx)
        rw [ht1]
        simp [upd, hxi]
      have hl01 : ∀ x ∈ i :: l0, t1.kind x = .UNUSED_TYPE := by
        intro x hx
        rcases List.mem_cons.mp hx with rfl | hx2
        · rw [ht1]; simp [upd]
        · have hxi : x ≠ i := fun hxe => hinotl0 (hxe ▸ hx2)
          rw [ht1]
          simpa [upd, hxi] using hl0 x hx2
      obtain ⟨E, hE1, hE2, hE3, hE4⟩ := ih t1 (i :: l0) hndL hposL hch1 hl01
      refine ⟨E ++ [i], by simpa using hE1, fun j => ?_, ?_, ?_⟩
      · constructor
        · intro hj
          rcases List.mem_append.mp hj with hj | hj
          · obtain ⟨hj1, hj2, hj3⟩ := (hE2 j).mp hj
            have hji : j ≠ i := fun hje => hiL (hje ▸ hj1)
            rw [ht1] at hj3
            simp only [upd] at hj3
            rw [if_neg hji] at hj3
            exact ⟨by simp [hj1], hj2, hj3⟩
          · have hji : j = i := by simpa using hj
            subst hji
            exact ⟨by simp, hm, he⟩
        · rintro ⟨hj1, hj2, hj3⟩
          rcases List.mem_cons.mp hj1 with rfl | hj4
          · simp
          · have hji : j ≠ i := fun hje => hiL (hje ▸ hj4)
            refine List.mem_append.mpr (Or.inl ((hE2 j).mpr ⟨hj4, hj2, ?_⟩))
            rw [ht1]
            simpa [upd, hji] using hj3
      · rw [List.nodup_append]
        refine ⟨hE3, by simp, ?_⟩
        intro a ha hb
        have hai : a = i := by simpa using hb
        subst hai
        obtain ⟨hj1, _, _⟩ := (hE2 a).mp ha
        exact hiL hj1
      · intro x hx
        exact hE4 x (by simp [hx])

/-- Field-level characterization of the freshly initialized table. -/
theorem init_char (n : Nat) :
    (init_type_table n).nelems = 3 ∧
    (init_type_table n).free_idx = NULL_TYPE ∧
    (init_type_table n).kind =
      upd (upd (upd (fun _ => TypeKind.UNUSED_TYPE) 0 .BOOL_TYPE) 1 .INT_TYPE) 2 .REAL_TYPE ∧
    (init_type_table n).desc =
      upd (upd (upd (fun _ => TypeDesc.nullptr) 0 .nullptr) 1 .nullptr) 2 .nullptr ∧
    (init_type_table n).card =
      upd (upd (upd (fun _ => 0) 0 2) 1 UINT32_MAX) 2 UINT32_MAX ∧
    (init_type_table n).flags =
      upd (upd (upd (fun _ => 0) 0 SMALL_TYPE_FLAGS) 1
        (INFINITE_TYPE_FLAGS ||| TYPE_IS_MINIMAL_MASK)) 2
        (INFINITE_TYPE_FLAGS ||| TYPE_IS_MAXIMAL_MASK) ∧
    (init_type_table n).name = upd (upd (upd (fun _ => none) 0 none) 1 none) 2 none ∧
    (init_type_table n).htbl = [] ∧
    (init_type_table n).sup_tbl = none ∧
    (init_type_table n).inf_tbl = none ∧
    (init_type_table n).stbl = [] ∧
    (init_type_table n).mark = (fun _ => false) := by
  unfold init_type_table add_primitive_types allocate_type_id type_table_init
  norm_num [NULL_TYPE]
  split_ifs <;> simp_all

/-- A fresh table satisfies the allocator invariant. -/
theorem allocOk_init (n : Nat) : AllocOk (init_type_table n) := by
  obtain ⟨h1, h2, h3, _⟩ := init_char n
  constructor
  · intro i hi
    rw [h1] at hi
    rw [h3]
    have e0 : i ≠ 0 := by omega
    have e1 : i ≠ 1 := by omega
    have e2 : i ≠ 2 := by omega
    simp [upd, e0, e1, e2]
  · refine ⟨[], .nil ?_, by simp, by simp⟩
    rw [h2]
    norm_num [NULL_TYPE]

/-- Preservation of a property through a left fold. -/
theorem foldl_pres {α β : Type} {P : α → Prop} (f : α → β → α)
    (hf : ∀ a b, P a → P (f a b)) : ∀ (l : List β) (a : α), P a → P (l.foldl f a) := by
  intro l
  induction l with
  | nil => exact fun a h => h
  | cons x l ih => exact fun a h => ih (f a x) (hf a x h)

/-- The mark phase only sets marks, never clears them. -/
theorem mark_and_explore_mono (t : TypeTable) :
    ∀ (fuel : Nat) (ptr : Int) (m : Int → Bool) (i j : Int), m j = true →
      mark_and_explore t fuel ptr m i j = true := by
  intro fuel
  induction fuel with
  | zero =>
    intro ptr m i j hj
    simp only [mark_and_explore]
    by_cases hmi : m i = true
    · simp [hmi, hj]
    · simp only [hmi, if_false]
      unfold updB
      split <;> simp [hj]
  | succ fuel ih =>
    intro ptr m i j hj
    simp only [mark_and_explore]
    by_cases hmi : m i = true
    · simp [hmi, hj]
    · simp only [hmi, if_false]
      have hm1 : updB m i true j = true := by
        unfold updB
        split <;> simp [hj]
      by_cases hip : i < ptr
      · rw [if_pos hip]
        exact foldl_pres _ (fun m c hm => ih ptr m c j hm) _ _ hm1
      · rw [if_neg hip]
        exact hm1

/-- The propagation loop only sets marks, never clears them. -/
theorem mark_live_types_mono (t : TypeTable) (m : Int → Bool) (j : Int) (hj : m j = true) :
    mark_live_types t m j = true := by
  unfold mark_live_types
  refine @foldl_pres (Int → Bool) Nat (fun m => m j = true) _ ?_ _ _ hj
  intro m i hm
  by_cases hmi : m (i : Int) = true
  · rw [if_pos hmi]
    unfold mark_reachable_types
    exact foldl_pres _ (fun m c h => mark_and_explore_mono t _ _ m c j h) _ _ hm
  · rw [if_neg hmi]
    exact hm

/-- The three primitive ids are among the GC roots. -/
theorem gcRoots_prim (t : TypeTable) :
    gcRoots t bool_id = true ∧ gcRoots t int_id = true ∧ gcRoots t real_id = true := by
  unfold gcRoots
  refine ⟨?_, ?_, ?_⟩ <;> simp [updB, bool_id, int_id, real_id]

/-- Roots keep their marks through propagation. -/
theorem sweepMarks_of_root (t : TypeTable) (j : Int) (hj : gcRoots t j = true) :
    sweepMarks t j = true :=
  mark_live_types_mono t (gcRoots t) j hj

/-- The three primitive ids are always marked at sweep time. -/
theorem sweepMarks_prim (t : TypeTable) :
    sweepMarks t bool_id = true ∧ sweepMarks t int_id = true ∧ sweepMarks t real_id = true := by
  obtain ⟨h0, h1, h2⟩ := gcRoots_prim t
  exact ⟨sweepMarks_of_root t _ h0, sweepMarks_of_root t _ h1, sweepMarks_of_root t _ h2⟩

theorem gcSweepIds_nodup (t : TypeTable) : (gcSweepIds t).Nodup :=
  (List.nodup_range t.nelems).map (fun a b h => by exact_mod_cast h)

theorem mem_gcSweepIds (t : TypeTable) (j : Int) :
    j ∈ gcSweepIds t ↔ 0 ≤ j ∧ j < (t.nelems : Int) := by
  unfold gcSweepIds
  simp only [List.mem_map, List.mem_range]
  constructor
  · rintro ⟨a, ha, rfl⟩
    constructor <;> omega
  · rintro ⟨h0, h1⟩
    exact ⟨j.toNat, by omega, by omega⟩

theorem mem_gcReclaimed (t : TypeTable) (j : Int) :
    j ∈ gcReclaimed t ↔
      0 ≤ j ∧ j < (t.nelems : Int) ∧ sweepMarks t j = false ∧ erasableKind (t.kind j) := by
  unfold gcReclaimed
  rw [List.mem_filter, mem_gcSweepIds]
  simp [and_assoc]

theorem gcReclaimed_nodup (t : TypeTable) : (gcReclaimed t).Nodup :=
  (gcSweepIds_nodup t).filter _

/-!  Field projections of `type_table_gc` in terms of the sweep result. -/

theorem gc_kind (t : TypeTable) :
    (type_table_gc t).kind = (sweep_list (sweepMarks t) t (gcSweepIds t)).kind := rfl

theorem gc_desc (t : TypeTable) :
    (type_table_gc t).desc = (sweep_list (sweepMarks t) t (gcSweepIds t)).desc := rfl

theorem gc_card (t : TypeTable) :
    (type_table_gc t).card = (sweep_list (sweepMarks t) t (gcSweepIds t)).card := rfl

theorem gc_flags (t : TypeTable) :
    (type_table_gc t).flags = (sweep_list (sweepMarks t) t (gcSweepIds t)).flags := rfl

theorem gc_name (t : TypeTable) :
    (type_table_gc t).name = (sweep_list (sweepMarks t) t (gcSweepIds t)).name := rfl

theorem gc_free_idx (t : TypeTable) :
    (type_table_gc t).free_idx = (sweep_list (sweepMarks t) t (gcSweepIds t)).free_idx := rfl

theorem gc_nelems (t : TypeTable) :
    (type_table_gc t).nelems = (sweep_list (sweepMarks t) t (gcSweepIds t)).nelems := rfl

theorem gc_size (t : TypeTable) :
    (type_table_gc t).size = (sweep_list (sweepMarks t) t (gcSweepIds t)).size := rfl

theorem gc_htbl (t : TypeTable) :
    (type_table_gc t).htbl = (sweep_list (sweepMarks t) t (gcSweepIds t)).htbl := rfl

theorem gc_stbl (t : TypeTable) :
    (type_table_gc t).stbl = (sweep_list (sweepMarks t) t (gcSweepIds t)).stbl := rfl

theorem gc_mark (t : TypeTable) :
    (type_table_gc t).mark =
      fun i => if 0 ≤ i ∧ i < (t.nelems : Int) then false else t.mark i := rfl

/-- C10: GC frame property.  `type_table_gc` never changes `nelems` or
`size`; the three primitives are always among the sweep-time marks;
every id marked at sweep time keeps its kind, descriptor, cardinality,
flags and name; a slot of non-erasable kind (primitive or already
unused) is untouched and `erase_type` is a no-op on it; the reclaimed
slots (unmarked in-range slots of erasable kind, a duplicate-free
collection) become `UNUSED` with no name and are spliced onto the front
of the free list exactly once each. -/
theorem C10_gc_frame (t : TypeTable) (hA : AllocOk t) :
    (type_table_gc t).nelems = t.nelems ∧
    (type_table_gc t).size = t.size ∧
    (sweepMarks t bool_id = true ∧ sweepMarks t int_id = true ∧
      sweepMarks t real_id = true) ∧
    (∀ j : Int, sweepMarks t j = true →
      (type_table_gc t).kind j = t.kind j ∧ (type_table_gc t).desc j = t.desc j ∧
      (type_table_gc t).card j = t.card j ∧ (type_table_gc t).flags j = t.flags j ∧
      (type_table_gc t).name j = t.name j) ∧
    (∀ j : Int, ¬ erasableKind (t.kind j) →
      (type_table_gc t).kind j = t.kind j ∧ (type_table_gc t).desc j = t.desc j ∧
      (type_table_gc t).name j = t.name j ∧ erase_type t j = t) ∧
    (∀ j : Int, j ∈ gcReclaimed t →
      (type_table_gc t).kind j = .UNUSED_TYPE ∧ (type_table_gc t).name j = none) ∧
    (gcReclaimed t).Nodup ∧
    (∃ l0 E, IsFreeChain t t.free_idx l0 ∧
      IsFreeChain (type_table_gc t) (type_table_gc t).free_idx (E ++ l0) ∧
      E.Nodup ∧ (∀ j, j ∈ E ↔ j ∈ gcReclaimed t)) := by
  have frame := sweep_list_frame (sweepMarks t) (gcSweepIds t) t
  refine ⟨?_, ?_, sweepMarks_prim t, ?_, ?_, ?_, gcReclaimed_nodup t, ?_⟩
  · rw [gc_nelems]
    exact frame.1
  · rw [gc_size]
    exact frame.2.1
  · intro j hj
    have hu := sweep_list_untouched (sweepMarks t) (gcSweepIds t) t j
      (fun hc => by rw [hc.1] at hj; cases hj)
    rw [gc_kind, gc_desc, gc_card, gc_flags, gc_name]
    exact ⟨hu.1, hu.2.1, frame.2.2.2.2.2.2.1 j, frame.2.2.2.2.2.2.2 j, hu.2.2⟩
  · intro j hj
    have hu := sweep_list_untouched (sweepMarks t) (gcSweepIds t) t j (fun hc => hj hc.2)
    rw [gc_kind, gc_desc, gc_name]
    exact ⟨hu.1, hu.2.1, hu.2.2, erase_type_noop t j (not_erasable_cases hj)⟩
  · intro j hj
    obtain ⟨h0, h1, hm, he⟩ := (mem_gcReclaimed t j).mp hj
    have hmem : j ∈ gcSweepIds t := (mem_gcSweepIds t j).mpr ⟨h0, h1⟩
    have := sweep_list_erased (sweepMarks t) (gcSweepIds t) t j (gcSweepIds_nodup t) hmem hm he
    rw [gc_kind, gc_name]
    exact this
  · obtain ⟨_, l0, hch, hnd0, hprops⟩ := hA
    obtain ⟨E, hE1, hE2, hE3, _⟩ := sweep_list_chain (sweepMarks t) (gcSweepIds t) t l0
      (gcSweepIds_nodup t) (fun x hx => ((mem_gcSweepIds t x).mp hx).1) hch
      (fun x hx => (hprops x hx).2.2)
    refine ⟨l0, E, hch, ?_, hE3, ?_⟩
    · rw [gc_free_idx]
      exact IsFreeChain_congr hE1 (fun x _ => by rw [gc_desc])
    · intro j
      rw [hE2 j, mem_gcReclaimed, mem_gcSweepIds]
      constructor
      · rintro ⟨⟨h0, h1⟩, hm, he⟩
        exact ⟨h0, h1, hm, he⟩
      · rintro ⟨h0, h1, hm, he⟩
        exact ⟨⟨h0, h1⟩, hm, he⟩

theorem C10_gc_frame_witness :
    (type_table_gc (init_type_table 4)).nelems = (init_type_table 4).nelems :=
  (C10_gc_frame (init_type_table 4) (allocOk_init 4)).1

/-!  ## Invariant machinery: `Extends`, the built slot, and `Inv`
preservation for each constructor.  -/

theorem Extends_refl (t : TypeTable) : Extends t t :=
  ⟨le_refl _, fun _ h => ⟨h, rfl, rfl, rfl, rfl⟩⟩

theorem Extends_trans {t1 t2 t3 : TypeTable} (h12 : Extends t1 t2) (h23 : Extends t2 t3) :
    Extends t1 t3 := by
  refine ⟨h12.1.trans h23.1, fun j hj => ?_⟩
  obtain ⟨hg2, hk2, hd2, hc2, hf2⟩ := h12.2 j hj
  obtain ⟨hg3, hk3, hd3, hc3, hf3⟩ := h23.2 j hg2
  exact ⟨hg3, hk3.trans hk2, hd3.trans hd2, hc3.trans hc2, hf3.trans hf2⟩

theorem good_mono {t t2 : TypeTable} (h : Extends t t2) {j : Int} (hj : good_type t j) :
    good_type t2 j := (h.2 j hj).1

theorem cacheEntryOk_mono {t t2 : TypeTable} (h : Extends t t2) {e : Int × Int × Int}
    (he : cacheEntryOk t e) : cacheEntryOk t2 e := by
  obtain ⟨h1, h2, h3, h4⟩ := he
  refine ⟨h1, good_mono h h2, good_mono h h3, ?_⟩
  rcases h4 with h4 | h4
  · exact Or.inl h4
  · exact Or.inr (good_mono h h4)

theorem childrenList_congr {t t2 : TypeTable} (j : Int) (hk : t2.kind j = t.kind j)
    (hd : t2.desc j = t.desc j) : childrenList t2 j = childrenList t j := by
  unfold childrenList tuple_elems fun_range fun_domain
  rw [hk, hd]

theorem built_fresh (t : TypeTable) (K : TypeKind) (D : TypeDesc) (C F : Nat)
    (hK : K ≠ .UNUSED_TYPE) (h : AllocOk t) :
    (¬ good_type t (allocate_type_id t).1) ∧
    good_type (built t K D C F) (allocate_type_id t).1 ∧
    (∀ j, good_type t j → good_type (built t K D C F) j ∧ j ≠ (allocate_type_id t).1) ∧
    (∀ j, good_type (built t K D C F) j → j = (allocate_type_id t).1 ∨ good_type t j) ∧
    t.nelems ≤ (built t K D C F).nelems ∧
    AllocOk (built t K D C F) :=
  build_spec t K D C F hK h

theorem built_kind (t : TypeTable) (K : TypeKind) (D : TypeDesc) (C F : Nat) :
    (built t K D C F).kind = upd t.kind (allocate_type_id t).1 K := rfl

theorem built_desc (t : TypeTable) (K : TypeKind) (D : TypeDesc) (C F : Nat) :
    (built t K D C F).desc = upd t.desc (allocate_type_id t).1 D := rfl

theorem built_card (t : TypeTable) (K : TypeKind) (D : TypeDesc) (C F : Nat) :
    (built t K D C F).card = upd t.card (allocate_type_id t).1 C := rfl

theorem built_flags (t : TypeTable) (K : TypeKind) (D : TypeDesc) (C F : Nat) :
    (built t K D C F).flags = upd t.flags (allocate_type_id t).1 F := rfl

theorem built_htbl (t : TypeTable) (K : TypeKind) (D : TypeDesc) (C F : Nat) :
    (built t K D C F).htbl = t.htbl := allocate_htbl t

theorem built_stbl (t : TypeTable) (K : TypeKind) (D : TypeDesc) (C F : Nat) :
    (built t K D C F).stbl = t.stbl := allocate_stbl t

theorem built_sup (t : TypeTable) (K : TypeKind) (D : TypeDesc) (C F : Nat) :
    (built t K D C F).sup_tbl = t.sup_tbl := allocate_sup t

theorem built_inf (t : TypeTable) (K : TypeKind) (D : TypeDesc) (C F : Nat) :
    (built t K D C F).inf_tbl = t.inf_tbl := allocate_inf t

theorem built_mark (t : TypeTable) (K : TypeKind) (D : TypeDesc) (C F : Nat) :
    (built t K D C F).mark = t.mark := allocate_mark t

theorem built_extends (t : TypeTable) (K : TypeKind) (D : TypeDesc) (C F : Nat)
    (hK : K ≠ .UNUSED_TYPE) (hA : AllocOk t) : Extends t (built t K D C F) := by
  obtain ⟨-, -, hold, -, hne, -⟩ := built_fresh t K D C F hK hA
  refine ⟨hne, fun j hj => ?_⟩
  obtain ⟨hg, hji⟩ := hold j hj
  refine ⟨hg, ?_, ?_, ?_, ?_⟩ <;>
    simp only [built_kind, built_desc, built_card, built_flags, upd] <;> rw [if_neg hji]

/-- The primitive ids are live and distinct from the freshly allocated
slot. -/
theorem prim_good (t : TypeTable) (hI : Inv t) :
    good_type t bool_id ∧ good_type t int_id ∧ good_type t real_id := by
  have h3 := hI.three_le
  refine ⟨⟨by norm_num [bool_id], by push_cast [bool_id]; omega, by simp [hI.kind_bool]⟩,
    ⟨by norm_num [int_id], by push_cast [int_id]; omega, by simp [hI.kind_int]⟩,
    ⟨by norm_num [real_id], by push_cast [real_id]; omega, by simp [hI.kind_real]⟩⟩

/-- All `Inv` fields except the hash-cons registration, for the built
table.  `hch` says the children of the new descriptor are live in `t`. -/
theorem built_inv_core (t : TypeTable) (K : TypeKind) (D : TypeDesc) (C F : Nat)
    (hI : Inv t) (hK : K ≠ .UNUSED_TYPE) (hKb : K ≠ .BOOL_TYPE) (hKi : K ≠ .INT_TYPE)
    (hKr : K ≠ .REAL_TYPE)
    (hch : ∀ c ∈ childrenList (built t K D C F) (allocate_type_id t).1, good_type t c) :
    3 ≤ (built t K D C F).nelems ∧
    (built t K D C F).kind bool_id = .BOOL_TYPE ∧
    (built t K D C F).kind int_id = .INT_TYPE ∧
    (built t K D C F).kind real_id = .REAL_TYPE ∧
    (∀ i : Int, i < 0 ∨ ((built t K D C F).nelems : Int) ≤ i →
      (built t K D C F).kind i = .UNUSED_TYPE) ∧
    (∀ i : Int, ((built t K D C F).kind i = .BOOL_TYPE → i = bool_id) ∧
      ((built t K D C F).kind i = .INT_TYPE → i = int_id) ∧
      ((built t K D C F).kind i = .REAL_TYPE → i = real_id)) ∧
    (∀ i c, c ∈ childrenList (built t K D C F) i → good_type (built t K D C F) c) ∧
    (∀ p ∈ (built t K D C F).stbl, good_type (built t K D C F) p.2) ∧
    (∀ i, (built t K D C F).mark i = true → good_type (built t K D C F) i) ∧
    (∃ l, IsFreeChain (built t K D C F) (built t K D C F).free_idx l ∧ l.Nodup ∧
      ∀ i ∈ l, 3 ≤ i ∧ i < ((built t K D C F).nelems : Int) ∧
        (built t K D C F).kind i = .UNUSED_TYPE) ∧
    (∀ e ∈ supEntries (built t K D C F), cacheEntryOk (built t K D C F) e) ∧
    (∀ e ∈ infEntries (built t K D C F), cacheEntryOk (built t K D C F) e) := by
  have hA : AllocOk t := ⟨hI.kind_out, hI.free_ok⟩
  obtain ⟨hni, hgi, hold, hnew, hnel, hAb⟩ := built_fresh t K D C F hK hA
  have hExt : Extends t (built t K D C F) := built_extends t K D C F hK hA
  obtain ⟨hg0, hg1, hg2⟩ := prim_good t hI
  have hne0 : bool_id ≠ (allocate_type_id t).1 := (hold _ hg0).2
  have hne1 : int_id ≠ (allocate_type_id t).1 := (hold _ hg1).2
  have hne2 : real_id ≠ (allocate_type_id t).1 := (hold _ hg2).2
  refine ⟨?_, ?_, ?_, ?_, hAb.1, ?_, ?_, ?_, ?_, hAb.2, ?_, ?_⟩
  · exact le_trans hI.three_le hnel
  · rw [built_kind]
    rw [upd_other _ _ _ _ hne0]
    exact hI.kind_bool
  · rw [built_kind]
    rw [upd_other _ _ _ _ hne1]
    exact hI.kind_int
  · rw [built_kind]
    rw [upd_other _ _ _ _ hne2]
    exact hI.kind_real
  · intro j
    rw [built_kind]
    unfold upd
    split
    · exact ⟨fun h => absurd h hKb, fun h => absurd h hKi, fun h => absurd h hKr⟩
    · exact hI.prim_ids j
  · intro j c hc
    by_cases hji : j = (allocate_type_id t).1
    · subst hji
      exact good_mono hExt (hch c hc)
    · have hcc : childrenList (built t K D C F) j = childrenList t j := by
        refine childrenList_congr j ?_ ?_ <;>
          simp only [built_kind, built_desc, upd] <;> rw [if_neg hji]
      rw [hcc] at hc
      exact good_mono hExt (hI.children_good j c hc)
  · intro p hp
    rw [built_stbl] at hp
    exact good_mono hExt (hI.stbl_good p hp)
  · intro j hj
    rw [built_mark] at hj
    exact good_mono hExt (hI.mark_good j hj)
  · intro e he
    have hsup : supEntries (built t K D C F) = supEntries t := by
      unfold supEntries
      rw [built_sup]
    rw [hsup] at he
    exact cacheEntryOk_mono hExt (hI.sup_ok e he)
  · intro e he
    have hinf : infEntries (built t K D C F) = infEntries t := by
      unfold infEntries
      rw [built_inf]
    rw [hinf] at he
    exact cacheEntryOk_mono hExt (hI.inf_ok e he)

/-- `Inv` for a built slot of a kind that is not hash-consed. -/
theorem built_inv_nonhcons (t : TypeTable) (K : TypeKind) (D : TypeDesc) (C F : Nat)
    (hI : Inv t) (hK : K ≠ .UNUSED_TYPE) (hKb : K ≠ .BOOL_TYPE) (hKi : K ≠ .INT_TYPE)
    (hKr : K ≠ .REAL_TYPE) (hKh : ¬ hconsKind K)
    (hch : ∀ c ∈ childrenList (built t K D C F) (allocate_type_id t).1, good_type t c) :
    Inv (built t K D C F) := by
  obtain ⟨c1, c2, c3, c4, c5, c6, c7, c8, c9, c10, c11, c12⟩ :=
    built_inv_core t K D C F hI hK hKb hKi hKr hch
  refine ⟨c1, c2, c3, c4, c5, c6, c7, c8, c9, c10, ?_, ?_, ?_, ?_, c11, c12⟩
  · intro j hj
    rw [built_htbl] at hj
    obtain ⟨hg, hh⟩ := hI.htbl_good j hj
    have hji : j ≠ (allocate_type_id t).1 := by
      intro he
      have hA : AllocOk t := ⟨hI.kind_out, hI.free_ok⟩
      exact (built_fresh t K D C F hK hA).1 (he ▸ hg)
    have hA : AllocOk t := ⟨hI.kind_out, hI.free_ok⟩
    refine ⟨good_mono (built_extends t K D C F hK hA) hg, ?_⟩
    rw [built_kind]
    rw [upd_other _ _ _ _ hji]
    exact hh
  · intro j hg hh
    have hA : AllocOk t := ⟨hI.kind_out, hI.free_ok⟩
    rw [built_htbl]
    rcases (built_fresh t K D C F hK hA).2.2.2.1 j hg with hji | hgo
    · exfalso
      rw [built_kind] at hh
      rw [hji] at hh
      rw [upd_same] at hh
      exact hKh hh
    · refine hI.htbl_complete j hgo ?_
      have hji : j ≠ (allocate_type_id t).1 := fun he =>
        (built_fresh t K D C F hK hA).1 (he ▸ hgo)
      rw [built_kind] at hh
      rw [upd_other _ _ _ _ hji] at hh
      exact hh
  · rw [built_htbl]
    exact hI.htbl_nodup
  · rw [built_htbl]
    have hA : AllocOk t := ⟨hI.kind_out, hI.free_ok⟩
    refine hI.htbl_uniq.imp_of_mem ?_
    intro a b ha hb hab hcon
    have hga := (hI.htbl_good a ha).1
    have hgb := (hI.htbl_good b hb).1
    have hai : a ≠ (allocate_type_id t).1 := fun he =>
      (built_fresh t K D C F hK hA).1 (he ▸ hga)
    have hbi : b ≠ (allocate_type_id t).1 := fun he =>
      (built_fresh t K D C F hK hA).1 (he ▸ hgb)
    apply hab
    obtain ⟨h1, h2⟩ := hcon
    rw [built_kind, upd_other _ _ _ _ hai, upd_other _ _ _ _ hbi] at h1
    rw [built_desc, upd_other _ _ _ _ hai, upd_other _ _ _ _ hbi] at h2
    exact ⟨h1, h2⟩

/-- `Inv` after building a hash-consed slot and registering it in the
hash-cons table; `huniq` is what the failed `find?` lookup provides. -/
theorem built_inv_hcons (t : TypeTable) (K : TypeKind) (D : TypeDesc) (C F : Nat)
    (hI : Inv t) (hK : K ≠ .UNUSED_TYPE) (hKb : K ≠ .BOOL_TYPE) (hKi : K ≠ .INT_TYPE)
    (hKr : K ≠ .REAL_TYPE) (hKh : hconsKind K)
    (hch : ∀ c ∈ childrenList (built t K D C F) (allocate_type_id t).1, good_type t c)
    (huniq : ∀ j ∈ t.htbl, ¬ (t.kind j = K ∧ t.desc j = D)) :
    Inv { built t K D C F with htbl := (allocate_type_id t).1 :: (built t K D C F).htbl } := by
  obtain ⟨c1, c2, c3, c4, c5, c6, c7, c8, c9, c10, c11, c12⟩ :=
    built_inv_core t K D C F hI hK hKb hKi hKr hch
  have hA : AllocOk t := ⟨hI.kind_out, hI.free_ok⟩
  obtain ⟨hni, hgi, hold, hnew, hnel, hAb⟩ := built_fresh t K D C F hK hA
  have hgoodeq : ∀ j : Int,
      good_type { built t K D C F with
        htbl := (allocate_type_id t).1 :: (built t K D C F).htbl } j ↔
      good_type (built t K D C F) j := fun j => Iff.rfl
  have hchain : ∀ (f : Int) (l : List Int), IsFreeChain (built t K D C F) f l →
      IsFreeChain { built t K D C F with
        htbl := (allocate_type_id t).1 :: (built t K D C F).htbl } f l :=
    fun f l h => IsFreeChain_congr h (fun x _ => rfl)
  refine ⟨c1, c2, c3, c4, c5, c6, ?_, ?_, ?_, ?_, ?_, ?_, ?_, ?_, ?_, ?_⟩
  · intro i c hc
    rw [hgoodeq]
    refine c7 i c ?_
    rw [childrenList_congr i rfl rfl] at hc
    exact hc
  · intro p hp
    rw [hgoodeq]
    exact c8 p hp
  · intro i hi
    rw [hgoodeq]
    exact c9 i hi
  · obtain ⟨l, hl1, hl2, hl3⟩ := c10
    exact ⟨l, hchain _ l hl1, hl2, hl3⟩
  · intro j hj
    rcases List.mem_cons.mp hj with rfl | hj2
    · refine ⟨(hgoodeq _).mpr hgi, ?_⟩
      show hconsKind (upd t.kind (allocate_type_id t).1 K (allocate_type_id t).1)
      rw [upd_same]
      exact hKh
    · rw [built_htbl] at hj2
      obtain ⟨hg, hh⟩ := hI.htbl_good j hj2
      have hji : j ≠ (allocate_type_id t).1 := fun he => hni (he ▸ hg)
      refine ⟨(hgoodeq j).mpr (good_mono (built_extends t K D C F hK hA) hg), ?_⟩
      show hconsKind (upd t.kind (allocate_type_id t).1 K j)
      rw [upd_other _ _ _ _ hji]
      exact hh
  · intro j hg hh
    rcases hnew j ((hgoodeq j).mp hg) with hji | hgo
    · exact List.mem_cons.mpr (Or.inl hji)
    · have hji : j ≠ (allocate_type_id t).1 := fun he => hni (he ▸ hgo)
      have hh2 : hconsKind (t.kind j) := by
        have : upd t.kind (allocate_type_id t).1 K j = t.kind j := upd_other _ _ _ _ hji
        exact this ▸ hh
      refine List.mem_cons.mpr (Or.inr ?_)
      rw [built_htbl]
      exact hI.htbl_complete j hgo hh2
  · refine List.nodup_cons.mpr ⟨?_, by rw [built_htbl]; exact hI.htbl_nodup⟩
    rw [built_htbl]
    intro hmem
    exact hni (hI.htbl_good _ hmem).1
  · refine List.Pairwise.cons ?_ ?_
    · intro j hj
      rw [built_htbl] at hj
      have hg := (hI.htbl_good j hj).1
      have hji : j ≠ (allocate_type_id t).1 := fun he => hni (he ▸ hg)
      intro hcon
      obtain ⟨h1, h2⟩ := hcon
      refine huniq j hj ⟨?_, ?_⟩
      · have h1x : upd t.kind (allocate_type_id t).1 K (allocate_type_id t).1 =
            upd t.kind (allocate_type_id t).1 K j := h1
        rw [upd_same, upd_other _ _ _ _ hji] at h1x
        exact h1x.symm
      · have h2x : upd t.desc (allocate_type_id t).1 D (allocate_type_id t).1 =
            upd t.desc (allocate_type_id t).1 D j := h2
        rw [upd_same, upd_other _ _ _ _ hji] at h2x
        exact h2x.symm
    · rw [built_htbl]
      refine hI.htbl_uniq.imp_of_mem ?_
      intro a b ha hb hab hcon
      have hga := (hI.htbl_good a ha).1
      have hgb := (hI.htbl_good b hb).1
      have hai : a ≠ (allocate_type_id t).1 := fun he => hni (he ▸ hga)
      have hbi : b ≠ (allocate_type_id t).1 := fun he => hni (he ▸ hgb)
      apply hab
      obtain ⟨h1, h2⟩ := hcon
      constructor
      · have h1x : upd t.kind (allocate_type_id t).1 K a =
            upd t.kind (allocate_type_id t).1 K b := h1
        rw [upd_other _ _ _ _ hai, upd_other _ _ _ _ hbi] at h1x
        exact h1x
      · have h2x : upd t.desc (allocate_type_id t).1 D a =
            upd t.desc (allocate_type_id t).1 D b := h2
        rw [upd_other _ _ _ _ hai, upd_other _ _ _ _ hbi] at h2x
        exact h2x
  · intro e he
    exact cacheEntryOk_mono ⟨le_refl _, fun j hj => ⟨hj, rfl, rfl, rfl, rfl⟩⟩ (c11 e he)
  · intro e he
    exact cacheEntryOk_mono ⟨le_refl _, fun j hj => ⟨hj, rfl, rfl, rfl, rfl⟩⟩ (c12 e he)

theorem childrenList_other (u : TypeTable) (i : Int) (h1 : u.kind i ≠ .TUPLE_TYPE)
    (h2 : u.kind i ≠ .FUNCTION_TYPE) : childrenList u i = [] := by
  unfold childrenList
  cases hk : u.kind i <;> simp_all

theorem childrenList_tuple (u : TypeTable) (i : Int) (e : List Int)
    (h1 : u.kind i = .TUPLE_TYPE) (h2 : u.desc i = .tuple e) : childrenList u i = e := by
  unfold childrenList tuple_elems
  rw [h1, h2]

theorem childrenList_fn (u : TypeTable) (i : Int) (r : Int) (e : List Int)
    (h1 : u.kind i = .FUNCTION_TYPE) (h2 : u.desc i = .fn r e) :
    childrenList u i = r :: e := by
  unfold childrenList fun_range fun_domain
  rw [h1, h2]

/-- Transport of the invariant along an operation that keeps the type
array, the hash-cons table and the free list intact and only modifies
names, the symbol table, the marks or the caches in a good way. -/
theorem Inv_congr {t t2 : TypeTable} (hI : Inv t)
    (hnel : t2.nelems = t.nelems) (hk : t2.kind = t.kind) (hd : t2.desc = t.desc)
    (hfi : t2.free_idx = t.free_idx) (hh : t2.htbl = t.htbl)
    (hstbl : ∀ p ∈ t2.stbl, good_type t p.2)
    (hmark : ∀ i, t2.mark i = true → good_type t i)
    (hsupE : ∀ e ∈ supEntries t2, cacheEntryOk t e)
    (hinfE : ∀ e ∈ infEntries t2, cacheEntryOk t e) : Inv t2 := by
  have good2 : ∀ j, good_type t2 j ↔ good_type t j := by
    intro j
    unfold good_type
    rw [hnel, hk]
  refine ⟨?_, ?_, ?_, ?_, ?_, ?_, ?_, ?_, ?_, ?_, ?_, ?_, ?_, ?_, ?_, ?_⟩
  · rw [hnel]
    exact hI.three_le
  · rw [hk]
    exact hI.kind_bool
  · rw [hk]
    exact hI.kind_int
  · rw [hk]
    exact hI.kind_real
  · intro i hi
    rw [hk]
    refine hI.kind_out i ?_
    rw [hnel] at hi
    exact hi
  · intro i
    rw [hk]
    exact hI.prim_ids i
  · intro i c hc
    rw [@childrenList_congr t t2 i (by rw [hk]) (by rw [hd])] at hc
    exact (good2 c).mpr (hI.children_good i c hc)
  · intro p hp
    exact (good2 p.2).mpr (hstbl p hp)
  · intro i hi
    exact (good2 i).mpr (hmark i hi)
  · obtain ⟨l, ch, nd, mem⟩ := hI.free_ok
    refine ⟨l, ?_, nd, fun i hi => ⟨(mem i hi).1, ?_, ?_⟩⟩
    · rw [hfi]
      exact IsFreeChain_congr ch (fun x _ => by rw [hd])
    · rw [hnel]
      exact (mem i hi).2.1
    · rw [hk]
      exact (mem i hi).2.2
  · intro j hj
    rw [hh] at hj
    obtain ⟨hg, hhc⟩ := hI.htbl_good j hj
    refine ⟨(good2 j).mpr hg, ?_⟩
    rw [hk]
    exact hhc
  · intro j hg hhc
    rw [hh]
    refine hI.htbl_complete j ((good2 j).mp hg) ?_
    rw [hk] at hhc
    exact hhc
  · rw [hh]
    exact hI.htbl_nodup
  · rw [hh, hk, hd]
    exact hI.htbl_uniq
  · intro e he
    obtain ⟨a, b, c, d2⟩ := hsupE e he
    refine ⟨a, (good2 _).mpr b, (good2 _).mpr c, ?_⟩
    rcases d2 with d2 | d2
    · exact Or.inl d2
    · exact Or.inr ((good2 _).mpr d2)
  · intro e he
    obtain ⟨a, b, c, d2⟩ := hinfE e he
    refine ⟨a, (good2 _).mpr b, (good2 _).mpr c, ?_⟩
    rcases d2 with d2 | d2
    · exact Or.inl d2
    · exact Or.inr ((good2 _).mpr d2)

theorem stbl_pop_subset (s : String) :
    ∀ (l : List (String × Int)) (p : String × Int), p ∈ stbl_pop s l → p ∈ l := by
  intro l
  induction l with
  | nil => intro p hp; cases hp
  | cons q l ih =>
    intro p hp
    unfold stbl_pop at hp
    by_cases hq : q.1 = s
    · rw [if_pos hq] at hp
      exact List.mem_cons.mpr (Or.inr hp)
    · rw [if_neg hq] at hp
      rcases List.mem_cons.mp hp with rfl | hp2
      · exact List.mem_cons.mpr (Or.inl rfl)
      · exact List.mem_cons.mpr (Or.inr (ih p hp2))

theorem set_type_name_frame (t : TypeTable) (i : Int) (s : String) :
    (set_type_name t i s).kind = t.kind ∧ (set_type_name t i s).desc = t.desc ∧
    (set_type_name t i s).nelems = t.nelems ∧ (set_type_name t i s).free_idx = t.free_idx ∧
    (set_type_name t i s).htbl = t.htbl ∧ (set_type_name t i s).sup_tbl = t.sup_tbl ∧
    (set_type_name t i s).inf_tbl = t.inf_tbl ∧ (set_type_name t i s).mark = t.mark := by
  by_cases h : t.name i = none <;>
    refine ⟨?_, ?_, ?_, ?_, ?_, ?_, ?_, ?_⟩ <;> simp [set_type_name, h]

theorem set_type_name_inv (t : TypeTable) (i : Int) (s : String) (hI : Inv t)
    (hg : good_type t i) : Inv (set_type_name t i s) := by
  obtain ⟨hk, hd, hnel, hfi, hh, hsup, hinf, hm⟩ := set_type_name_frame t i s
  refine Inv_congr hI hnel hk hd hfi hh ?_ ?_ ?_ ?_
  · intro p hp
    rw [set_type_name_stbl] at hp
    rcases List.mem_cons.mp hp with rfl | hp2
    · exact hg
    · exact hI.stbl_good p hp2
  · intro j hj
    rw [hm] at hj
    exact hI.mark_good j hj
  · intro e he
    unfold supEntries at he
    rw [hsup] at he
    exact hI.sup_ok e he
  · intro e he
    unfold infEntries at he
    rw [hinf] at he
    exact hI.inf_ok e he

theorem remove_type_name_inv (t : TypeTable) (s : String) (hI : Inv t) :
    Inv (remove_type_name t s) := by
  refine Inv_congr hI rfl rfl rfl rfl rfl ?_ (fun j hj => hI.mark_good j hj)
    (fun e he => hI.sup_ok e he) (fun e he => hI.inf_ok e he)
  intro p hp
  exact hI.stbl_good p (stbl_pop_subset s t.stbl p hp)

theorem set_gc_mark_inv (t : TypeTable) (i : Int) (hI : Inv t) (hg : good_type t i) :
    Inv (type_table_set_gc_mark t i) := by
  refine Inv_congr hI rfl rfl rfl rfl rfl (fun p hp => hI.stbl_good p hp) ?_
    (fun e he => hI.sup_ok e he) (fun e he => hI.inf_ok e he)
  intro j hj
  by_cases hji : j = i
  · exact hji ▸ hg
  · have hj2 : (if j = i then true else t.mark j) = true := hj
    rw [if_neg hji] at hj2
    exact hI.mark_good j hj2

/-- `bv_type` preserves the invariant and returns a live id holding the
requested payload. -/
theorem bv_type_ok (t : TypeTable) (k : Nat) (hI : Inv t) :
    Inv (bv_type t k).2 ∧ Extends t (bv_type t k).2 ∧
    good_type (bv_type t k).2 (bv_type t k).1 ∧
    eq_bv_type (bv_type t k).2 (bv_type t k).1 k := by
  have hA : AllocOk t := ⟨hI.kind_out, hI.free_ok⟩
  unfold bv_type
  cases hfind : t.htbl.find? (fun i => decide (eq_bv_type t i k)) with
  | some i =>
    have hmem := List.mem_of_find?_eq_some hfind
    have heq : eq_bv_type t i k := by
      have := List.find?_some hfind
      simpa using this
    exact ⟨hI, Extends_refl t, (hI.htbl_good i hmem).1, heq⟩
  | none =>
    have huniq : ∀ j ∈ t.htbl, ¬ (t.kind j = .BITVECTOR_TYPE ∧ t.desc j = .integer k) := by
      intro j hj
      have := List.find?_eq_none.mp hfind j hj
      simpa [eq_bv_type] using this
    rw [new_bitvector_type_spec]
    have hch : ∀ c ∈ childrenList
        (built t .BITVECTOR_TYPE (.integer k) (if k < 32 then 2 ^ k else UINT32_MAX)
          (if k < 32 then SMALL_TYPE_FLAGS else LARGE_TYPE_FLAGS)) (allocate_type_id t).1,
        good_type t c := by
      intro c hc
      rw [childrenList_other _ _ (by rw [built_kind, upd_same]; simp)
        (by rw [built_kind, upd_same]; simp)] at hc
      cases hc
    have hInv := built_inv_hcons t .BITVECTOR_TYPE (.integer k)
      (if k < 32 then 2 ^ k else UINT32_MAX)
      (if k < 32 then SMALL_TYPE_FLAGS else LARGE_TYPE_FLAGS)
      hI (by simp) (by simp) (by simp) (by simp) (by simp [hconsKind]) hch huniq
    refine ⟨hInv, ?_, ?_, ?_, ?_⟩
    · exact built_extends t .BITVECTOR_TYPE (.integer k)
        (if k < 32 then 2 ^ k else UINT32_MAX)
        (if k < 32 then SMALL_TYPE_FLAGS else LARGE_TYPE_FLAGS) (by simp) hA
    · exact (built_fresh t .BITVECTOR_TYPE (.integer k)
        (if k < 32 then 2 ^ k else UINT32_MAX)
        (if k < 32 then SMALL_TYPE_FLAGS else LARGE_TYPE_FLAGS) (by simp) hA).2.1
    · show upd t.kind (allocate_type_id t).1 .BITVECTOR_TYPE (allocate_type_id t).1 = _
      rw [upd_same]
    · show upd t.desc (allocate_type_id t).1 (.integer k) (allocate_type_id t).1 = _
      rw [upd_same]

/-- `tuple_type` preserves the invariant (the elements must be live)
and returns a live id holding the requested payload. -/
theorem tuple_type_ok (t : TypeTable) (e : List Int) (hI : Inv t)
    (he : ∀ x ∈ e, good_type t x) :
    Inv (tuple_type t e).2 ∧ Extends t (tuple_type t e).2 ∧
    good_type (tuple_type t e).2 (tuple_type t e).1 ∧
    eq_tuple_type (tuple_type t e).2 (tuple_type t e).1 e := by
  have hA : AllocOk t := ⟨hI.kind_out, hI.free_ok⟩
  unfold tuple_type
  cases hfind : t.htbl.find? (fun i => decide (eq_tuple_type t i e)) with
  | some i =>
    have hmem := List.mem_of_find?_eq_some hfind
    have heq : eq_tuple_type t i e := by
      have := List.find?_some hfind
      simpa using this
    exact ⟨hI, Extends_refl t, (hI.htbl_good i hmem).1, heq⟩
  | none =>
    have huniq : ∀ j ∈ t.htbl, ¬ (t.kind j = .TUPLE_TYPE ∧ t.desc j = .tuple e) := by
      intro j hj
      have := List.find?_eq_none.mp hfind j hj
      simpa [eq_tuple_type] using this
    rw [new_tuple_type_spec]
    have hch : ∀ c ∈ childrenList
        (built t .TUPLE_TYPE (.tuple e)
          (new_tuple_card (type_flags_conjunct t e) (type_card_product t e))
          (new_tuple_flags (type_flags_conjunct t e) (type_card_product t e)))
        (allocate_type_id t).1, good_type t c := by
      intro c hc
      rw [childrenList_tuple _ _ e (by rw [built_kind, upd_same])
        (by rw [built_desc, upd_same])] at hc
      exact he c hc
    have hInv := built_inv_hcons t .TUPLE_TYPE (.tuple e)
      (new_tuple_card (type_flags_conjunct t e) (type_card_product t e))
      (new_tuple_flags (type_flags_conjunct t e) (type_card_product t e))
      hI (by simp) (by simp) (by simp) (by simp) (by simp [hconsKind]) hch huniq
    refine ⟨hInv, ?_, ?_, ?_, ?_⟩
    · exact built_extends t .TUPLE_TYPE (.tuple e)
        (new_tuple_card (type_flags_conjunct t e) (type_card_product t e))
        (new_tuple_flags (type_flags_conjunct t e) (type_card_product t e)) (by simp) hA
    · exact (built_fresh t .TUPLE_TYPE (.tuple e)
        (new_tuple_card (type_flags_conjunct t e) (type_card_product t e))
        (new_tuple_flags (type_flags_conjunct t e) (type_card_product t e)) (by simp) hA).2.1
    · show upd t.kind (allocate_type_id t).1 .TUPLE_TYPE (allocate_type_id t).1 = _
      rw [upd_same]
    · show upd t.desc (allocate_type_id t).1 (.tuple e) (allocate_type_id t).1 = _
      rw [upd_same]

/-- `function_type` preserves the invariant (the range and the domains
must be live) and returns a live id holding the requested payload. -/
theorem function_type_ok (t : TypeTable) (r : Int) (e : List Int) (hI : Inv t)
    (hr : good_type t r) (he : ∀ x ∈ e, good_type t x) :
    Inv (function_type t r e).2 ∧ Extends t (function_type t r e).2 ∧
    good_type (function_type t r e).2 (function_type t r e).1 ∧
    eq_function_type (function_type t r e).2 (function_type t r e).1 r e := by
  have hA : AllocOk t := ⟨hI.kind_out, hI.free_ok⟩
  unfold function_type
  cases hfind : t.htbl.find? (fun i => decide (eq_function_type t i r e)) with
  | some i =>
    have hmem := List.mem_of_find?_eq_some hfind
    have heq : eq_function_type t i r e := by
      have := List.find?_some hfind
      simpa using this
    exact ⟨hI, Extends_refl t, (hI.htbl_good i hmem).1, heq⟩
  | none =>
    have huniq : ∀ j ∈ t.htbl, ¬ (t.kind j = .FUNCTION_TYPE ∧ t.desc j = .fn r e) := by
      intro j hj
      have := List.find?_eq_none.mp hfind j hj
      simpa [eq_function_type] using this
    rw [new_function_type_spec]
    have hch : ∀ c ∈ childrenList
        (built t .FUNCTION_TYPE (.fn r e)
          (new_fun_card (t.flags r) (type_flags_conjunct t e) (fun_type_card t e r))
          (new_fun_flags (t.flags r) (type_flags_conjunct t e) (fun_type_card t e r)))
        (allocate_type_id t).1, good_type t c := by
      intro c hc
      rw [childrenList_fn _ _ r e (by rw [built_kind, upd_same])
        (by rw [built_desc, upd_same])] at hc
      rcases List.mem_cons.mp hc with rfl | hc2
      · exact hr
      · exact he c hc2
    have hInv := built_inv_hcons t .FUNCTION_TYPE (.fn r e)
      (new_fun_card (t.flags r) (type_flags_conjunct t e) (fun_type_card t e r))
      (new_fun_flags (t.flags r) (type_flags_conjunct t e) (fun_type_card t e r))
      hI (by simp) (by simp) (by simp) (by simp) (by simp [hconsKind]) hch huniq
    refine ⟨hInv, ?_, ?_, ?_, ?_⟩
    · exact built_extends t .FUNCTION_TYPE (.fn r e)
        (new_fun_card (t.flags r) (type_flags_conjunct t e) (fun_type_card t e r))
        (new_fun_flags (t.flags r) (type_flags_conjunct t e) (fun_type_card t e r)) (by simp) hA
    · exact (built_fresh t .FUNCTION_TYPE (.fn r e)
        (new_fun_card (t.flags r) (type_flags_conjunct t e) (fun_type_card t e r))
        (new_fun_flags (t.flags r) (type_flags_conjunct t e) (fun_type_card t e r))
        (by simp) hA).2.1
    · show upd t.kind (allocate_type_id t).1 .FUNCTION_TYPE (allocate_type_id t).1 = _
      rw [upd_same]
    · show upd t.desc (allocate_type_id t).1 (.fn r e) (allocate_type_id t).1 = _
      rw [upd_same]

/-- `new_scalar_type` preserves the invariant. -/
theorem scalar_type_ok (t : TypeTable) (k : Nat) (hI : Inv t) :
    Inv (new_scalar_type t k).2 ∧ Extends t (new_scalar_type t k).2 ∧
    good_type (new_scalar_type t k).2 (new_scalar_type t k).1 := by
  have hA : AllocOk t := ⟨hI.kind_out, hI.free_ok⟩
  rw [new_scalar_type_spec]
  have hch : ∀ c ∈ childrenList
      (built t .SCALAR_TYPE (.integer k) k
        (if k = 1 then UNIT_TYPE_FLAGS else SMALL_TYPE_FLAGS)) (allocate_type_id t).1,
      good_type t c := by
    intro c hc
    rw [childrenList_other _ _ (by rw [built_kind, upd_same]; simp)
      (by rw [built_kind, upd_same]; simp)] at hc
    cases hc
  refine ⟨?_, ?_, ?_⟩
  · exact built_inv_nonhcons t .SCALAR_TYPE (.integer k) k
      (if k = 1 then UNIT_TYPE_FLAGS else SMALL_TYPE_FLAGS)
      hI (by simp) (by simp) (by simp) (by simp) (by simp [hconsKind]) hch
  · exact built_extends t .SCALAR_TYPE (.integer k) k
      (if k = 1 then UNIT_TYPE_FLAGS else SMALL_TYPE_FLAGS) (by simp) hA
  · exact (built_fresh t .SCALAR_TYPE (.integer k) k
      (if k = 1 then UNIT_TYPE_FLAGS else SMALL_TYPE_FLAGS) (by simp) hA).2.1

/-- `new_uninterpreted_type` preserves the invariant. -/
theorem uninterpreted_type_ok (t : TypeTable) (hI : Inv t) :
    Inv (new_uninterpreted_type t).2 ∧ Extends t (new_uninterpreted_type t).2 ∧
    good_type (new_uninterpreted_type t).2 (new_uninterpreted_type t).1 := by
  have hA : AllocOk t := ⟨hI.kind_out, hI.free_ok⟩
  rw [new_uninterpreted_type_spec]
  have hch : ∀ c ∈ childrenList
      (built t .UNINTERPRETED_TYPE .nullptr UINT32_MAX
        (INFINITE_TYPE_FLAGS ||| TYPE_IS_MAXIMAL_MASK ||| TYPE_IS_MINIMAL_MASK))
      (allocate_type_id t).1, good_type t c := by
    intro c hc
    rw [childrenList_other _ _ (by rw [built_kind, upd_same]; simp)
      (by rw [built_kind, upd_same]; simp)] at hc
    cases hc
  refine ⟨?_, ?_, ?_⟩
  · exact built_inv_nonhcons t .UNINTERPRETED_TYPE .nullptr UINT32_MAX
      (INFINITE_TYPE_FLAGS ||| TYPE_IS_MAXIMAL_MASK ||| TYPE_IS_MINIMAL_MASK)
      hI (by simp) (by simp) (by simp) (by simp) (by simp [hconsKind]) hch
  · exact built_extends t .UNINTERPRETED_TYPE .nullptr UINT32_MAX
      (INFINITE_TYPE_FLAGS ||| TYPE_IS_MAXIMAL_MASK ||| TYPE_IS_MINIMAL_MASK) (by simp) hA
  · exact (built_fresh t .UNINTERPRETED_TYPE .nullptr UINT32_MAX
      (INFINITE_TYPE_FLAGS ||| TYPE_IS_MAXIMAL_MASK ||| TYPE_IS_MINIMAL_MASK) (by simp) hA).2.1

/-!  ## Lattice engine: invariant preservation and result liveness  -/

theorem ensure_sup_frame (t : TypeTable) :
    (ensure_sup_tbl t).kind = t.kind ∧ (ensure_sup_tbl t).desc = t.desc ∧
    (ensure_sup_tbl t).nelems = t.nelems ∧ (ensure_sup_tbl t).free_idx = t.free_idx ∧
    (ensure_sup_tbl t).htbl = t.htbl ∧ (ensure_sup_tbl t).stbl = t.stbl ∧
    (ensure_sup_tbl t).mark = t.mark ∧ (ensure_sup_tbl t).inf_tbl = t.inf_tbl ∧
    (ensure_sup_tbl t).card = t.card ∧ (ensure_sup_tbl t).flags = t.flags ∧
    supEntries (ensure_sup_tbl t) = supEntries t := by
  unfold ensure_sup_tbl supEntries
  cases h : t.sup_tbl <;> simp [h]

theorem ensure_inf_frame (t : TypeTable) :
    (ensure_inf_tbl t).kind = t.kind ∧ (ensure_inf_tbl t).desc = t.desc ∧
    (ensure_inf_tbl t).nelems = t.nelems ∧ (ensure_inf_tbl t).free_idx = t.free_idx ∧
    (ensure_inf_tbl t).htbl = t.htbl ∧ (ensure_inf_tbl t).stbl = t.stbl ∧
    (ensure_inf_tbl t).mark = t.mark ∧ (ensure_inf_tbl t).sup_tbl = t.sup_tbl ∧
    (ensure_inf_tbl t).card = t.card ∧ (ensure_inf_tbl t).flags = t.flags ∧
    infEntries (ensure_inf_tbl t) = infEntries t := by
  unfold ensure_inf_tbl infEntries
  cases h : t.inf_tbl <;> simp [h]

theorem ensure_sup_inv (t : TypeTable) (hI : Inv t) :
    Inv (ensure_sup_tbl t) ∧ Extends t (ensure_sup_tbl t) := by
  obtain ⟨hk, hd, hnel, hfi, hh, hstbl, hm, hinf, hc, hf, hE⟩ := ensure_sup_frame t
  constructor
  · refine Inv_congr hI hnel hk hd hfi hh ?_ ?_ ?_ ?_
    · intro p hp
      rw [hstbl] at hp
      exact hI.stbl_good p hp
    · intro j hj
      rw [hm] at hj
      exact hI.mark_good j hj
    · intro e he
      rw [hE] at he
      exact hI.sup_ok e he
    · intro e he
      unfold infEntries at he
      rw [hinf] at he
      exact hI.inf_ok e he
  · refine ⟨le_of_eq hnel.symm, fun j hj => ?_⟩
    have hg : good_type (ensure_sup_tbl t) j := by
      unfold good_type
      rw [hnel, hk]
      exact hj
    exact ⟨hg, by rw [hk], by rw [hd], by rw [hc], by rw [hf]⟩

theorem ensure_inf_inv (t : TypeTable) (hI : Inv t) :
    Inv (ensure_inf_tbl t) ∧ Extends t (ensure_inf_tbl t) := by
  obtain ⟨hk, hd, hnel, hfi, hh, hstbl, hm, hsup, hc, hf, hE⟩ := ensure_inf_frame t
  constructor
  · refine Inv_congr hI hnel hk hd hfi hh ?_ ?_ ?_ ?_
    · intro p hp
      rw [hstbl] at hp
      exact hI.stbl_good p hp
    · intro j hj
      rw [hm] at hj
      exact hI.mark_good j hj
    · intro e he
      unfold supEntries at he
      rw [hsup] at he
      exact hI.sup_ok e he
    · intro e he
      rw [hE] at he
      exact hI.inf_ok e he
  · refine ⟨le_of_eq hnel.symm, fun j hj => ?_⟩
    have hg : good_type (ensure_inf_tbl t) j := by
      unfold good_type
      rw [hnel, hk]
      exact hj
    exact ⟨hg, by rw [hk], by rw [hd], by rw [hc], by rw [hf]⟩

theorem add_sup_entries (t : TypeTable) (k0 k1 v : Int) :
    supEntries (add_sup t k0 k1 v) = (k0, k1, v) :: supEntries t := by
  unfold add_sup supEntries
  simp

theorem add_inf_entries (t : TypeTable) (k0 k1 v : Int) :
    infEntries (add_inf t k0 k1 v) = (k0, k1, v) :: infEntries t := by
  unfold add_inf infEntries
  simp

theorem add_sup_inv (t : TypeTable) (k0 k1 v : Int) (hI : Inv t)
    (hok : cacheEntryOk t (k0, k1, v)) :
    Inv (add_sup t k0 k1 v) ∧ Extends t (add_sup t k0 k1 v) := by
  constructor
  · refine Inv_congr hI rfl rfl rfl rfl rfl (fun p hp => hI.stbl_good p hp)
      (fun j hj => hI.mark_good j hj) ?_ (fun e he => hI.inf_ok e he)
    intro e he
    rw [add_sup_entries] at he
    rcases List.mem_cons.mp he with rfl | he2
    · exact hok
    · exact hI.sup_ok e he2
  · exact ⟨le_refl _, fun j hj => ⟨hj, rfl, rfl, rfl, rfl⟩⟩

theorem add_inf_inv (t : TypeTable) (k0 k1 v : Int) (hI : Inv t)
    (hok : cacheEntryOk t (k0, k1, v)) :
    Inv (add_inf t k0 k1 v) ∧ Extends t (add_inf t k0 k1 v) := by
  constructor
  · refine Inv_congr hI rfl rfl rfl rfl rfl (fun p hp => hI.stbl_good p hp)
      (fun j hj => hI.mark_good j hj) (fun e he => hI.sup_ok e he) ?_
    intro e he
    rw [add_inf_entries] at he
    rcases List.mem_cons.mp he with rfl | he2
    · exact hok
    · exact hI.inf_ok e he2
  · exact ⟨le_refl _, fun j hj => ⟨hj, rfl, rfl, rfl, rfl⟩⟩

theorem hmap2_find_mem {l : List (Int × Int × Int)} {k0 k1 v : Int}
    (h : hmap2_find l k0 k1 = some v) : (k0, k1, v) ∈ l := by
  unfold hmap2_find at h
  cases hf : l.find? (fun e => decide (e.1 = k0 ∧ e.2.1 = k1)) with
  | none =>
    rw [hf] at h
    cases h
  | some e =>
    rw [hf] at h
    injection h with h
    have hp := List.find?_some hf
    have hm := List.mem_of_find?_eq_some hf
    obtain ⟨e1, e2, e3⟩ := e
    simp only [decide_eq_true_eq] at hp
    obtain ⟨h1, h2⟩ := hp
    subst h1
    subst h2
    subst h
    exact hm

/-- Characterization of the cheap path of `super_type`: the result is
`UNKNOWN_TYPE` (and then the two ids are distinct compound types of the
same kind), `NULL_TYPE`, or a live id. -/
theorem cheap_sup_char (t : TypeTable) (tau1 tau2 : Int) (hI : Inv t)
    (h1 : good_type t tau1) (h2 : good_type t tau2) :
    (cheap_sup t tau1 tau2 = UNKNOWN_TYPE ∧ tau1 ≠ tau2 ∧
      ((t.kind tau1 = .TUPLE_TYPE ∧ t.kind tau2 = .TUPLE_TYPE) ∨
       (t.kind tau1 = .FUNCTION_TYPE ∧ t.kind tau2 = .FUNCTION_TYPE))) ∨
    cheap_sup t tau1 tau2 = NULL_TYPE ∨ good_type t (cheap_sup t tau1 tau2) := by
  unfold cheap_sup
  by_cases he : tau1 = tau2
  · rw [if_pos he]
    exact Or.inr (Or.inr h1)
  · rw [if_neg he]
    by_cases hir : (tau1 = int_id ∧ tau2 = real_id) ∨ (tau1 = real_id ∧ tau2 = int_id)
    · rw [if_pos hir]
      exact Or.inr (Or.inr (prim_good t hI).2.2)
    · rw [if_neg hir]
      cases hk1 : t.kind tau1 with
      | TUPLE_TYPE =>
        by_cases hc : t.kind tau2 ≠ .TUPLE_TYPE ∨ tuple_type_arity t tau1 ≠ tuple_type_arity t tau2
        · rw [if_pos hc]
          exact Or.inr (Or.inl rfl)
        · rw [if_neg hc]
          push_neg at hc
          exact Or.inl ⟨rfl, he, Or.inl ⟨rfl, hc.1⟩⟩
      | FUNCTION_TYPE =>
        by_cases hc : t.kind tau2 ≠ .FUNCTION_TYPE ∨
            function_type_arity t tau1 ≠ function_type_arity t tau2
        · rw [if_pos hc]
          exact Or.inr (Or.inl rfl)
        · rw [if_neg hc]
          push_neg at hc
          exact Or.inl ⟨rfl, he, Or.inr ⟨rfl, hc.1⟩⟩
      | UNUSED_TYPE => exact Or.inr (Or.inl rfl)
      | BOOL_TYPE => exact Or.inr (Or.inl rfl)
      | INT_TYPE => exact Or.inr (Or.inl rfl)
      | REAL_TYPE => exact Or.inr (Or.inl rfl)
      | BITVECTOR_TYPE => exact Or.inr (Or.inl rfl)
      | SCALAR_TYPE => exact Or.inr (Or.inl rfl)
      | UNINTERPRETED_TYPE => exact Or.inr (Or.inl rfl)

/-- Characterization of the cheap path of `inf_type`. -/
theorem cheap_inf_char (t : TypeTable) (tau1 tau2 : Int) (hI : Inv t)
    (h1 : good_type t tau1) (h2 : good_type t tau2) :
    (cheap_inf t tau1 tau2 = UNKNOWN_TYPE ∧ tau1 ≠ tau2 ∧
      ((t.kind tau1 = .TUPLE_TYPE ∧ t.kind tau2 = .TUPLE_TYPE) ∨
       (t.kind tau1 = .FUNCTION_TYPE ∧ t.kind tau2 = .FUNCTION_TYPE))) ∨
    cheap_inf t tau1 tau2 = NULL_TYPE ∨ good_type t (cheap_inf t tau1 tau2) := by
  unfold cheap_inf
  by_cases he : tau1 = tau2
  · rw [if_pos he]
    exact Or.inr (Or.inr h1)
  · rw [if_neg he]
    by_cases hir : (tau1 = int_id ∧ tau2 = real_id) ∨ (tau1 = real_id ∧ tau2 = int_id)
    · rw [if_pos hir]
      exact Or.inr (Or.inr (prim_good t hI).2.1)
    · rw [if_neg hir]
      cases hk1 : t.kind tau1 with
      | TUPLE_TYPE =>
        by_cases hc : t.kind tau2 ≠ .TUPLE_TYPE ∨ tuple_type_arity t tau1 ≠ tuple_type_arity t tau2
        · rw [if_pos hc]
          exact Or.inr (Or.inl rfl)
        · rw [if_neg hc]
          push_neg at hc
          exact Or.inl ⟨rfl, he, Or.inl ⟨rfl, hc.1⟩⟩
      | FUNCTION_TYPE =>
        by_cases hc : t.kind tau2 ≠ .FUNCTION_TYPE ∨
            function_type_arity t tau1 ≠ function_type_arity t tau2
        · rw [if_pos hc]
          exact Or.inr (Or.inl rfl)
        · rw [if_neg hc]
          push_neg at hc
          exact Or.inl ⟨rfl, he, Or.inr ⟨rfl, hc.1⟩⟩
      | UNUSED_TYPE => exact Or.inr (Or.inl rfl)
      | BOOL_TYPE => exact Or.inr (Or.inl rfl)
      | INT_TYPE => exact Or.inr (Or.inl rfl)
      | REAL_TYPE => exact Or.inr (Or.inl rfl)
      | BITVECTOR_TYPE => exact Or.inr (Or.inl rfl)
      | SCALAR_TYPE => exact Or.inr (Or.inl rfl)
      | UNINTERPRETED_TYPE => exact Or.inr (Or.inl rfl)

theorem lattice_fold_none (rec : TypeTable → Int → Int → Option (Int × TypeTable)) :
    ∀ l : List (Int × Int), l.foldl (lattice_list_step rec) none = none := by
  intro l
  induction l with
  | nil => rfl
  | cons p l ih => exact ih

theorem lattice_fold_abort (rec : TypeTable → Int → Int → Option (Int × TypeTable))
    (t : TypeTable) :
    ∀ l : List (Int × Int), l.foldl (lattice_list_step rec) (some (t, none)) = some (t, none) := by
  intro l
  induction l with
  | nil => rfl
  | cons p l ih => exact ih

/-- The componentwise loop of the lattice operations preserves the
invariant and produces live componentwise results (given that the
recursive operation does). -/
theorem lattice_fold_spec (rec : TypeTable → Int → Int → Option (Int × TypeTable))
    (hrec : ∀ t a b r t2, Inv t → good_type t a → good_type t b →
      rec t a b = some (r, t2) →
      Inv t2 ∧ Extends t t2 ∧ (r = NULL_TYPE ∨ good_type t2 r)) :
    ∀ (l : List (Int × Int)) (t : TypeTable) (s : List Int), Inv t →
      (∀ x ∈ s, good_type t x) → (∀ p ∈ l, good_type t p.1 ∧ good_type t p.2) →
      (l.foldl (lattice_list_step rec) (some (t, some s)) = none) ∨
      (∃ t2, l.foldl (lattice_list_step rec) (some (t, some s)) = some (t2, none) ∧
        Inv t2 ∧ Extends t t2) ∨
      (∃ t2 s2, l.foldl (lattice_list_step rec) (some (t, some s)) = some (t2, some s2) ∧
        Inv t2 ∧ Extends t t2 ∧ ∀ x ∈ s2, good_type t2 x) := by
  intro l
  induction l with
  | nil =>
    intro t s hI hs _
    exact Or.inr (Or.inr ⟨t, s, rfl, hI, Extends_refl t, hs⟩)
  | cons p l ih =>
    intro t s hI hs hl
    have hstep : List.foldl (lattice_list_step rec) (some (t, some s)) (p :: l) =
        List.foldl (lattice_list_step rec) (lattice_list_step rec (some (t, some s)) p) l :=
      rfl
    rw [hstep]
    have hp := hl p (by simp)
    cases hr : rec t p.1 p.2 with
    | none =>
      have hacc : lattice_list_step rec (some (t, some s)) p = none := by
        show (match rec t p.1 p.2 with
          | none => none
          | some (r, t1) =>
            if r = NULL_TYPE then some (t1, none) else some (t1, some (s ++ [r]))) = none
        rw [hr]
      rw [hacc, lattice_fold_none]
      exact Or.inl rfl
    | some rt =>
      obtain ⟨r, t1⟩ := rt
      obtain ⟨hI1, hExt1, hg1⟩ := hrec t p.1 p.2 r t1 hI hp.1 hp.2 hr
      by_cases hrn : r = NULL_TYPE
      · have hacc : lattice_list_step rec (some (t, some s)) p = some (t1, none) := by
          show (match rec t p.1 p.2 with
            | none => none
            | some (r, t1) =>
              if r = NULL_TYPE then some (t1, none) else some (t1, some (s ++ [r]))) =
            some (t1, none)
          rw [hr]
          show (if r = NULL_TYPE then some (t1, none)
            else some (t1, some (s ++ [r]))) = some (t1, none)
          rw [if_pos hrn]
        rw [hacc, lattice_fold_abort]
        exact Or.inr (Or.inl ⟨t1, rfl, hI1, hExt1⟩)
      · have hacc : lattice_list_step rec (some (t, some s)) p =
            some (t1, some (s ++ [r])) := by
          show (match rec t p.1 p.2 with
            | none => none
            | some (r, t1) =>
              if r = NULL_TYPE then some (t1, none) else some (t1, some (s ++ [r]))) =
            some (t1, some (s ++ [r]))
          rw [hr]
          show (if r = NULL_TYPE then some (t1, none)
            else some (t1, some (s ++ [r]))) = some (t1, some (s ++ [r]))
          rw [if_neg hrn]
        rw [hacc]
        have hgr : good_type t1 r := by
          rcases hg1 with h | h
          · exact absurd h hrn
          · exact h
        have hs1 : ∀ x ∈ s ++ [r], good_type t1 x := by
          intro x hx
          rcases List.mem_append.mp hx with hx | hx
          · exact good_mono hExt1 (hs x hx)
          · rw [List.mem_singleton.mp hx]
            exact hgr
        have hl1 : ∀ q ∈ l, good_type t1 q.1 ∧ good_type t1 q.2 := by
          intro q hq
          have := hl q (by simp [hq])
          exact ⟨good_mono hExt1 this.1, good_mono hExt1 this.2⟩
        rcases ih t1 (s ++ [r]) hI1 hs1 hl1 with h | ⟨t2, h, hI2, hExt2⟩ |
          ⟨t2, s2, h, hI2, hExt2, hs2⟩
        · exact Or.inl h
        · exact Or.inr (Or.inl ⟨t2, h, hI2, Extends_trans hExt1 hExt2⟩)
        · exact Or.inr (Or.inr ⟨t2, s2, h, hI2, Extends_trans hExt1 hExt2, hs2⟩)

theorem childrenList_tuple_kind (u : TypeTable) (i : Int) (h : u.kind i = .TUPLE_TYPE) :
    childrenList u i = tuple_elems u i := by
  unfold childrenList
  rw [h]

theorem childrenList_fn_kind (u : TypeTable) (i : Int) (h : u.kind i = .FUNCTION_TYPE) :
    childrenList u i = fun_range u i :: fun_domain u i := by
  unfold childrenList
  rw [h]

theorem fun_domain_congr {u u2 : TypeTable} (i : Int) (hd : u2.desc i = u.desc i) :
    fun_domain u2 i = fun_domain u i := by
  unfold fun_domain
  rw [hd]

theorem fun_range_congr {u u2 : TypeTable} (i : Int) (hd : u2.desc i = u.desc i) :
    fun_range u2 i = fun_range u i := by
  unfold fun_range
  rw [hd]

/-- `super_type` (the fuelled version): when it completes, the
invariant is preserved, the table only grows, and the result is
`NULL_TYPE` or a live id — never the `UNKNOWN` marker. -/
theorem super_type_f_ok :
    ∀ (fuel : Nat) (t : TypeTable) (a b r : Int) (t2 : TypeTable), Inv t →
      good_type t a → good_type t b → super_type_f fuel t a b = some (r, t2) →
      Inv t2 ∧ Extends t t2 ∧ (r = NULL_TYPE ∨ good_type t2 r) := by
  intro fuel
  induction fuel with
  | zero =>
    intro t a b r t2 _ _ _ h
    cases h
  | succ fuel ih =>
    intro t a b r t2 hI ha hb h
    simp only [super_type_f] at h
    by_cases haux : cheap_sup t a b = UNKNOWN_TYPE
    · rw [if_pos haux] at h
      rcases cheap_sup_char t a b hI ha hb with ⟨-, hne, hkinds⟩ | hnull | hgood
      · -- the main path
        set tau1 := if a > b then b else a with htau1
        set tau2 := if a > b then a else b with htau2
        have hgt1 : good_type t tau1 := by
          rw [htau1]
          by_cases hab : a > b
          · rw [if_pos hab]; exact hb
          · rw [if_neg hab]; exact ha
        have hgt2 : good_type t tau2 := by
          rw [htau2]
          by_cases hab : a > b
          · rw [if_pos hab]; exact ha
          · rw [if_neg hab]; exact hb
        have hlt : tau1 < tau2 := by
          rw [htau1, htau2]
          by_cases hab : a > b
          · rw [if_pos hab, if_pos hab]; omega
          · rw [if_neg hab, if_neg hab]
            rcases lt_or_gt_of_ne hne with hx | hx
            · exact hx
            · omega
        obtain ⟨hIe, hExte⟩ := ensure_sup_inv t hI
        obtain ⟨hek, hed, henel, hefi, hehtbl, hestbl, hem, heinf, hec, hef, heE⟩ :=
          ensure_sup_frame t
        have hgt1e : good_type (ensure_sup_tbl t) tau1 := good_mono hExte hgt1
        have hgt2e : good_type (ensure_sup_tbl t) tau2 := good_mono hExte hgt2
        cases hfind : hmap2_find (supEntries (ensure_sup_tbl t)) tau1 tau2 with
        | some v =>
          rw [hfind] at h
          have h2 : some (v, ensure_sup_tbl t) = some (r, t2) := h
          injection h2 with h2
          injection h2 with hr2 ht2
          subst hr2
          subst ht2
          refine ⟨hIe, hExte, ?_⟩
          have hmem := hmap2_find_mem hfind
          rw [heE] at hmem
          have hok := hI.sup_ok _ hmem
          rcases hok.2.2.2 with hv | hv
          · exact Or.inl hv
          · exact Or.inr (good_mono hExte hv)
        | none =>
          rw [hfind] at h
          rcases hkinds with ⟨hka, hkb⟩ | ⟨hka, hkb⟩
          · -- tuple case
            have hktau : (ensure_sup_tbl t).kind tau1 = .TUPLE_TYPE := by
              rw [hek, htau1]
              by_cases hab : a > b
              · rw [if_pos hab]; exact hkb
              · rw [if_neg hab]; exact hka
            have hktau2 : (ensure_sup_tbl t).kind tau2 = .TUPLE_TYPE := by
              rw [hek, htau2]
              by_cases hab : a > b
              · rw [if_pos hab]; exact hka
              · rw [if_neg hab]; exact hkb
            rw [hktau] at h
            have h2 : (match lattice_type_list (super_type_f fuel) (ensure_sup_tbl t)
                (tuple_elems (ensure_sup_tbl t) tau1) (tuple_elems (ensure_sup_tbl t) tau2) with
              | none => (none : Option (Int × TypeTable))
              | some (t2, none) => some (NULL_TYPE, add_sup t2 tau1 tau2 NULL_TYPE)
              | some (t2, some s) =>
                some ((tuple_type t2 s).1,
                  add_sup (tuple_type t2 s).2 tau1 tau2 (tuple_type t2 s).1)) =
                some (r, t2) := h
            have hzip : ∀ p ∈ (tuple_elems (ensure_sup_tbl t) tau1).zip
                (tuple_elems (ensure_sup_tbl t) tau2),
                good_type (ensure_sup_tbl t) p.1 ∧ good_type (ensure_sup_tbl t) p.2 := by
              intro p hp
              obtain ⟨hp1, hp2⟩ := List.of_mem_zip hp
              constructor
              · refine hIe.children_good tau1 p.1 ?_
                rw [childrenList_tuple_kind _ _ hktau]
                exact hp1
              · refine hIe.children_good tau2 p.2 ?_
                rw [childrenList_tuple_kind _ _ hktau2]
                exact hp2
            have hfold := lattice_fold_spec (super_type_f fuel)
              (fun u x y rr u2 hu hx hy hh => ih u x y rr u2 hu hx hy hh)
              ((tuple_elems (ensure_sup_tbl t) tau1).zip (tuple_elems (ensure_sup_tbl t) tau2))
              (ensure_sup_tbl t) [] hIe (by simp) hzip
            rcases hfold with hout | ⟨t2x, hout, hI2x, hExt2x⟩ |
              ⟨t2x, s2, hout, hI2x, hExt2x, hs2⟩
            · rw [show lattice_type_list (super_type_f fuel) (ensure_sup_tbl t)
                  (tuple_elems (ensure_sup_tbl t) tau1) (tuple_elems (ensure_sup_tbl t) tau2) =
                  ((tuple_elems (ensure_sup_tbl t) tau1).zip
                    (tuple_elems (ensure_sup_tbl t) tau2)).foldl
                    (lattice_list_step (super_type_f fuel)) (some (ensure_sup_tbl t, some []))
                from rfl, hout] at h2
              cases h2
            · rw [show lattice_type_list (super_type_f fuel) (ensure_sup_tbl t)
                  (tuple_elems (ensure_sup_tbl t) tau1) (tuple_elems (ensure_sup_tbl t) tau2) =
                  ((tuple_elems (ensure_sup_tbl t) tau1).zip
                    (tuple_elems (ensure_sup_tbl t) tau2)).foldl
                    (lattice_list_step (super_type_f fuel)) (some (ensure_sup_tbl t, some []))
                from rfl, hout] at h2
              have h3 : some (NULL_TYPE, add_sup t2x tau1 tau2 NULL_TYPE) = some (r, t2) := h2
              injection h3 with h3
              injection h3 with hr2 ht2
              subst hr2
              subst ht2
              have hok : cacheEntryOk t2x (tau1, tau2, NULL_TYPE) :=
                ⟨hlt, good_mono hExt2x hgt1e, good_mono hExt2x hgt2e, Or.inl rfl⟩
              obtain ⟨hIa, hExta⟩ := add_sup_inv t2x tau1 tau2 NULL_TYPE hI2x hok
              exact ⟨hIa, Extends_trans hExte (Extends_trans hExt2x hExta), Or.inl rfl⟩
            · rw [show lattice_type_list (super_type_f fuel) (ensure_sup_tbl t)
                  (tuple_elems (ensure_sup_tbl t) tau1) (tuple_elems (ensure_sup_tbl t) tau2) =
                  ((tuple_elems (ensure_sup_tbl t) tau1).zip
                    (tuple_elems (ensure_sup_tbl t) tau2)).foldl
                    (lattice_list_step (super_type_f fuel)) (some (ensure_sup_tbl t, some []))
                from rfl, hout] at h2
              have h3 : some ((tuple_type t2x s2).1,
                  add_sup (tuple_type t2x s2).2 tau1 tau2 (tuple_type t2x s2).1) =
                  some (r, t2) := h2
              injection h3 with h3
              injection h3 with hr2 ht2
              subst hr2
              subst ht2
              obtain ⟨hIp, hExtp, hgp, -⟩ := tuple_type_ok t2x s2 hI2x hs2
              have hok : cacheEntryOk (tuple_type t2x s2).2
                  (tau1, tau2, (tuple_type t2x s2).1) :=
                ⟨hlt, good_mono hExtp (good_mono hExt2x hgt1e),
                  good_mono hExtp (good_mono hExt2x hgt2e), Or.inr hgp⟩
              obtain ⟨hIa, hExta⟩ := add_sup_inv (tuple_type t2x s2).2 tau1 tau2
                (tuple_type t2x s2).1 hIp hok
              refine ⟨hIa, Extends_trans hExte (Extends_trans hExt2x
                (Extends_trans hExtp hExta)), Or.inr ?_⟩
              exact good_mono hExta hgp
          · -- function case
            have hktau : (ensure_sup_tbl t).kind tau1 = .FUNCTION_TYPE := by
              rw [hek, htau1]
              by_cases hab : a > b
              · rw [if_pos hab]; exact hkb
              · rw [if_neg hab]; exact hka
            have hktau2 : (ensure_sup_tbl t).kind tau2 = .FUNCTION_TYPE := by
              rw [hek, htau2]
              by_cases hab : a > b
              · rw [if_pos hab]; exact hka
              · rw [if_neg hab]; exact hkb
            rw [hktau] at h
            have h2 : (if equal_type_arrays (fun_domain (ensure_sup_tbl t) tau1)
                (fun_domain (ensure_sup_tbl t) tau2) then
                match super_type_f fuel (ensure_sup_tbl t) (fun_range (ensure_sup_tbl t) tau1)
                    (fun_range (ensure_sup_tbl t) tau2) with
                | none => (none : Option (Int × TypeTable))
                | some (rr, t2) =>
                  if rr = NULL_TYPE then some (NULL_TYPE, add_sup t2 tau1 tau2 NULL_TYPE)
                  else
                    some ((function_type t2 rr (fun_domain t2 tau1)).1,
                      add_sup (function_type t2 rr (fun_domain t2 tau1)).2 tau1 tau2
                        (function_type t2 rr (fun_domain t2 tau1)).1)
              else some (NULL_TYPE, add_sup (ensure_sup_tbl t) tau1 tau2 NULL_TYPE)) =
              some (r, t2) := h
            by_cases heqd : equal_type_arrays (fun_domain (ensure_sup_tbl t) tau1)
                (fun_domain (ensure_sup_tbl t) tau2)
            · rw [if_pos heqd] at h2
              have hgr1 : good_type (ensure_sup_tbl t) (fun_range (ensure_sup_tbl t) tau1) := by
                refine hIe.children_good tau1 _ ?_
                rw [childrenList_fn_kind _ _ hktau]
                exact List.mem_cons.mpr (Or.inl rfl)
              have hgr2 : good_type (ensure_sup_tbl t) (fun_range (ensure_sup_tbl t) tau2) := by
                refine hIe.children_good tau2 _ ?_
                rw [childrenList_fn_kind _ _ hktau2]
                exact List.mem_cons.mpr (Or.inl rfl)
              cases hrr : super_type_f fuel (ensure_sup_tbl t) (fun_range (ensure_sup_tbl t) tau1)
                  (fun_range (ensure_sup_tbl t) tau2) with
              | none =>
                rw [hrr] at h2
                cases h2
              | some p =>
                obtain ⟨rr, t2x⟩ := p
                rw [hrr] at h2
                have h2x : (if rr = NULL_TYPE then
                    some (NULL_TYPE, add_sup t2x tau1 tau2 NULL_TYPE)
                  else
                    some ((function_type t2x rr (fun_domain t2x tau1)).1,
                      add_sup (function_type t2x rr (fun_domain t2x tau1)).2 tau1 tau2
                        (function_type t2x rr (fun_domain t2x tau1)).1)) = some (r, t2) := h2
                obtain ⟨hI2x, hExt2x, hgrr⟩ := ih (ensure_sup_tbl t) _ _ rr t2x hIe hgr1 hgr2 hrr
                by_cases hrn : rr = NULL_TYPE
                · rw [if_pos hrn] at h2x
                  injection h2x with h3
                  injection h3 with hr2 ht2
                  subst hr2
                  subst ht2
                  have hok : cacheEntryOk t2x (tau1, tau2, NULL_TYPE) :=
                    ⟨hlt, good_mono hExt2x hgt1e, good_mono hExt2x hgt2e, Or.inl rfl⟩
                  obtain ⟨hIa, hExta⟩ := add_sup_inv t2x tau1 tau2 NULL_TYPE hI2x hok
                  exact ⟨hIa, Extends_trans hExte (Extends_trans hExt2x hExta), Or.inl rfl⟩
                · rw [if_neg hrn] at h2x
                  injection h2x with h3
                  injection h3 with hr2 ht2
                  subst hr2
                  subst ht2
                  have hgrr2 : good_type t2x rr := by
                    rcases hgrr with hx | hx
                    · exact absurd hx hrn
                    · exact hx
                  have hdomeq : fun_domain t2x tau1 = fun_domain (ensure_sup_tbl t) tau1 :=
                    fun_domain_congr tau1 (hExt2x.2 tau1 hgt1e).2.2.1
                  have hdomg : ∀ x ∈ fun_domain t2x tau1, good_type t2x x := by
                    intro x hx
                    rw [hdomeq] at hx
                    refine good_mono hExt2x (hIe.children_good tau1 x ?_)
                    rw [childrenList_fn_kind _ _ hktau]
                    exact List.mem_cons.mpr (Or.inr hx)
                  obtain ⟨hIp, hExtp, hgp, -⟩ :=
                    function_type_ok t2x rr (fun_domain t2x tau1) hI2x hgrr2 hdomg
                  have hok : cacheEntryOk (function_type t2x rr (fun_domain t2x tau1)).2
                      (tau1, tau2, (function_type t2x rr (fun_domain t2x tau1)).1) :=
                    ⟨hlt, good_mono hExtp (good_mono hExt2x hgt1e),
                      good_mono hExtp (good_mono hExt2x hgt2e), Or.inr hgp⟩
                  obtain ⟨hIa, hExta⟩ := add_sup_inv (function_type t2x rr
                    (fun_domain t2x tau1)).2 tau1 tau2
                    (function_type t2x rr (fun_domain t2x tau1)).1 hIp hok
                  refine ⟨hIa, Extends_trans hExte (Extends_trans hExt2x
                    (Extends_trans hExtp hExta)), Or.inr ?_⟩
                  exact good_mono hExta hgp
            · rw [if_neg heqd] at h2
              injection h2 with h3
              injection h3 with hr2 ht2
              subst hr2
              subst ht2
              have hok : cacheEntryOk (ensure_sup_tbl t) (tau1, tau2, NULL_TYPE) :=
                ⟨hlt, hgt1e, hgt2e, Or.inl rfl⟩
              obtain ⟨hIa, hExta⟩ := add_sup_inv (ensure_sup_tbl t) tau1 tau2 NULL_TYPE hIe hok
              exact ⟨hIa, Extends_trans hExte hExta, Or.inl rfl⟩
      · exact absurd (hnull ▸ haux) (by norm_num [NULL_TYPE, UNKNOWN_TYPE])
      · exfalso
        rw [haux] at hgood
        have := hgood.1
        norm_num [UNKNOWN_TYPE] at this
    · rw [if_neg haux] at h
      injection h with h2
      injection h2 with hr2 ht2
      subst hr2
      subst ht2
      refine ⟨hI, Extends_refl t, ?_⟩
      rcases cheap_sup_char t a b hI ha hb with ⟨hu, -⟩ | hnull | hgood
      · exact absurd hu haux
      · exact Or.inl hnull
      · exact Or.inr hgood


/-- `inf_type` (the fuelled version): when it completes, the
invariant is preserved, the table only grows, and the result is
`NULL_TYPE` or a live id — never the `UNKNOWN` marker. -/
theorem inf_type_f_ok :
    ∀ (fuel : Nat) (t : TypeTable) (a b r : Int) (t2 : TypeTable), Inv t →
      good_type t a → good_type t b → inf_type_f fuel t a b = some (r, t2) →
      Inv t2 ∧ Extends t t2 ∧ (r = NULL_TYPE ∨ good_type t2 r) := by
  intro fuel
  induction fuel with
  | zero =>
    intro t a b r t2 _ _ _ h
    cases h
  | succ fuel ih =>
    intro t a b r t2 hI ha hb h
    simp only [inf_type_f] at h
    by_cases haux : cheap_inf t a b = UNKNOWN_TYPE
    · rw [if_pos haux] at h
      rcases cheap_inf_char t a b hI ha hb with ⟨-, hne, hkinds⟩ | hnull | hgood
      · -- the main path
        set tau1 := if a > b then b else a with htau1
        set tau2 := if a > b then a else b with htau2
        have hgt1 : good_type t tau1 := by
          rw [htau1]
          by_cases hab : a > b
          · rw [if_pos hab]; exact hb
          · rw [if_neg hab]; exact ha
        have hgt2 : good_type t tau2 := by
          rw [htau2]
          by_cases hab : a > b
          · rw [if_pos hab]; exact ha
          · rw [if_neg hab]; exact hb
        have hlt : tau1 < tau2 := by
          rw [htau1, htau2]
          by_cases hab : a > b
          · rw [if_pos hab, if_pos hab]; omega
          · rw [if_neg hab, if_neg hab]
            rcases lt_or_gt_of_ne hne with hx | hx
            · exact hx
            · omega
        obtain ⟨hIe, hExte⟩ := ensure_inf_inv t hI
        obtain ⟨hek, hed, henel, hefi, hehtbl, hestbl, hem, heinf, hec, hef, heE⟩ :=
          ensure_inf_frame t
        have hgt1e : good_type (ensure_inf_tbl t) tau1 := good_mono hExte hgt1
        have hgt2e : good_type (ensure_inf_tbl t) tau2 := good_mono hExte hgt2
        cases hfind : hmap2_find (infEntries (ensure_inf_tbl t)) tau1 tau2 with
        | some v =>
          rw [hfind] at h
          have h2 : some (v, ensure_inf_tbl t) = some (r, t2) := h
          injection h2 with h2
          injection h2 with hr2 ht2
          subst hr2
          subst ht2
          refine ⟨hIe, hExte, ?_⟩
          have hmem := hmap2_find_mem hfind
          rw [heE] at hmem
          have hok := hI.inf_ok _ hmem
          rcases hok.2.2.2 with hv | hv
          · exact Or.inl hv
          · exact Or.inr (good_mono hExte hv)
        | none =>
          rw [hfind] at h
          rcases hkinds with ⟨hka, hkb⟩ | ⟨hka, hkb⟩
          · -- tuple case
            have hktau : (ensure_inf_tbl t).kind tau1 = .TUPLE_TYPE := by
              rw [hek, htau1]
              by_cases hab : a > b
              · rw [if_pos hab]; exact hkb
              · rw [if_neg hab]; exact hka
            have hktau2 : (ensure_inf_tbl t).kind tau2 = .TUPLE_TYPE := by
              rw [hek, htau2]
              by_cases hab : a > b
              · rw [if_pos hab]; exact hka
              · rw [if_neg hab]; exact hkb
            rw [hktau] at h
            have h2 : (match lattice_type_list (inf_type_f fuel) (ensure_inf_tbl t)
                (tuple_elems (ensure_inf_tbl t) tau1) (tuple_elems (ensure_inf_tbl t) tau2) with
              | none => (none : Option (Int × TypeTable))
              | some (t2, none) => some (NULL_TYPE, add_inf t2 tau1 tau2 NULL_TYPE)
              | some (t2, some s) =>
                some ((tuple_type t2 s).1,
                  add_inf (tuple_type t2 s).2 tau1 tau2 (tuple_type t2 s).1)) =
                some (r, t2) := h
            have hzip : ∀ p ∈ (tuple_elems (ensure_inf_tbl t) tau1).zip
                (tuple_elems (ensure_inf_tbl t) tau2),
                good_type (ensure_inf_tbl t) p.1 ∧ good_type (ensure_inf_tbl t) p.2 := by
              intro p hp
              obtain ⟨hp1, hp2⟩ := List.of_mem_zip hp
              constructor
              · refine hIe.children_good tau1 p.1 ?_
                rw [childrenList_tuple_kind _ _ hktau]
                exact hp1
              · refine hIe.children_good tau2 p.2 ?_
                rw [childrenList_tuple_kind _ _ hktau2]
                exact hp2
            have hfold := lattice_fold_spec (inf_type_f fuel)
              (fun u x y rr u2 hu hx hy hh => ih u x y rr u2 hu hx hy hh)
              ((tuple_elems (ensure_inf_tbl t) tau1).zip (tuple_elems (ensure_inf_tbl t) tau2))
              (ensure_inf_tbl t) [] hIe (by simp) hzip
            rcases hfold with hout | ⟨t2x, hout, hI2x, hExt2x⟩ |
              ⟨t2x, s2, hout, hI2x, hExt2x, hs2⟩
            · rw [show lattice_type_list (inf_type_f fuel) (ensure_inf_tbl t)
                  (tuple_elems (ensure_inf_tbl t) tau1) (tuple_elems (ensure_inf_tbl t) tau2) =
                  ((tuple_elems (ensure_inf_tbl t) tau1).zip
                    (tuple_elems (ensure_inf_tbl t) tau2)).foldl
                    (lattice_list_step (inf_type_f fuel)) (some (ensure_inf_tbl t, some []))
                from rfl, hout] at h2
              cases h2
            · rw [show lattice_type_list (inf_type_f fuel) (ensure_inf_tbl t)
                  (tuple_elems (ensure_inf_tbl t) tau1) (tuple_elems (ensure_inf_tbl t) tau2) =
                  ((tuple_elems (ensure_inf_tbl t) tau1).zip
                    (tuple_elems (ensure_inf_tbl t) tau2)).foldl
                    (lattice_list_step (inf_type_f fuel)) (some (ensure_inf_tbl t, some []))
                from rfl, hout] at h2
              have h3 : some (NULL_TYPE, add_inf t2x tau1 tau2 NULL_TYPE) = some (r, t2) := h2
              injection h3 with h3
              injection h3 with hr2 ht2
              subst hr2
              subst ht2
              have hok : cacheEntryOk t2x (tau1, tau2, NULL_TYPE) :=
                ⟨hlt, good_mono hExt2x hgt1e, good_mono hExt2x hgt2e, Or.inl rfl⟩
              obtain ⟨hIa, hExta⟩ := add_inf_inv t2x tau1 tau2 NULL_TYPE hI2x hok
              exact ⟨hIa, Extends_trans hExte (Extends_trans hExt2x hExta), Or.inl rfl⟩
            · rw [show lattice_type_list (inf_type_f fuel) (ensure_inf_tbl t)
                  (tuple_elems (ensure_inf_tbl t) tau1) (tuple_elems (ensure_inf_tbl t) tau2) =
                  ((tuple_elems (ensure_inf_tbl t) tau1).zip
                    (tuple_elems (ensure_inf_tbl t) tau2)).foldl
                    (lattice_list_step (inf_type_f fuel)) (some (ensure_inf_tbl t, some []))
                from rfl, hout] at h2
              have h3 : some ((tuple_type t2x s2).1,
                  add_inf (tuple_type t2x s2).2 tau1 tau2 (tuple_type t2x s2).1) =
                  some (r, t2) := h2
              injection h3 with h3
              injection h3 with hr2 ht2
              subst hr2
              subst ht2
              obtain ⟨hIp, hExtp, hgp, -⟩ := tuple_type_ok t2x s2 hI2x hs2
              have hok : cacheEntryOk (tuple_type t2x s2).2
                  (tau1, tau2, (tuple_type t2x s2).1) :=
                ⟨hlt, good_mono hExtp (good_mono hExt2x hgt1e),
                  good_mono hExtp (good_mono hExt2x hgt2e), Or.inr hgp⟩
              obtain ⟨hIa, hExta⟩ := add_inf_inv (tuple_type t2x s2).2 tau1 tau2
                (tuple_type t2x s2).1 hIp hok
              refine ⟨hIa, Extends_trans hExte (Extends_trans hExt2x
                (Extends_trans hExtp hExta)), Or.inr ?_⟩
              exact good_mono hExta hgp
          · -- function case
            have hktau : (ensure_inf_tbl t).kind tau1 = .FUNCTION_TYPE := by
              rw [hek, htau1]
              by_cases hab : a > b
              · rw [if_pos hab]; exact hkb
              · rw [if_neg hab]; exact hka
            have hktau2 : (ensure_inf_tbl t).kind tau2 = .FUNCTION_TYPE := by
              rw [hek, htau2]
              by_cases hab : a > b
              · rw [if_pos hab]; exact hka
              · rw [if_neg hab]; exact hkb
            rw [hktau] at h
            have h2 : (if equal_type_arrays (fun_domain (ensure_inf_tbl t) tau1)
                (fun_domain (ensure_inf_tbl t) tau2) then
                match inf_type_f fuel (ensure_inf_tbl t) (fun_range (ensure_inf_tbl t) tau1)
                    (fun_range (ensure_inf_tbl t) tau2) with
                | none => (none : Option (Int × TypeTable))
                | some (rr, t2) =>
                  if rr = NULL_TYPE then some (NULL_TYPE, add_inf t2 tau1 tau2 NULL_TYPE)
                  else
                    some ((function_type t2 rr (fun_domain t2 tau1)).1,
                      add_inf (function_type t2 rr (fun_domain t2 tau1)).2 tau1 tau2
                        (function_type t2 rr (fun_domain t2 tau1)).1)
              else some (NULL_TYPE, add_inf (ensure_inf_tbl t) tau1 tau2 NULL_TYPE)) =
              some (r, t2) := h
            by_cases heqd : equal_type_arrays (fun_domain (ensure_inf_tbl t) tau1)
                (fun_domain (ensure_inf_tbl t) tau2)
            · rw [if_pos heqd] at h2
              have hgr1 : good_type (ensure_inf_tbl t) (fun_range (ensure_inf_tbl t) tau1) := by
                refine hIe.children_good tau1 _ ?_
                rw [childrenList_fn_kind _ _ hktau]
                exact List.mem_cons.mpr (Or.inl rfl)
              have hgr2 : good_type (ensure_inf_tbl t) (fun_range (ensure_inf_tbl t) tau2) := by
                refine hIe.children_good tau2 _ ?_
                rw [childrenList_fn_kind _ _ hktau2]
                exact List.mem_cons.mpr (Or.inl rfl)
              cases hrr : inf_type_f fuel (ensure_inf_tbl t) (fun_range (ensure_inf_tbl t) tau1)
                  (fun_range (ensure_inf_tbl t) tau2) with
              | none =>
                rw [hrr] at h2
                cases h2
              | some p =>
                obtain ⟨rr, t2x⟩ := p
                rw [hrr] at h2
                have h2x : (if rr = NULL_TYPE then
                    some (NULL_TYPE, add_inf t2x tau1 tau2 NULL_TYPE)
                  else
                    some ((function_type t2x rr (fun_domain t2x tau1)).1,
                      add_inf (function_type t2x rr (fun_domain t2x tau1)).2 tau1 tau2
                        (function_type t2x rr (fun_domain t2x tau1)).1)) = some (r, t2) := h2
                obtain ⟨hI2x, hExt2x, hgrr⟩ := ih (ensure_inf_tbl t) _ _ rr t2x hIe hgr1 hgr2 hrr
                by_cases hrn : rr = NULL_TYPE
                · rw [if_pos hrn] at h2x
                  injection h2x with h3
                  injection h3 with hr2 ht2
                  subst hr2
                  subst ht2
                  have hok : cacheEntryOk t2x (tau1, tau2, NULL_TYPE) :=
                    ⟨hlt, good_mono hExt2x hgt1e, good_mono hExt2x hgt2e, Or.inl rfl⟩
                  obtain ⟨hIa, hExta⟩ := add_inf_inv t2x tau1 tau2 NULL_TYPE hI2x hok
                  exact ⟨hIa, Extends_trans hExte (Extends_trans hExt2x hExta), Or.inl rfl⟩
                · rw [if_neg hrn] at h2x
                  injection h2x with h3
                  injection h3 with hr2 ht2
                  subst hr2
                  subst ht2
                  have hgrr2 : good_type t2x rr := by
                    rcases hgrr with hx | hx
                    · exact absurd hx hrn
                    · exact hx
                  have hdomeq : fun_domain t2x tau1 = fun_domain (ensure_inf_tbl t) tau1 :=
                    fun_domain_congr tau1 (hExt2x.2 tau1 hgt1e).2.2.1
                  have hdomg : ∀ x ∈ fun_domain t2x tau1, good_type t2x x := by
                    intro x hx
                    rw [hdomeq] at hx
                    refine good_mono hExt2x (hIe.children_good tau1 x ?_)
                    rw [childrenList_fn_kind _ _ hktau]
                    exact List.mem_cons.mpr (Or.inr hx)
                  obtain ⟨hIp, hExtp, hgp, -⟩ :=
                    function_type_ok t2x rr (fun_domain t2x tau1) hI2x hgrr2 hdomg
                  have hok : cacheEntryOk (function_type t2x rr (fun_domain t2x tau1)).2
                      (tau1, tau2, (function_type t2x rr (fun_domain t2x tau1)).1) :=
                    ⟨hlt, good_mono hExtp (good_mono hExt2x hgt1e),
                      good_mono hExtp (good_mono hExt2x hgt2e), Or.inr hgp⟩
                  obtain ⟨hIa, hExta⟩ := add_inf_inv (function_type t2x rr
                    (fun_domain t2x tau1)).2 tau1 tau2
                    (function_type t2x rr (fun_domain t2x tau1)).1 hIp hok
                  refine ⟨hIa, Extends_trans hExte (Extends_trans hExt2x
                    (Extends_trans hExtp hExta)), Or.inr ?_⟩
                  exact good_mono hExta hgp
            · rw [if_neg heqd] at h2
              injection h2 with h3
              injection h3 with hr2 ht2
              subst hr2
              subst ht2
              have hok : cacheEntryOk (ensure_inf_tbl t) (tau1, tau2, NULL_TYPE) :=
                ⟨hlt, hgt1e, hgt2e, Or.inl rfl⟩
              obtain ⟨hIa, hExta⟩ := add_inf_inv (ensure_inf_tbl t) tau1 tau2 NULL_TYPE hIe hok
              exact ⟨hIa, Extends_trans hExte hExta, Or.inl rfl⟩
      · exact absurd (hnull ▸ haux) (by norm_num [NULL_TYPE, UNKNOWN_TYPE])
      · exfalso
        rw [haux] at hgood
        have := hgood.1
        norm_num [UNKNOWN_TYPE] at this
    · rw [if_neg haux] at h
      injection h with h2
      injection h2 with hr2 ht2
      subst hr2
      subst ht2
      refine ⟨hI, Extends_refl t, ?_⟩
      rcases cheap_inf_char t a b hI ha hb with ⟨hu, -⟩ | hnull | hgood
      · exact absurd hu haux
      · exact Or.inl hnull
      · exact Or.inr hgood

/-!  ## Mark phase: monotonicity, closure and completeness  -/

theorem filter_length_mono {α : Type} (p q : α → Bool) :
    ∀ l : List α, (∀ a ∈ l, p a = true → q a = true) →
      (l.filter p).length ≤ (l.filter q).length := by
  intro l
  induction l with
  | nil => intro _; simp
  | cons x l ih =>
    intro h
    have ht := ih (fun a ha => h a (by simp [ha]))
    by_cases hp : p x = true
    · have hq := h x (by simp) hp
      simp only [List.filter_cons, hp, hq, if_true]
      simpa using ht
    · have hp2 : p x = false := by simpa using hp
      simp only [List.filter_cons, hp2]
      by_cases hq : q x = true
      · simp only [hq, if_true]
        simp only [Bool.false_eq_true, if_false]
        calc (l.filter p).length ≤ (l.filter q).length := ht
        _ ≤ (x :: l.filter q).length := by simp
      · have hq2 : q x = false := by simpa using hq
        simp only [hq2, Bool.false_eq_true, if_false]
        exact ht

theorem unmarkedBelow_mono {m m2 : Int → Bool} (h : ∀ j, m j = true → m2 j = true)
    (ptr : Int) : unmarkedBelow m2 ptr ≤ unmarkedBelow m ptr := by
  unfold unmarkedBelow
  refine filter_length_mono _ _ _ ?_
  intro a _ hp
  simp only [decide_eq_true_eq] at hp ⊢
  cases hma : m (a : Int)
  · rfl
  · rw [h _ hma] at hp
    cases hp

theorem unmarkedBelow_le (m : Int → Bool) (ptr : Int) : unmarkedBelow m ptr ≤ ptr.toNat := by
  unfold unmarkedBelow
  calc ((List.range ptr.toNat).filter (fun j : Nat => m (j : Int) = false)).length ≤
      (List.range ptr.toNat).length := List.length_filter_le _ _
  _ = ptr.toNat := List.length_range ptr.toNat

theorem filter_count_drop {p q : Nat → Bool} (x0 : Nat) (hpq : ∀ a, a ≠ x0 → p a = q a)
    (hpx : p x0 = false) (hqx : q x0 = true) :
    ∀ l : List Nat, l.Nodup → x0 ∈ l →
      (l.filter p).length + 1 = (l.filter q).length := by
  intro l
  induction l with
  | nil => intro _ h; cases h
  | cons x l ih =>
    intro hnd hmem
    rcases List.mem_cons.mp hmem with hx | hx
    · subst hx
      have hnotin : x0 ∉ l := (List.nodup_cons.mp hnd).1
      have hfeq : l.filter p = l.filter q :=
        List.filter_congr (fun a ha => hpq a (fun he => hnotin (he ▸ ha)))
      simp only [List.filter_cons, hpx, hqx, Bool.false_eq_true, if_false, if_true]
      rw [hfeq]
      simp
    · have hxne : x ≠ x0 := fun he => (List.nodup_cons.mp hnd).1 (he ▸ hx)
      have hpq2 := hpq x hxne
      have htail := ih (List.nodup_cons.mp hnd).2 hx
      simp only [List.filter_cons, hpq2]
      by_cases hqx2 : q x = true
      · simp only [hqx2, if_true]
        simpa using htail
      · have hqx3 : q x = false := by simpa using hqx2
        simp only [hqx3, Bool.false_eq_true, if_false]
        exact htail

theorem unmarkedBelow_updB (m : Int → Bool) (i ptr : Int) (h0 : 0 ≤ i) (h1 : i < ptr)
    (hm : m i = false) : unmarkedBelow (updB m i true) ptr + 1 = unmarkedBelow m ptr := by
  unfold unmarkedBelow
  refine filter_count_drop i.toNat ?_ ?_ ?_ (List.range ptr.toNat)
    (List.nodup_range ptr.toNat) ?_
  · intro a ha
    have hane : (a : Int) ≠ i := by omega
    simp [updB, hane]
  · have : ((i.toNat : Nat) : Int) = i := by omega
    simp [this, updB]
  · have : ((i.toNat : Nat) : Int) = i := by omega
    simp [this, hm]
  · rw [List.mem_range]
    omega

theorem updB_mono (m : Int → Bool) (i : Int) (j : Int) (hj : m j = true) :
    updB m i true j = true := by
  unfold updB
  split <;> simp [hj]

/-- Sequential exploration of a list of ids preserves the closure
property and marks each id in the list. -/
theorem mark_fold_closed (t : TypeTable) (fuel : Nat) (ptr : Int) (S : Int → Prop)
    (ihM : ∀ (m : Int → Bool) (i : Int), unmarkedBelow m ptr < fuel → ClosedExcept t ptr m S →
      (∀ j, m j = true → mark_and_explore t fuel ptr m i j = true) ∧
      mark_and_explore t fuel ptr m i i = true ∧
      ClosedExcept t ptr (mark_and_explore t fuel ptr m i) S) :
    ∀ (l : List Int) (m : Int → Bool), unmarkedBelow m ptr < fuel → ClosedExcept t ptr m S →
      (∀ j, m j = true →
        (l.foldl (fun mm c => mark_and_explore t fuel ptr mm c) m) j = true) ∧
      ClosedExcept t ptr (l.foldl (fun mm c => mark_and_explore t fuel ptr mm c) m) S ∧
      (∀ c ∈ l, (l.foldl (fun mm c => mark_and_explore t fuel ptr mm c) m) c = true) := by
  intro l
  induction l with
  | nil =>
    intro m _ hC
    exact ⟨fun j hj => hj, hC, by simp⟩
  | cons c l ihl =>
    intro m hμ hC
    obtain ⟨hmono, hci, hC1⟩ := ihM m c hμ hC
    have hμ1 : unmarkedBelow (mark_and_explore t fuel ptr m c) ptr < fuel :=
      lt_of_le_of_lt (unmarkedBelow_mono hmono ptr) hμ
    obtain ⟨hmono2, hC2, hall⟩ := ihl (mark_and_explore t fuel ptr m c) hμ1 hC1
    refine ⟨fun j hj => hmono2 j (hmono j hj), hC2, ?_⟩
    intro c2 hc2
    rcases List.mem_cons.mp hc2 with rfl | hc2l
    · exact hmono2 c2 hci
    · exact hall c2 hc2l

/-- Main property of `mark_and_explore` when the fuel dominates the
number of unmarked ids below `ptr`: marks only grow, `i` ends marked,
and the closure property (relative to any pending set `S`) is
preserved. -/
theorem mark_and_explore_closed (t : TypeTable)
    (Hout : ∀ j : Int, j < 0 → childrenList t j = []) :
    ∀ fuel : Nat, ∀ (ptr : Int) (S : Int → Prop) (m : Int → Bool) (i : Int),
      unmarkedBelow m ptr < fuel → ClosedExcept t ptr m S →
      (∀ j, m j = true → mark_and_explore t fuel ptr m i j = true) ∧
      mark_and_explore t fuel ptr m i i = true ∧
      ClosedExcept t ptr (mark_and_explore t fuel ptr m i) S := by
  intro fuel
  induction fuel with
  | zero =>
    intro ptr S m i hμ _
    omega
  | succ fuel ih =>
    intro ptr S m i hμ hC
    simp only [mark_and_explore]
    by_cases hmi : m i = true
    · rw [if_pos hmi]
      exact ⟨fun j hj => hj, hmi, hC⟩
    · rw [if_neg hmi]
      have hm0 : m i = false := by simpa using hmi
      by_cases hip : i < ptr
      · rw [if_pos hip]
        by_cases hi0 : i < 0
        · rw [Hout i hi0]
          have hres : List.foldl (fun mm c => mark_and_explore t fuel ptr mm c)
              (updB m i true) [] = updB m i true := rfl
          rw [hres]
          refine ⟨fun j hj => updB_mono m i j hj, by simp [updB], ?_⟩
          intro j hj hjp hjS c hc
          by_cases hji : j = i
          · rw [hji, Hout i hi0] at hc
            cases hc
          · rw [updB_other _ _ _ _ hji] at hj
            exact updB_mono m i c (hC j hj hjp hjS c hc)
        · have hcount := unmarkedBelow_updB m i ptr (by omega) hip hm0
          have hμ1 : unmarkedBelow (updB m i true) ptr < fuel := by omega
          have hC1 : ClosedExcept t ptr (updB m i true) (fun j => S j ∨ j = i) := by
            intro j hj hjp hjS c hc
            have hji : j ≠ i := fun he => hjS (Or.inr he)
            rw [updB_other _ _ _ _ hji] at hj
            exact updB_mono m i c (hC j hj hjp (fun h => hjS (Or.inl h)) c hc)
          obtain ⟨hmono, hC2, hallc⟩ := mark_fold_closed t fuel ptr (fun j => S j ∨ j = i)
            (fun m2 i2 hμ2 hC2 => ih ptr (fun j => S j ∨ j = i) m2 i2 hμ2 hC2)
            (childrenList t i) (updB m i true) hμ1 hC1
          refine ⟨?_, ?_, ?_⟩
          · intro j hj
            exact hmono j (updB_mono m i j hj)
          · exact hmono i (by simp [updB])
          · intro j hj hjp hjS c hc
            by_cases hji : j = i
            · subst hji
              exact hallc c hc
            · exact hC2 j hj hjp (fun h => by
                rcases h with h | h
                · exact hjS h
                · exact hji h) c hc
      · rw [if_neg hip]
        refine ⟨fun j hj => updB_mono m i j hj, by simp [updB], ?_⟩
        intro j hj hjp hjS c hc
        by_cases hji : j = i
        · subst hji
          exact absurd hjp hip
        · rw [updB_other _ _ _ _ hji] at hj
          exact updB_mono m i c (hC j hj hjp hjS c hc)

/-- `mark_reachable_types` with adequate fuel: marks only grow, the
closure below `ptr` is preserved, and every child of `i` ends marked. -/
theorem mark_reachable_closed (t : TypeTable)
    (Hout : ∀ j : Int, j < 0 → childrenList t j = [])
    (fuel : Nat) (ptr : Int) (m : Int → Bool) (i : Int)
    (hμ : unmarkedBelow m ptr < fuel) (hC : MarkClosed t ptr m) :
    (∀ j, m j = true → mark_reachable_types t fuel ptr m i j = true) ∧
    MarkClosed t ptr (mark_reachable_types t fuel ptr m i) ∧
    (∀ c ∈ childrenList t i, mark_reachable_types t fuel ptr m i c = true) := by
  unfold mark_reachable_types
  exact mark_fold_closed t fuel ptr (fun _ => False)
    (fun m i hμ hC => mark_and_explore_closed t Hout fuel ptr (fun _ => False) m i hμ hC)
    (childrenList t i) m hμ hC

/-- The propagation loop, processed from `start` for `cnt` steps:
marks only grow and the closure frontier advances to `start + cnt`. -/
theorem mark_loop_closed (t : TypeTable)
    (Hout : ∀ j : Int, j < 0 → childrenList t j = []) :
    ∀ (cnt start : Nat) (m : Int → Bool), start + cnt ≤ t.nelems →
      MarkClosed t ((start : Nat) : Int) m →
      (∀ j, m j = true →
        ((List.range' start cnt).foldl
          (fun (m : Int → Bool) (i : Nat) =>
            if m (i : Int) then mark_reachable_types t t.nelems (i : Int) m (i : Int) else m)
          m) j = true) ∧
      MarkClosed t (((start + cnt : Nat)) : Int)
        ((List.range' start cnt).foldl
          (fun (m : Int → Bool) (i : Nat) =>
            if m (i : Int) then mark_reachable_types t t.nelems (i : Int) m (i : Int) else m)
          m) := by
  intro cnt
  induction cnt with
  | zero =>
    intro start m _ hC
    exact ⟨fun j hj => hj, by simpa using hC⟩
  | succ cnt ih =>
    intro start m hle hC
    rw [List.range'_succ]
    have hstep : (List.range' (start + 1) cnt).foldl
        (fun (m : Int → Bool) (i : Nat) =>
          if m (i : Int) then mark_reachable_types t t.nelems (i : Int) m (i : Int) else m)
        (if m ((start : Nat) : Int) then
          mark_reachable_types t t.nelems ((start : Nat) : Int) m ((start : Nat) : Int)
        else m) =
        (start :: List.range' (start + 1) cnt).foldl
          (fun (m : Int → Bool) (i : Nat) =>
            if m (i : Int) then mark_reachable_types t t.nelems (i : Int) m (i : Int) else m)
          m := rfl
    rw [← hstep]
    by_cases hms : m ((start : Nat) : Int) = true
    · rw [if_pos hms]
      have hμ : unmarkedBelow m ((start : Nat) : Int) < t.nelems := by
        have h1 := unmarkedBelow_le m ((start : Nat) : Int)
        have h2 : ((start : Nat) : Int).toNat = start := by omega
        omega
      obtain ⟨hmono, hC1, hch⟩ := mark_reachable_closed t Hout t.nelems
        ((start : Nat) : Int) m ((start : Nat) : Int) hμ hC
      have hC2 : MarkClosed t (((start + 1 : Nat)) : Int)
          (mark_reachable_types t t.nelems ((start : Nat) : Int) m ((start : Nat) : Int)) := by
        intro j hj hjp hjS c hc
        by_cases hjs : j = ((start : Nat) : Int)
        · subst hjs
          exact hch c hc
        · have hjp2 : j < ((start : Nat) : Int) := by
            push_cast at hjp ⊢
            omega
          exact hC1 j hj hjp2 hjS c hc
      have := ih (start + 1)
        (mark_reachable_types t t.nelems ((start : Nat) : Int) m ((start : Nat) : Int))
        (by omega) hC2
      refine ⟨fun j hj => this.1 j (hmono j hj), ?_⟩
      have hcast : ((start + 1 + cnt : Nat) : Int) = ((start + (cnt + 1) : Nat) : Int) := by
        push_cast
        omega
      rw [← hcast]
      exact this.2
    · rw [if_neg hms]
      have hms0 : m ((start : Nat) : Int) = false := by simpa using hms
      have hC2 : MarkClosed t (((start + 1 : Nat)) : Int) m := by
        intro j hj hjp hjS c hc
        by_cases hjs : j = ((start : Nat) : Int)
        · rw [hjs, hms0] at hj
          cases hj
        · have hjp2 : j < ((start : Nat) : Int) := by
            push_cast at hjp ⊢
            omega
          exact hC j hj hjp2 hjS c hc
      have := ih (start + 1) m (by omega) hC2
      refine ⟨this.1, ?_⟩
      have hcast : ((start + 1 + cnt : Nat) : Int) = ((start + (cnt + 1) : Nat) : Int) := by
        push_cast
        omega
      rw [← hcast]
      exact this.2

/-- After `mark_live_types`, the marks are closed under taking
children, and no mark is ever cleared. -/
theorem mark_live_types_closed (t : TypeTable)
    (Hout : ∀ j : Int, j < 0 → childrenList t j = []) (m : Int → Bool) :
    (∀ j, m j = true → mark_live_types t m j = true) ∧
    MarkClosed t (t.nelems : Int) (mark_live_types t m) := by
  unfold mark_live_types
  rw [List.range_eq_range']
  have h0 : MarkClosed t ((0 : Nat) : Int) m := by
    intro j hj hjp _ c hc
    rw [Hout j (by exact_mod_cast hjp)] at hc
    cases hc
  have := mark_loop_closed t Hout t.nelems 0 m (by omega) h0
  simpa using this

theorem foldl_pres_mem {α β : Type} {P : α → Prop} (f : α → β → α) :
    ∀ l : List β, (∀ a b, b ∈ l → P a → P (f a b)) → ∀ a, P a → P (l.foldl f a) := by
  intro l
  induction l with
  | nil => exact fun _ a h => h
  | cons x l ih =>
    intro hf a h
    exact ih (fun a b hb ha => hf a b (by simp [hb]) ha) (f a x) (hf a x (by simp) h)

/-- Marks produced by the exploration stay inside the live ids. -/
theorem mark_and_explore_good (t : TypeTable) (hI : Inv t) :
    ∀ (fuel : Nat) (ptr : Int) (m : Int → Bool) (i : Int),
      (∀ j, m j = true → good_type t j) → good_type t i →
      ∀ j, mark_and_explore t fuel ptr m i j = true → good_type t j := by
  intro fuel
  induction fuel with
  | zero =>
    intro ptr m i hm hi j hj
    simp only [mark_and_explore] at hj
    by_cases hmi : m i = true
    · rw [if_pos hmi] at hj
      exact hm j hj
    · rw [if_neg hmi] at hj
      by_cases hji : j = i
      · exact hji ▸ hi
      · rw [updB_other _ _ _ _ hji] at hj
        exact hm j hj
  | succ fuel ih =>
    intro ptr m i hm hi j hj
    simp only [mark_and_explore] at hj
    by_cases hmi : m i = true
    · rw [if_pos hmi] at hj
      exact hm j hj
    · rw [if_neg hmi] at hj
      have hm1 : ∀ j, updB m i true j = true → good_type t j := by
        intro j hj
        by_cases hji : j = i
        · exact hji ▸ hi
        · rw [updB_other _ _ _ _ hji] at hj
          exact hm j hj
      by_cases hip : i < ptr
      · rw [if_pos hip] at hj
        refine foldl_pres_mem (P := fun m2 => ∀ j, m2 j = true → good_type t j)
          (fun mm c => mark_and_explore t fuel ptr mm c) (childrenList t i) ?_
          (updB m i true) hm1 j hj
        intro m2 c hc hm2
        exact ih ptr m2 c hm2 (hI.children_good i c hc)
      · rw [if_neg hip] at hj
        exact hm1 j hj

theorem mark_live_types_good (t : TypeTable) (hI : Inv t) (m : Int → Bool)
    (hm : ∀ j, m j = true → good_type t j) :
    ∀ j, mark_live_types t m j = true → good_type t j := by
  intro j hj
  unfold mark_live_types at hj
  refine foldl_pres_mem (P := fun m2 => ∀ j, m2 j = true → good_type t j)
    _ (List.range t.nelems) ?_ m hm j hj
  intro m2 c _ hm2
  by_cases hmc : m2 ((c : Nat) : Int) = true
  · rw [if_pos hmc]
    intro j2 hj2
    unfold mark_reachable_types at hj2
    refine foldl_pres_mem (P := fun m3 => ∀ j, m3 j = true → good_type t j)
      (fun mm c2 => mark_and_explore t t.nelems ((c : Nat) : Int) mm c2)
      (childrenList t ((c : Nat) : Int)) ?_ m2 hm2 j2 hj2
    intro m3 c2 hc2 hm3
    exact mark_and_explore_good t hI t.nelems ((c : Nat) : Int) m3 c2 hm3
      (hI.children_good _ c2 hc2)
  · rw [if_neg hmc]
    exact hm2

theorem gcRoots_good (t : TypeTable) (hI : Inv t) :
    ∀ j, gcRoots t j = true → good_type t j := by
  intro j hj
  unfold gcRoots at hj
  obtain ⟨hg0, hg1, hg2⟩ := prim_good t hI
  have hm0 : ∀ j, (t.stbl.foldl (fun m p => updB m p.2 true) t.mark) j = true →
      good_type t j := by
    intro j hj
    refine foldl_pres_mem (P := fun m2 => ∀ j, m2 j = true → good_type t j)
      (fun m p => updB m p.2 true) t.stbl ?_ t.mark (fun j hj => hI.mark_good j hj) j hj
    intro m2 p hp hm2 j2 hj2
    have hj3 : updB m2 p.2 true j2 = true := hj2
    by_cases hjp : j2 = p.2
    · exact hjp ▸ hI.stbl_good p hp
    · rw [updB_other _ _ _ _ hjp] at hj3
      exact hm2 j2 hj3
  by_cases h2 : j = real_id
  · exact h2 ▸ hg2
  · rw [updB_other _ _ _ _ h2] at hj
    by_cases h1 : j = int_id
    · exact h1 ▸ hg1
    · rw [updB_other _ _ _ _ h1] at hj
      by_cases h0 : j = bool_id
      · exact h0 ▸ hg0
      · rw [updB_other _ _ _ _ h0] at hj
        exact hm0 j hj

theorem sweepMarks_good (t : TypeTable) (hI : Inv t) :
    ∀ j, sweepMarks t j = true → good_type t j :=
  mark_live_types_good t hI (gcRoots t) (gcRoots_good t hI)

theorem gcRoots_mark (t : TypeTable) (j : Int) (hj : t.mark j = true) :
    gcRoots t j = true := by
  unfold gcRoots
  have hm0 : (t.stbl.foldl (fun m p => updB m p.2 true) t.mark) j = true := by
    refine foldl_pres_mem (P := fun m2 => m2 j = true)
      (fun m p => updB m p.2 true) t.stbl ?_ t.mark hj
    intro m2 p _ hm2
    exact updB_mono m2 p.2 j hm2
  exact updB_mono _ _ _ (updB_mono _ _ _ (updB_mono _ _ _ hm0))

theorem gcRoots_stbl (t : TypeTable) (p : String × Int) (hp : p ∈ t.stbl) :
    gcRoots t p.2 = true := by
  unfold gcRoots
  have hm0 : ∀ (l : List (String × Int)) (m : Int → Bool), p ∈ l →
      (l.foldl (fun m q => updB m q.2 true) m) p.2 = true := by
    intro l
    induction l with
    | nil => intro m hp; cases hp
    | cons q l ih =>
      intro m hp
      rcases List.mem_cons.mp hp with rfl | hp2
      · refine foldl_pres_mem (P := fun m2 => m2 p.2 = true)
          (fun m q => updB m q.2 true) l ?_ (updB m p.2 true) (by simp [updB])
        intro m2 q2 _ hm2
        exact updB_mono m2 q2.2 p.2 hm2
      · exact ih (updB m q.2 true) hp2
  exact updB_mono _ _ _ (updB_mono _ _ _ (updB_mono _ _ _ (hm0 t.stbl t.mark hp)))

/-- The out-of-range slots have no children (they are unused). -/
theorem children_out (t : TypeTable) (hI : Inv t) :
    ∀ j : Int, j < 0 → childrenList t j = [] := by
  intro j hj
  refine childrenList_other t j ?_ ?_ <;> rw [hI.kind_out j (Or.inl hj)] <;> simp

/-- At sweep time the marks are closed under taking children. -/
theorem sweepMarks_closed (t : TypeTable) (hI : Inv t) :
    MarkClosed t (t.nelems : Int) (sweepMarks t) :=
  (mark_live_types_closed t (children_out t hI) (gcRoots t)).2

/-- Mark-phase completeness: every id reachable from the GC roots is
marked at sweep time, although the explorer only descends into ids
below the loop pointer. -/
theorem sweepMarks_complete (t : TypeTable) (hI : Inv t) :
    ∀ j, RootReachable t j → sweepMarks t j = true := by
  intro j hj
  induction hj with
  | @mark i hm =>
    exact (mark_live_types_closed t (children_out t hI) (gcRoots t)).1 i (gcRoots_mark t i hm)
  | @stbl p hp =>
    exact (mark_live_types_closed t (children_out t hI) (gcRoots t)).1 p.2 (gcRoots_stbl t p hp)
  | prim_bool => exact (sweepMarks_prim t).1
  | prim_int => exact (sweepMarks_prim t).2.1
  | prim_real => exact (sweepMarks_prim t).2.2
  | @child i c hi hc ihj =>
    have hgi : good_type t i := sweepMarks_good t hI i ihj
    exact sweepMarks_closed t hI i ihj hgi.2.1 not_false c hc

/-!  ## GC: invariant preservation  -/

theorem sweep_list_htbl_sublist (m : Int → Bool) :
    ∀ (L : List Int) (t : TypeTable), (sweep_list m t L).htbl.Sublist t.htbl := by
  intro L
  induction L with
  | nil => intro t; exact List.Sublist.refl _
  | cons i L ih =>
    intro t
    have hstep : (sweep_step m t i).htbl.Sublist t.htbl := by
      rcases sweep_step_char m t i with ⟨_, hs⟩ | ⟨_, _, hs⟩
      · rw [hs]
      · rw [hs]
        by_cases hh : hconsKind (t.kind i)
        · simp only [if_pos hh]
          exact List.erase_sublist i t.htbl
        · simp only [if_neg hh]
          exact List.Sublist.refl _
    exact (ih (sweep_step m t i)).trans hstep

/-- Slots marked at sweep time keep their kind and descriptor through
the collection. -/
theorem gc_marked_frame (t : TypeTable) (j : Int) (hm : sweepMarks t j = true) :
    (type_table_gc t).kind j = t.kind j ∧ (type_table_gc t).desc j = t.desc j ∧
    (type_table_gc t).name j = t.name j := by
  have hu := sweep_list_untouched (sweepMarks t) (gcSweepIds t) t j
    (fun hc => by rw [hc.1] at hm; cases hm)
  rw [gc_kind, gc_desc, gc_name]
  exact hu

/-- The ids live after a collection are exactly the ids marked at sweep
time. -/
theorem gc_good_iff (t : TypeTable) (hI : Inv t) (j : Int) :
    good_type (type_table_gc t) j ↔ sweepMarks t j = true := by
  have hnel : (type_table_gc t).nelems = t.nelems := by
    rw [gc_nelems]
    exact (sweep_list_frame (sweepMarks t) (gcSweepIds t) t).1
  constructor
  · intro hg
    by_contra hm
    have hm2 : sweepMarks t j = false := by simpa using hm
    have hrange : j ∈ gcSweepIds t := by
      rw [mem_gcSweepIds]
      refine ⟨hg.1, ?_⟩
      rw [← hnel]
      exact hg.2.1
    by_cases he : erasableKind (t.kind j)
    · have := sweep_list_erased (sweepMarks t) (gcSweepIds t) t j (gcSweepIds_nodup t)
        hrange hm2 he
      rw [← gc_kind] at this
      exact hg.2.2 this.1
    · have hu := sweep_list_untouched (sweepMarks t) (gcSweepIds t) t j (fun hc => he hc.2)
      rw [← gc_kind] at hu
      rcases not_erasable_cases he with hk | hk | hk | hk
      · exact hg.2.2 (hu.1.trans hk)
      · have hj0 : j = bool_id := (hI.prim_ids j).1 hk
        rw [hj0, (sweepMarks_prim t).1] at hm2
        cases hm2
      · have hj1 : j = int_id := (hI.prim_ids j).2.1 hk
        rw [hj1, (sweepMarks_prim t).2.1] at hm2
        cases hm2
      · have hj2 : j = real_id := (hI.prim_ids j).2.2 hk
        rw [hj2, (sweepMarks_prim t).2.2] at hm2
        cases hm2
  · intro hm
    have hg := sweepMarks_good t hI j hm
    obtain ⟨hk, -, -⟩ := gc_marked_frame t j hm
    refine ⟨hg.1, ?_, ?_⟩
    · rw [hnel]
      exact hg.2.1
    · rw [hk]
      exact hg.2.2

/-- The caches after a collection: every surviving entry was an entry
before, and its keys and value are live after the collection. -/
theorem gc_supEntries_spec (t : TypeTable) :
    ∀ e ∈ supEntries (type_table_gc t), e ∈ supEntries t ∧
      good_type (type_table_gc t) e.1 ∧ good_type (type_table_gc t) e.2.1 ∧
      good_type (type_table_gc t) e.2.2 := by
  have hsup1 : (type_table_gc t).sup_tbl =
      Option.map (fun l => l.filter (fun e =>
        decide (good_type (type_table_gc t) e.1 ∧ good_type (type_table_gc t) e.2.1 ∧
          good_type (type_table_gc t) e.2.2)))
      ((sweep_list (sweepMarks t) t (gcSweepIds t)).sup_tbl) := rfl
  have hsup2 : (sweep_list (sweepMarks t) t (gcSweepIds t)).sup_tbl = t.sup_tbl :=
    (sweep_list_frame (sweepMarks t) (gcSweepIds t) t).2.2.2.1
  intro e he
  unfold supEntries at he
  rw [hsup1, hsup2] at he
  cases hst : t.sup_tbl with
  | none =>
    rw [hst] at he
    cases he
  | some l =>
    rw [hst] at he
    have he2 : e ∈ l.filter (fun e =>
        decide (good_type (type_table_gc t) e.1 ∧ good_type (type_table_gc t) e.2.1 ∧
          good_type (type_table_gc t) e.2.2)) := he
    have hmf := List.mem_filter.mp he2
    refine ⟨?_, ?_⟩
    · unfold supEntries
      rw [hst]
      exact hmf.1
    · simpa using hmf.2

theorem gc_infEntries_spec (t : TypeTable) :
    ∀ e ∈ infEntries (type_table_gc t), e ∈ infEntries t ∧
      good_type (type_table_gc t) e.1 ∧ good_type (type_table_gc t) e.2.1 ∧
      good_type (type_table_gc t) e.2.2 := by
  have hinf1 : (type_table_gc t).inf_tbl =
      Option.map (fun l => l.filter (fun e =>
        decide (good_type (type_table_gc t) e.1 ∧ good_type (type_table_gc t) e.2.1 ∧
          good_type (type_table_gc t) e.2.2)))
      ((sweep_list (sweepMarks t) t (gcSweepIds t)).inf_tbl) := rfl
  have hinf2 : (sweep_list (sweepMarks t) t (gcSweepIds t)).inf_tbl = t.inf_tbl :=
    (sweep_list_frame (sweepMarks t) (gcSweepIds t) t).2.2.2.2.1
  intro e he
  unfold infEntries at he
  rw [hinf1, hinf2] at he
  cases hst : t.inf_tbl with
  | none =>
    rw [hst] at he
    cases he
  | some l =>
    rw [hst] at he
    have he2 : e ∈ l.filter (fun e =>
        decide (good_type (type_table_gc t) e.1 ∧ good_type (type_table_gc t) e.2.1 ∧
          good_type (type_table_gc t) e.2.2)) := he
    have hmf := List.mem_filter.mp he2
    refine ⟨?_, ?_⟩
    · unfold infEntries
      rw [hst]
      exact hmf.1
    · simpa using hmf.2

/-- `type_table_gc` preserves the invariant. -/
theorem gc_inv (t : TypeTable) (hI : Inv t) : Inv (type_table_gc t) := by
  have frame := sweep_list_frame (sweepMarks t) (gcSweepIds t) t
  have hnel : (type_table_gc t).nelems = t.nelems := by
    rw [gc_nelems]
    exact frame.1
  obtain ⟨hm0, hm1, hm2⟩ := sweepMarks_prim t
  refine ⟨?_, ?_, ?_, ?_, ?_, ?_, ?_, ?_, ?_, ?_, ?_, ?_, ?_, ?_, ?_, ?_⟩
  · rw [hnel]
    exact hI.three_le
  · rw [(gc_marked_frame t bool_id hm0).1]
    exact hI.kind_bool
  · rw [(gc_marked_frame t int_id hm1).1]
    exact hI.kind_int
  · rw [(gc_marked_frame t real_id hm2).1]
    exact hI.kind_real
  · intro j hj
    rw [hnel] at hj
    have hnot : j ∉ gcSweepIds t := by
      rw [mem_gcSweepIds]
      omega
    have hu := sweep_list_not_mem (sweepMarks t) (gcSweepIds t) t j hnot
    rw [← gc_kind] at hu
    rw [hu.1]
    exact hI.kind_out j hj
  · intro j
    by_cases hm : sweepMarks t j = true
    · rw [(gc_marked_frame t j hm).1]
      exact hI.prim_ids j
    · have hm2x : sweepMarks t j = false := by simpa using hm
      by_cases hjr : j ∈ gcSweepIds t
      · by_cases he : erasableKind (t.kind j)
        · have herased := sweep_list_erased (sweepMarks t) (gcSweepIds t) t j
            (gcSweepIds_nodup t) hjr hm2x he
          rw [← gc_kind] at herased
          rw [herased.1]
          exact ⟨(fun h => nomatch h), (fun h => nomatch h), (fun h => nomatch h)⟩
        · have hu := sweep_list_untouched (sweepMarks t) (gcSweepIds t) t j (fun hc => he hc.2)
          rw [← gc_kind] at hu
          rw [hu.1]
          exact hI.prim_ids j
      · have hu := sweep_list_not_mem (sweepMarks t) (gcSweepIds t) t j hjr
        rw [← gc_kind] at hu
        rw [hu.1]
        exact hI.prim_ids j
  · intro j c hc
    by_cases hm : sweepMarks t j = true
    · obtain ⟨hk, hd, -⟩ := gc_marked_frame t j hm
      rw [@childrenList_congr t (type_table_gc t) j hk hd] at hc
      have hgj := sweepMarks_good t hI j hm
      have hcm : sweepMarks t c = true :=
        sweepMarks_closed t hI j hm hgj.2.1 not_false c hc
      exact (gc_good_iff t hI c).mpr hcm
    · exfalso
      have hm2x : sweepMarks t j = false := by simpa using hm
      have hkj : (type_table_gc t).kind j ≠ .TUPLE_TYPE ∧
          (type_table_gc t).kind j ≠ .FUNCTION_TYPE := by
        by_cases hjr : j ∈ gcSweepIds t
        · by_cases he : erasableKind (t.kind j)
          · have herased := sweep_list_erased (sweepMarks t) (gcSweepIds t) t j
              (gcSweepIds_nodup t) hjr hm2x he
            rw [← gc_kind] at herased
            rw [herased.1]
            exact ⟨(fun h => nomatch h), (fun h => nomatch h)⟩
          · have hu := sweep_list_untouched (sweepMarks t) (gcSweepIds t) t j
              (fun hcx => he hcx.2)
            rw [← gc_kind] at hu
            rw [hu.1]
            rcases not_erasable_cases he with hk | hk | hk | hk <;> rw [hk] <;>
              exact ⟨(fun h => nomatch h), (fun h => nomatch h)⟩
        · have hu := sweep_list_not_mem (sweepMarks t) (gcSweepIds t) t j hjr
          rw [← gc_kind] at hu
          rw [hu.1]
          have hout : t.kind j = .UNUSED_TYPE := by
            refine hI.kind_out j ?_
            rw [mem_gcSweepIds] at hjr
            omega
          rw [hout]
          exact ⟨(fun h => nomatch h), (fun h => nomatch h)⟩
      rw [childrenList_other _ _ hkj.1 hkj.2] at hc
      cases hc
  · intro p hp
    have hstbl : (type_table_gc t).stbl = t.stbl := by
      rw [gc_stbl]
      exact frame.2.2.1
    rw [hstbl] at hp
    have hm : sweepMarks t p.2 = true :=
      sweepMarks_complete t hI p.2 (RootReachable.stbl hp)
    exact (gc_good_iff t hI p.2).mpr hm
  · intro j hj
    exfalso
    have hj2 : (if 0 ≤ j ∧ j < (t.nelems : Int) then false else t.mark j) = true := hj
    by_cases hr : 0 ≤ j ∧ j < (t.nelems : Int)
    · rw [if_pos hr] at hj2
      cases hj2
    · rw [if_neg hr] at hj2
      have := (hI.mark_good j hj2).1
      have := (hI.mark_good j hj2).2.1
      omega
  · obtain ⟨l0, hch, hnd0, hmem0⟩ := hI.free_ok
    obtain ⟨E, hE1, hE2, hE3, hE4⟩ := sweep_list_chain (sweepMarks t) (gcSweepIds t) t l0
      (gcSweepIds_nodup t) (fun x hx => ((mem_gcSweepIds t x).mp hx).1) hch
      (fun x hx => (hmem0 x hx).2.2)
    refine ⟨E ++ l0, ?_, ?_, ?_⟩
    · rw [gc_free_idx]
      exact IsFreeChain_congr hE1 (fun x _ => by rw [gc_desc])
    · rw [List.nodup_append]
      refine ⟨hE3, hnd0, ?_⟩
      intro x hxE hxl0
      obtain ⟨-, -, hxe⟩ := (hE2 x).mp hxE
      rw [(hmem0 x hxl0).2.2] at hxe
      rcases hxe with h | h | h | h | h <;> cases h
    · intro x hx
      rcases List.mem_append.mp hx with hxE | hxl0
      · obtain ⟨hxL, hxm, hxe⟩ := (hE2 x).mp hxE
        obtain ⟨hx0, hx1⟩ := (mem_gcSweepIds t x).mp hxL
        have hx3 : 3 ≤ x := by
          by_contra hlt
          have hb : t.kind (0 : Int) = .BOOL_TYPE := hI.kind_bool
          have hi : t.kind (1 : Int) = .INT_TYPE := hI.kind_int
          have hr : t.kind (2 : Int) = .REAL_TYPE := hI.kind_real
          interval_cases x
          · rw [hb] at hxe
            rcases hxe with h | h | h | h | h <;> cases h
          · rw [hi] at hxe
            rcases hxe with h | h | h | h | h <;> cases h
          · rw [hr] at hxe
            rcases hxe with h | h | h | h | h <;> cases h
        refine ⟨hx3, by rw [hnel]; exact hx1, ?_⟩
        have := sweep_list_erased (sweepMarks t) (gcSweepIds t) t x (gcSweepIds_nodup t)
          hxL hxm hxe
        rw [← gc_kind] at this
        exact this.1
      · have hx0 := hmem0 x hxl0
        have hnoterase : ¬ erasableKind (t.kind x) := by
          rw [hx0.2.2]
          rintro (h | h | h | h | h) <;> cases h
        have hu := sweep_list_untouched (sweepMarks t) (gcSweepIds t) t x
          (fun hc => hnoterase hc.2)
        rw [← gc_kind] at hu
        refine ⟨hx0.1, by rw [hnel]; exact hx0.2.1, ?_⟩
        rw [hu.1]
        exact hx0.2.2
  · intro j hj
    have hhtbl := sweep_list_htbl (sweepMarks t) (gcSweepIds t) t (gcSweepIds_nodup t)
      hI.htbl_nodup
    rw [gc_htbl] at hj
    obtain ⟨hjmem, hjkeep⟩ := (hhtbl.2 j).mp hj
    obtain ⟨hgj, hhc⟩ := hI.htbl_good j hjmem
    have hjr : j ∈ gcSweepIds t := by
      rw [mem_gcSweepIds]
      exact ⟨hgj.1, hgj.2.1⟩
    have hm : sweepMarks t j = true := by
      by_contra hm
      exact hjkeep ⟨hjr, by simpa using hm, hhc⟩
    refine ⟨(gc_good_iff t hI j).mpr hm, ?_⟩
    rw [(gc_marked_frame t j hm).1]
    exact hhc
  · intro j hg hhc
    have hm : sweepMarks t j = true := (gc_good_iff t hI j).mp hg
    obtain ⟨hk, -, -⟩ := gc_marked_frame t j hm
    rw [hk] at hhc
    have hgj := sweepMarks_good t hI j hm
    have hjmem := hI.htbl_complete j hgj hhc
    have hhtbl := sweep_list_htbl (sweepMarks t) (gcSweepIds t) t (gcSweepIds_nodup t)
      hI.htbl_nodup
    rw [gc_htbl]
    refine (hhtbl.2 j).mpr ⟨hjmem, ?_⟩
    rintro ⟨-, hmf, -⟩
    rw [hm] at hmf
    cases hmf
  · have hhtbl := sweep_list_htbl (sweepMarks t) (gcSweepIds t) t (gcSweepIds_nodup t)
      hI.htbl_nodup
    rw [gc_htbl]
    exact hhtbl.1
  · rw [gc_htbl]
    have hsub := sweep_list_htbl_sublist (sweepMarks t) (gcSweepIds t) t
    have hpw := hI.htbl_uniq.sublist hsub
    have hhtbl := sweep_list_htbl (sweepMarks t) (gcSweepIds t) t (gcSweepIds_nodup t)
      hI.htbl_nodup
    refine hpw.imp_of_mem ?_
    intro a b ha hb hab hcon
    apply hab
    obtain ⟨hjmema, hjkeepa⟩ := (hhtbl.2 a).mp ha
    obtain ⟨hjmemb, hjkeepb⟩ := (hhtbl.2 b).mp hb
    obtain ⟨hga, hhca⟩ := hI.htbl_good a hjmema
    obtain ⟨hgb, hhcb⟩ := hI.htbl_good b hjmemb
    have hma : sweepMarks t a = true := by
      by_contra hm
      exact hjkeepa ⟨(mem_gcSweepIds t a).mpr ⟨hga.1, hga.2.1⟩, by simpa using hm, hhca⟩
    have hmb : sweepMarks t b = true := by
      by_contra hm
      exact hjkeepb ⟨(mem_gcSweepIds t b).mpr ⟨hgb.1, hgb.2.1⟩, by simpa using hm, hhcb⟩
    obtain ⟨hka, hda, -⟩ := gc_marked_frame t a hma
    obtain ⟨hkb, hdb, -⟩ := gc_marked_frame t b hmb
    rw [gc_kind, gc_desc] at hcon
    rw [gc_kind] at hka hkb
    rw [gc_desc] at hda hdb
    rw [hka, hkb] at hcon
    rw [hda, hdb] at hcon
    exact hcon
  · intro e he
    obtain ⟨hmem, hg0, hg1, hg2x⟩ := gc_supEntries_spec t e he
    exact ⟨(hI.sup_ok e hmem).1, hg0, hg1, Or.inr hg2x⟩
  · intro e he
    obtain ⟨hmem, hg0, hg1, hg2x⟩ := gc_infEntries_spec t e he
    exact ⟨(hI.inf_ok e hmem).1, hg0, hg1, Or.inr hg2x⟩

/-- A freshly initialized table satisfies the invariant. -/
theorem inv_init (n : Nat) : Inv (init_type_table n) := by
  obtain ⟨h1, h2, h3, h4, h5, h6, h7, h8, h9, h10, h11, h12⟩ := init_char n
  have hkind : ∀ j : Int, (init_type_table n).kind j =
      (if j = 2 then TypeKind.REAL_TYPE else if j = 1 then .INT_TYPE else
        if j = 0 then .BOOL_TYPE else .UNUSED_TYPE) := by
    intro j
    rw [h3]
    unfold upd
    rfl
  have hnotc : ∀ j : Int, (init_type_table n).kind j ≠ .TUPLE_TYPE ∧
      (init_type_table n).kind j ≠ .FUNCTION_TYPE := by
    intro j
    rw [hkind j]
    split_ifs <;> exact ⟨(fun h => nomatch h), (fun h => nomatch h)⟩
  refine ⟨?_, ?_, ?_, ?_, ?_, ?_, ?_, ?_, ?_, ?_, ?_, ?_, ?_, ?_, ?_, ?_⟩
  · rw [h1]
  · rw [hkind bool_id]
    rfl
  · rw [hkind int_id]
    rfl
  · rw [hkind real_id]
    rfl
  · intro i hi
    rw [h1] at hi
    rw [hkind i]
    have e2 : i ≠ 2 := by omega
    have e1 : i ≠ 1 := by omega
    have e0 : i ≠ 0 := by omega
    rw [if_neg e2, if_neg e1, if_neg e0]
  · intro i
    rw [hkind i]
    split_ifs with hi2 hi1 hi0
    · exact ⟨(fun h => nomatch h), (fun h => nomatch h), (fun h => hi2)⟩
    · exact ⟨(fun h => nomatch h), (fun h => hi1), (fun h => nomatch h)⟩
    · exact ⟨(fun h => hi0), (fun h => nomatch h), (fun h => nomatch h)⟩
    · exact ⟨(fun h => nomatch h), (fun h => nomatch h), (fun h => nomatch h)⟩
  · intro i c hc
    rw [childrenList_other _ _ (hnotc i).1 (hnotc i).2] at hc
    cases hc
  · intro p hp
    rw [h11] at hp
    cases hp
  · intro i hi
    rw [h12] at hi
    cases hi
  · refine ⟨[], .nil ?_, by simp, by simp⟩
    rw [h2]
    norm_num [NULL_TYPE]
  · intro i hi
    rw [h8] at hi
    cases hi
  · intro j hg hhc
    exfalso
    rw [hkind j] at hhc
    split_ifs at hhc <;> rcases hhc with h | h | h <;> cases h
  · rw [h8]
    exact List.nodup_nil
  · rw [h8]
    exact List.Pairwise.nil
  · intro e he
    unfold supEntries at he
    rw [h9] at he
    cases he
  · intro e he
    unfold infEntries at he
    rw [h10] at he
    cases he

/-- Every public operation preserves the invariant. -/
theorem inv_step {t t2 : TypeTable} (hI : Inv t) (hs : Step t t2) : Inv t2 := by
  cases hs with
  | @bv k hk => exact (bv_type_ok t k hI).1
  | @tuple e hlen he => exact (tuple_type_ok t e hI he).1
  | @fn r e hlen hr he => exact (function_type_ok t r e hI hr he).1
  | @scalar k hk => exact (scalar_type_ok t k hI).1
  | uninterpreted => exact (uninterpreted_type_ok t hI).1
  | @set_name i s hg => exact set_type_name_inv t i s hI hg
  | @remove_name s => exact remove_type_name_inv t s hI
  | @mark i hg => exact set_gc_mark_inv t i hI hg
  | sup h1 h2 hr =>
    exact (super_type_f_ok _ t _ _ _ t2 hI h1 h2 hr).1
  | inf h1 h2 hr =>
    exact (inf_type_f_ok _ t _ _ _ t2 hI h1 h2 hr).1
  | gc => exact gc_inv t hI

/-- Every reachable table state satisfies the invariant. -/
theorem inv_reachable {t : TypeTable} (h : Reachable t) : Inv t := by
  induction h with
  | init n => exact inv_init n
  | step hr hs ih => exact inv_step ih hs

/-- No two distinct live hash-consed ids carry the same payload. -/
theorem hcons_unique (t : TypeTable) (hI : Inv t) (i j : Int) (hgi : good_type t i)
    (hgj : good_type t j) (hhc : hconsKind (t.kind i)) (hne : i ≠ j) :
    ¬ (t.kind i = t.kind j ∧ t.desc i = t.desc j) := by
  rintro ⟨hk, hd⟩
  have hhcj : hconsKind (t.kind j) := hk ▸ hhc
  have hmi := hI.htbl_complete i hgi hhc
  have hmj := hI.htbl_complete j hgj hhcj
  have hsym : Symmetric (fun a b : Int => ¬ (t.kind a = t.kind b ∧ t.desc a = t.desc b)) := by
    rintro a b hab ⟨h1, h2⟩
    exact hab ⟨h1.symm, h2.symm⟩
  exact hI.htbl_uniq.forall hsym hmi hmj hne ⟨hk, hd⟩

/-- A second `bv_type` call with the same width returns the same id. -/
theorem bv_type_idem (t : TypeTable) (k : Nat) (hI : Inv t) :
    (bv_type (bv_type t k).2 k).1 = (bv_type t k).1 := by
  obtain ⟨hI2, -, hg1, heq1⟩ := bv_type_ok t k hI
  set i1 := (bv_type t k).1 with hi1
  set u := (bv_type t k).2 with hu
  have hhc : hconsKind (u.kind i1) := by
    rw [heq1.1]
    exact Or.inl rfl
  have hmem : i1 ∈ u.htbl := hI2.htbl_complete _ hg1 hhc
  unfold bv_type
  cases hfind : u.htbl.find? (fun i => decide (eq_bv_type u i k)) with
  | none =>
    exfalso
    have := List.find?_eq_none.mp hfind _ hmem
    simp only [decide_eq_true_eq] at this
    exact this heq1
  | some j =>
    have hpj : eq_bv_type u j k := by
      have := List.find?_some hfind
      simpa using this
    have hmemj := List.mem_of_find?_eq_some hfind
    have hgj := (hI2.htbl_good j hmemj).1
    by_contra hne
    refine hcons_unique u hI2 j i1 hgj hg1 ?_ hne ⟨?_, ?_⟩
    · rw [hpj.1]
      exact Or.inl rfl
    · rw [hpj.1, heq1.1]
    · rw [hpj.2, heq1.2]

/-- A second `tuple_type` call with the same elements returns the same
id. -/
theorem tuple_type_idem (t : TypeTable) (e : List Int) (hI : Inv t)
    (he : ∀ x ∈ e, good_type t x) :
    (tuple_type (tuple_type t e).2 e).1 = (tuple_type t e).1 := by
  obtain ⟨hI2, -, hg1, heq1⟩ := tuple_type_ok t e hI he
  set i1 := (tuple_type t e).1 with hi1
  set u := (tuple_type t e).2 with hu
  have hhc : hconsKind (u.kind i1) := by
    rw [heq1.1]
    exact Or.inr (Or.inl rfl)
  have hmem : i1 ∈ u.htbl := hI2.htbl_complete _ hg1 hhc
  unfold tuple_type
  cases hfind : u.htbl.find? (fun i => decide (eq_tuple_type u i e)) with
  | none =>
    exfalso
    have := List.find?_eq_none.mp hfind _ hmem
    simp only [decide_eq_true_eq] at this
    exact this heq1
  | some j =>
    have hpj : eq_tuple_type u j e := by
      have := List.find?_some hfind
      simpa using this
    have hmemj := List.mem_of_find?_eq_some hfind
    have hgj := (hI2.htbl_good j hmemj).1
    by_contra hne
    refine hcons_unique u hI2 j i1 hgj hg1 ?_ hne ⟨?_, ?_⟩
    · rw [hpj.1]
      exact Or.inr (Or.inl rfl)
    · rw [hpj.1, heq1.1]
    · rw [hpj.2, heq1.2]

/-- A second `function_type` call with the same range and domains
returns the same id. -/
theorem function_type_idem (t : TypeTable) (r : Int) (e : List Int) (hI : Inv t)
    (hr : good_type t r) (he : ∀ x ∈ e, good_type t x) :
    (function_type (function_type t r e).2 r e).1 = (function_type t r e).1 := by
  obtain ⟨hI2, -, hg1, heq1⟩ := function_type_ok t r e hI hr he
  set i1 := (function_type t r e).1 with hi1
  set u := (function_type t r e).2 with hu
  have hhc : hconsKind (u.kind i1) := by
    rw [heq1.1]
    exact Or.inr (Or.inr rfl)
  have hmem : i1 ∈ u.htbl := hI2.htbl_complete _ hg1 hhc
  unfold function_type
  cases hfind : u.htbl.find? (fun i => decide (eq_function_type u i r e)) with
  | none =>
    exfalso
    have := List.find?_eq_none.mp hfind _ hmem
    simp only [decide_eq_true_eq] at this
    exact this heq1
  | some j =>
    have hpj : eq_function_type u j r e := by
      have := List.find?_some hfind
      simpa using this
    have hmemj := List.mem_of_find?_eq_some hfind
    have hgj := (hI2.htbl_good j hmemj).1
    by_contra hne
    refine hcons_unique u hI2 j i1 hgj hg1 ?_ hne ⟨?_, ?_⟩
    · rw [hpj.1]
      exact Or.inr (Or.inr rfl)
    · rw [hpj.1, heq1.1]
    · rw [hpj.2, heq1.2]

/-- C1: hash-cons uniqueness.  In every reachable table state no two
distinct live ids of a hash-consed (compound) kind have structurally
identical payloads, and a repeated `bv_type`, `tuple_type` or
`function_type` call with structurally equal arguments (and no
intervening GC) returns the id of the first call. -/
theorem C1_hashcons_uniqueness (t : TypeTable) (h : Reachable t) :
    (∀ i j : Int, good_type t i → good_type t j → hconsKind (t.kind i) → i ≠ j →
      ¬ (t.kind i = t.kind j ∧ t.desc i = t.desc j)) ∧
    (∀ k : Nat, (bv_type (bv_type t k).2 k).1 = (bv_type t k).1) ∧
    (∀ e : List Int, (∀ x ∈ e, good_type t x) →
      (tuple_type (tuple_type t e).2 e).1 = (tuple_type t e).1) ∧
    (∀ (r : Int) (e : List Int), good_type t r → (∀ x ∈ e, good_type t x) →
      (function_type (function_type t r e).2 r e).1 = (function_type t r e).1) := by
  have hI := inv_reachable h
  exact ⟨fun i j hgi hgj hhc hne => hcons_unique t hI i j hgi hgj hhc hne,
    fun k => bv_type_idem t k hI,
    fun e he => tuple_type_idem t e hI he,
    fun r e hr he => function_type_idem t r e hI hr he⟩

theorem C1_hashcons_uniqueness_witness :
    (bv_type (bv_type (init_type_table 8) 5).2 5).1 = (bv_type (init_type_table 8) 5).1 :=
  (C1_hashcons_uniqueness (init_type_table 8) (.init 8)).2.1 5

/-- C7: the `UNKNOWN` marker never escapes the lattice engine: a
completed `super_type` or `inf_type` run on live arguments returns
`NULL_TYPE` or a live id, never `UNKNOWN`, and no cache record of the
resulting table stores `UNKNOWN` (so a cache hit cannot produce it). -/
theorem C7_unknown_never_escapes (t : TypeTable) (hR : Reachable t) (fuel : Nat)
    (tau1 tau2 r : Int) (t2 : TypeTable) (h1 : good_type t tau1) (h2 : good_type t tau2)
    (hcall : super_type_f fuel t tau1 tau2 = some (r, t2) ∨
      inf_type_f fuel t tau1 tau2 = some (r, t2)) :
    r ≠ UNKNOWN_TYPE ∧ (r = NULL_TYPE ∨ good_type t2 r) ∧
    (∀ e ∈ supEntries t2, e.2.2 ≠ UNKNOWN_TYPE) ∧
    (∀ e ∈ infEntries t2, e.2.2 ≠ UNKNOWN_TYPE) := by
  have hI := inv_reachable hR
  have hmain : Inv t2 ∧ (r = NULL_TYPE ∨ good_type t2 r) := by
    rcases hcall with hc | hc
    · have := super_type_f_ok fuel t tau1 tau2 r t2 hI h1 h2 hc
      exact ⟨this.1, this.2.2⟩
    · have := inf_type_f_ok fuel t tau1 tau2 r t2 hI h1 h2 hc
      exact ⟨this.1, this.2.2⟩
  obtain ⟨hI2, hres⟩ := hmain
  have hnu : ∀ x : Int, (x = NULL_TYPE ∨ good_type t2 x) → x ≠ UNKNOWN_TYPE := by
    intro x hx he
    rcases hx with hx | hx
    · rw [he] at hx
      norm_num [NULL_TYPE, UNKNOWN_TYPE] at hx
    · rw [he] at hx
      have := hx.1
      norm_num [UNKNOWN_TYPE] at this
  refine ⟨hnu r hres, hres, ?_, ?_⟩
  · intro e he
    exact hnu e.2.2 (hI2.sup_ok e he).2.2.2
  · intro e he
    exact hnu e.2.2 (hI2.inf_ok e he).2.2.2

theorem C7_unknown_never_escapes_witness :
    (2 : Int) ≠ UNKNOWN_TYPE ∧
    ((2 : Int) = NULL_TYPE ∨ good_type (init_type_table 10) (2 : Int)) ∧
    (∀ e ∈ supEntries (init_type_table 10), e.2.2 ≠ UNKNOWN_TYPE) ∧
    (∀ e ∈ infEntries (init_type_table 10), e.2.2 ≠ UNKNOWN_TYPE) :=
  C7_unknown_never_escapes (init_type_table 10) (.init 10) 1 1 2 2 (init_type_table 10)
    (by decide) (by decide) (Or.inl rfl)

/-- C6 (amended): cache-entry invariant.  In every reachable state,
every record `(k0, k1) → v` of the join or meet cache satisfies
`k0 < k1` with `k0` and `k1` live, and `v` is either `NULL_TYPE` (a
memoized negative result) or a live id — the original claim that all
three components are live is false, see the counterexample. -/
theorem C6_cache_entry_invariant (t : TypeTable) (h : Reachable t) :
    (∀ e ∈ supEntries t, e.1 < e.2.1 ∧ good_type t e.1 ∧ good_type t e.2.1 ∧
      (e.2.2 = NULL_TYPE ∨ good_type t e.2.2)) ∧
    (∀ e ∈ infEntries t, e.1 < e.2.1 ∧ good_type t e.1 ∧ good_type t e.2.1 ∧
      (e.2.2 = NULL_TYPE ∨ good_type t e.2.2)) := by
  have hI := inv_reachable h
  exact ⟨fun e he => hI.sup_ok e he, fun e he => hI.inf_ok e he⟩

theorem C6_cache_entry_invariant_witness :
    (∀ e ∈ supEntries (init_type_table 6), e.1 < e.2.1 ∧
      good_type (init_type_table 6) e.1 ∧ good_type (init_type_table 6) e.2.1 ∧
      (e.2.2 = NULL_TYPE ∨ good_type (init_type_table 6) e.2.2)) ∧
    (∀ e ∈ infEntries (init_type_table 6), e.1 < e.2.1 ∧
      good_type (init_type_table 6) e.1 ∧ good_type (init_type_table 6) e.2.1 ∧
      (e.2.2 = NULL_TYPE ∨ good_type (init_type_table 6) e.2.2)) :=
  C6_cache_entry_invariant (init_type_table 6) (.init 6)

/-- C6 counterexample: a reachable state whose join cache holds a
record with value `NULL_TYPE`, which is not a live type id — obtained
by asking for the supremum of the incompatible function types
`bool -> bool` (sic: `[int] -> bool`) and `[real] -> bool`.  This
refutes the claim that all three components of every cache entry are
live. -/
theorem C6_cache_entry_counterexample :
    ∃ t : TypeTable, Reachable t ∧ ∃ e ∈ supEntries t, ¬ good_type t e.2.2 := by
  have r0 : Reachable (init_type_table 10) := .init 10
  have s1 : Step (init_type_table 10)
      (function_type (init_type_table 10) bool_id [int_id]).2 :=
    Step.fn (by decide) (by decide) (by decide)
  have r1 : Reachable (function_type (init_type_table 10) bool_id [int_id]).2 :=
    .step r0 s1
  have s2 : Step (function_type (init_type_table 10) bool_id [int_id]).2
      (function_type (function_type (init_type_table 10) bool_id [int_id]).2
        bool_id [real_id]).2 :=
    Step.fn (by decide) (by decide) (by decide)
  have r2 : Reachable (function_type (function_type (init_type_table 10) bool_id [int_id]).2
      bool_id [real_id]).2 := .step r1 s2
  have hr3 : super_type_f 1
      (function_type (function_type (init_type_table 10) bool_id [int_id]).2
        bool_id [real_id]).2 3 4 =
      some (NULL_TYPE, add_sup (ensure_sup_tbl
        (function_type (function_type (init_type_table 10) bool_id [int_id]).2
          bool_id [real_id]).2) 3 4 NULL_TYPE) := by rfl
  have s3 : Step (function_type (function_type (init_type_table 10) bool_id [int_id]).2
      bool_id [real_id]).2
      (add_sup (ensure_sup_tbl
        (function_type (function_type (init_type_table 10) bool_id [int_id]).2
          bool_id [real_id]).2) 3 4 NULL_TYPE) :=
    Step.sup (by decide) (by decide) hr3
  refine ⟨_, .step r2 s3, (3, 4, NULL_TYPE), ?_, ?_⟩
  · decide
  · decide

/-- C2: GC soundness.  In every reachable state: every id reachable
from a root (an externally marked id, a symbol-table binding, or one of
the three primitives) survives `type_table_gc` with kind and descriptor
intact — in particular the restricted mark pass, which only descends
into children below the loop pointer, marks everything reachable from
the roots; the live ids after the collection are exactly the ids marked
at sweep time, the primitives among them; the purged caches reference
only live ids; and the reclaimed ids sit on the new free list exactly
once each. -/
theorem C2_gc_soundness (t : TypeTable) (hR : Reachable t) :
    (∀ j, RootReachable t j → good_type (type_table_gc t) j ∧
      (type_table_gc t).kind j = t.kind j ∧ (type_table_gc t).desc j = t.desc j) ∧
    (∀ j, good_type (type_table_gc t) j ↔ sweepMarks t j = true) ∧
    (sweepMarks t bool_id = true ∧ sweepMarks t int_id = true ∧
      sweepMarks t real_id = true) ∧
    (∀ e ∈ supEntries (type_table_gc t), good_type (type_table_gc t) e.1 ∧
      good_type (type_table_gc t) e.2.1 ∧ good_type (type_table_gc t) e.2.2) ∧
    (∀ e ∈ infEntries (type_table_gc t), good_type (type_table_gc t) e.1 ∧
      good_type (type_table_gc t) e.2.1 ∧ good_type (type_table_gc t) e.2.2) ∧
    (∃ l, IsFreeChain (type_table_gc t) (type_table_gc t).free_idx l ∧
      ∀ j ∈ gcReclaimed t, l.count j = 1) := by
  have hI := inv_reachable hR
  refine ⟨?_, fun j => gc_good_iff t hI j, sweepMarks_prim t, ?_, ?_, ?_⟩
  · intro j hj
    have hm := sweepMarks_complete t hI j hj
    obtain ⟨hk, hd, -⟩ := gc_marked_frame t j hm
    exact ⟨(gc_good_iff t hI j).mpr hm, hk, hd⟩
  · intro e he
    exact (gc_supEntries_spec t e he).2
  · intro e he
    exact (gc_infEntries_spec t e he).2
  · obtain ⟨l0, hch, hnd0, hmem0⟩ := hI.free_ok
    obtain ⟨E, hE1, hE2, hE3, -⟩ := sweep_list_chain (sweepMarks t) (gcSweepIds t) t l0
      (gcSweepIds_nodup t) (fun x hx => ((mem_gcSweepIds t x).mp hx).1) hch
      (fun x hx => (hmem0 x hx).2.2)
    have hnd : (E ++ l0).Nodup := by
      rw [List.nodup_append]
      refine ⟨hE3, hnd0, ?_⟩
      intro x hxE hxl0
      obtain ⟨-, -, hxe⟩ := (hE2 x).mp hxE
      rw [(hmem0 x hxl0).2.2] at hxe
      rcases hxe with h | h | h | h | h <;> cases h
    refine ⟨E ++ l0, ?_, ?_⟩
    · rw [gc_free_idx]
      exact IsFreeChain_congr hE1 (fun x _ => by rw [gc_desc])
    · intro j hj
      have hjE : j ∈ E := by
        obtain ⟨h0, h1, hm, he⟩ := (mem_gcReclaimed t j).mp hj
        exact (hE2 j).mpr ⟨(mem_gcSweepIds t j).mpr ⟨h0, h1⟩, hm, he⟩
      exact List.count_eq_one_of_mem hnd (List.mem_append.mpr (Or.inl hjE))

theorem C2_gc_soundness_witness :
    good_type (type_table_gc (init_type_table 7)) bool_id ∧
    good_type (type_table_gc (init_type_table 7)) int_id ∧
    good_type (type_table_gc (init_type_table 7)) real_id :=
  ⟨((C2_gc_soundness (init_type_table 7) (.init 7)).1 bool_id .prim_bool).1,
   ((C2_gc_soundness (init_type_table 7) (.init 7)).1 int_id .prim_int).1,
   ((C2_gc_soundness (init_type_table 7) (.init 7)).1 real_id .prim_real).1⟩

theorem C3_function_type_flag_derivation_witness :
    goodFlags (type_flags (init_type_table 4) bool_id) ∧
    (new_function_type (init_type_table 4) [bool_id] bool_id).2.flags
        (new_function_type (init_type_table 4) [bool_id] bool_id).1 &&& TYPE_IS_UNIT_MASK =
      type_flags (init_type_table 4) bool_id &&& TYPE_IS_UNIT_MASK :=
  ⟨by decide, (C3_function_type_flag_derivation (init_type_table 4) [bool_id] bool_id
    (by decide) (by decide)).1⟩

theorem C4_function_type_cardinality_witness :
    flagsCardOk (init_type_table 4) bool_id ∧
    ((new_function_type (init_type_table 4) [bool_id, bool_id, bool_id, bool_id, bool_id]
        bool_id).2.card
        (new_function_type (init_type_table 4) [bool_id, bool_id, bool_id, bool_id, bool_id]
          bool_id).1 = 0 ∧
     (new_function_type (init_type_table 4) [bool_id, bool_id, bool_id, bool_id, bool_id]
        bool_id).2.flags
        (new_function_type (init_type_table 4) [bool_id, bool_id, bool_id, bool_id, bool_id]
          bool_id).1 = SMALL_TYPE_FLAGS ∧
     prodCards (init_type_table 4) [bool_id, bool_id, bool_id, bool_id, bool_id] = 32 ∧
     min (type_card (init_type_table 4) bool_id
          ^ prodCards (init_type_table 4) [bool_id, bool_id, bool_id, bool_id, bool_id])
        UINT32_MAX = UINT32_MAX) :=
  ⟨by decide, (C4_function_type_cardinality (init_type_table 4) [bool_id, bool_id] bool_id
    (by decide) (by decide)).2.2.2.2.2⟩

theorem C5_tuple_type_cardinality_flags_witness :
    flagsCardOk (init_type_table 4) bool_id ∧
    (new_tuple_type (init_type_table 4) [bool_id, bool_id]).2.card
        (new_tuple_type (init_type_table 4) [bool_id, bool_id]).1 =
      min (prodCards (init_type_table 4) [bool_id, bool_id]) UINT32_MAX :=
  ⟨by decide, (C5_tuple_type_cardinality_flags (init_type_table 4) [bool_id, bool_id]
    (by decide)).1⟩

theorem C8_scalar_uninterpreted_nominal_witness :
    1 ≤ 3 ∧ (new_scalar_type (init_type_table 4) 3).2.card
      (new_scalar_type (init_type_table 4) 3).1 = 3 :=
  ⟨by decide, (C8_scalar_uninterpreted_nominal (init_type_table 4) 3 (by decide)
    (allocOk_init 4)).2.2.1⟩

theorem C9_symbol_table_shadowing_witness :
    get_type_by_name (set_type_name (set_type_name (init_type_table 4) 1 "X") 2 "X") "X"
      = 2 :=
  (C9_symbol_table_shadowing (init_type_table 4) 1 2 "X" (by decide)).1

end Types
